import Mathlib

/-!
# Document-to-answer pipeline of `server/services/llmService.js`

A shallow embedding of the `LLMService` class: the chunker
(`splitTextIntoChunks`) as pure functions over sequences of UTF-16 code
units, and the methods that talk to the outside (`extractTextFromDocument`,
`generateEmbeddings`, `storeEmbeddings`, `processDocument`, `searchChunks`,
`generateAnswer`, `processQuery`, `processMultipleQueries`) as state-passing
programs over a log of the calls made to the external collaborators. The
middleware `authenticateToken` of `server/middleware/auth.js` is embedded as a
function of the `authorization` header.

Conventions.
* A JavaScript string is the list of its UTF-16 code units (`JsString`).
* Integers of the program (`start`, `end`, `chunkSize`, `overlap`, indices)
  are `Int`; they are assumed to be below `2^53` in magnitude, where the
  arithmetic of JavaScript numbers on them is exact.
* The one non-integer computation, `start + chunkSize * 0.7`, is modelled
  exactly as IEEE-754 binary64 arithmetic (round to nearest, ties to even)
  on values scaled by `2^53`.
* A loop that may not terminate takes the number of iterations it is allowed
  (`fuel`) and answers `none` when they do not suffice.
* A thrown `Error` is its `message`; `console.log` and `console.error` have
  no effect on results and are omitted.
* The clients of the service are built in `initialize()`; a construction step
  makes no call, and whether it returns or throws is given by the environment.

Layout: the definitions, then the lemmas, then the properties `C1`, `C2`, ...
in order.
-/

namespace LLMService

/-! ## JavaScript strings -/

/-- A JavaScript string: its sequence of UTF-16 code units. -/
abbrev JsString := List Nat

/-- UTF-16 encoding of one Unicode scalar value. -/
def utf16 (c : Char) : List Nat :=
  if c.toNat < 0x10000 then [c.toNat]
  else [0xD800 + (c.toNat - 0x10000) / 0x400, 0xDC00 + (c.toNat - 0x10000) % 0x400]

/-- The JavaScript string denoted by a string literal. -/
def units (s : String) : JsString :=
  (s.toList.map utf16).flatten

/-- Code unit of `'.'`. -/
def period : Nat := 46

/-- Code unit of `'\n'`. -/
def newline : Nat := 10

/-- Code units removed by `String.prototype.trim`: the ECMAScript `WhiteSpace`
and `LineTerminator` productions. -/
def isWhiteSpace (u : Nat) : Bool :=
  u == 0x09 || u == 0x0A || u == 0x0B || u == 0x0C || u == 0x0D || u == 0x20 ||
  u == 0xA0 || u == 0x1680 || (0x2000 ≤ u && u ≤ 0x200A) || u == 0x2028 ||
  u == 0x2029 || u == 0x202F || u == 0x205F || u == 0x3000 || u == 0xFEFF

/-- The builtin `s.trim()`. -/
def trim (s : JsString) : JsString :=
  (s.dropWhile isWhiteSpace).rdropWhile isWhiteSpace

/-- The builtin `s.slice(start, stop)`, with the relative-index rule of
`String.prototype.slice`: a negative index counts from the end of the string. -/
def slice (s : JsString) (start stop : Int) : JsString :=
  let len : Int := s.length
  let lo : Int := if start < 0 then max (len + start) 0 else min start len
  let hi : Int := if stop < 0 then max (len + stop) 0 else min stop len
  (s.drop lo.toNat).take (max (hi - lo) 0).toNat

/-- The builtin `s.lastIndexOf(u)` for a single code unit `u`: the index of its last
occurrence, or `-1`. -/
def lastIndexOf : JsString → Nat → Int
  | [], _ => -1
  | x :: xs, u =>
    if 0 ≤ lastIndexOf xs u then lastIndexOf xs u + 1
    else if x = u then 0 else -1

/-! ## The threshold `start + chunkSize * 0.7` in binary64 -/

/-- The scale `2^53` of the fixed-point representation of binary64 values. -/
def two53 : Nat := 9007199254740992

/-- The number of low bits that `a` has in excess of 53 significant bits: the
least `k` with `a / 2^k < 2^53` (`fuel` bounds the search; `a` itself is
enough). -/
def excessBits : Nat → Nat → Nat
  | 0, _ => 0
  | fuel + 1, a => if a < two53 then 0 else excessBits fuel (a / 2) + 1

/-- Round a natural number to 53 significant bits, to nearest, ties to even. -/
def roundSig53 (a : Nat) : Nat :=
  let shift := excessBits a a
  let q := a / 2 ^ shift
  let r := a % 2 ^ shift
  if 2 ^ shift < 2 * r ∨ (2 * r = 2 ^ shift ∧ q % 2 = 1) then (q + 1) * 2 ^ shift
  else q * 2 ^ shift

/-- Rounding to binary64 of the real number `x / 2^53` (result again scaled by
`2^53`); the exponent range is not modelled. -/
def fl (x : Int) : Int :=
  if x < 0 then -((roundSig53 x.natAbs : Nat) : Int) else ((roundSig53 x.natAbs : Nat) : Int)

/-- The binary64 literal `0.7`, scaled by `2^53`:
`0.7 = 0x3FE6666666666666 = 6305039478318694 / 2^53`. -/
def seventyPercent : Int := 6305039478318694

/-- The value of `start + chunkSize * 0.7`, scaled by `2^53`. -/
def threshold (start chunkSize : Int) : Int :=
  fl (start * two53 + fl (chunkSize * seventyPercent))

/-- The test `breakPoint > start + chunkSize * 0.7`. -/
def pastThreshold (breakPoint start chunkSize : Int) : Bool :=
  decide (threshold start chunkSize < breakPoint * two53)

/-! ## The chunker -/

/-- One execution of the body of the `while` loop of `splitTextIntoChunks`, up
to the update of `start`: the segment `chunk` it has cut and the new value of
the cursor `start`. -/
def cutWindow (text : JsString) (chunkSize overlap start : Int) : JsString × Int :=
  let stop : Int := min (start + chunkSize) text.length
  let chunk := slice text start stop
  if stop < text.length then
    let lastPeriod := lastIndexOf chunk period
    let lastNewline := lastIndexOf chunk newline
    let breakPoint := max lastPeriod lastNewline
    if pastThreshold breakPoint start chunkSize then
      (slice chunk 0 (breakPoint + 1), start + breakPoint + 1)
    else
      (chunk, stop - overlap)
  else
    (chunk, stop)

/-- The `chunks` array after the filter `if (chunk.trim().length > 50)`. -/
def pushChunk (chunks : List JsString) (chunk : JsString) : List JsString :=
  if 50 < (trim chunk).length then chunks ++ [trim chunk] else chunks

/-- The `while (start < text.length)` loop, run for at most `fuel` iterations:
`some chunks` when the loop exits within them, `none` when it is still running
after them. -/
def splitLoop (text : JsString) (chunkSize overlap : Int) :
    Nat → Int → List JsString → Option (List JsString)
  | 0, start, chunks =>
    if start < text.length then none else some chunks
  | fuel + 1, start, chunks =>
    if start < text.length then
      splitLoop text chunkSize overlap fuel (cutWindow text chunkSize overlap start).2
        (pushChunk chunks (cutWindow text chunkSize overlap start).1)
    else some chunks

/-- The method `splitTextIntoChunks(text, chunkSize = 1000, overlap = 200)`, the loop being
allowed `fuel` iterations. -/
def splitTextIntoChunks (fuel : Nat) (text : JsString) (chunkSize : Int := 1000)
    (overlap : Int := 200) : Option (List JsString) :=
  splitLoop text chunkSize overlap fuel 0 []

/-- The property that the loop maintains for every retained chunk: more than 50
code units after trimming, at most `chunkSize` code units. -/
def ChunkOk (chunkSize : Int) (ch : JsString) : Prop :=
  50 < (trim ch).length ∧ (ch.length : Int) ≤ chunkSize

/-! ## External collaborators and the effect model

The service talks to four collaborators: the document source (`axios.get`), the
parsers (`pdf-parse`, `mammoth`), the language-model provider (`openai`) and
the vector store (`pinecone`); it also reads the clock. A computation of the
service is a function from the log of the calls made so far to an outcome and
the extended log. The answers of the collaborators are given by an
environment of stubs; each stub sees the log, so an environment can fail on
its n-th call only. -/

/-- An embedding vector; its components are never inspected by the service. -/
abbrev Embedding := List Int

/-- The `input` of `openai.embeddings.create`: an array of texts, or one text. -/
inductive EmbedInput where
  | batch (texts : List JsString)
  | single (text : JsString)
  deriving DecidableEq

/-- The `metadata` argument of `storeEmbeddings`. -/
structure Metadata where
  documentUrl : JsString
  documentType : JsString
  totalChunks : Nat
  textChunks : List JsString
  deriving DecidableEq

/-- One element of `vectors` in `storeEmbeddings`: `text` is
`metadata.textChunks[index]`, which is `undefined` (`none`) past the end. -/
structure VectorRecord where
  id : JsString
  values : Embedding
  metadata : Metadata
  chunkIndex : Nat
  text : Option JsString
  timestamp : JsString
  deriving DecidableEq

/-- One element of `searchResponse.matches`. -/
structure StoreMatch where
  score : ℚ
  text : JsString
  chunkIndex : Nat
  documentUrl : JsString
  deriving DecidableEq

/-- One element of the array returned by `searchChunks`. -/
structure RetrievalMatch where
  score : ℚ
  text : JsString
  chunkIndex : Nat
  documentUrl : JsString
  deriving DecidableEq

/-- A call to an external collaborator, or a reading of the clock. -/
inductive Call where
  | now
  | httpGet (url : JsString)
  | pdfParse (buffer : List Nat)
  | extractRawText (buffer : List Nat)
  | embeddingsCreate (input : EmbedInput)
  | upsert (vectors : List VectorRecord) (nspace : JsString)
  | query (vector : Embedding) (nspace : JsString) (topK : Nat)
  | chatCompletion (systemContent userContent : JsString) (maxTokens : Nat) (temperature : ℚ)
  deriving DecidableEq

/-- What a call or a computation ends in: a value, or a thrown `Error` (its `message`). -/
inductive Outcome (α : Type) where
  | returned (value : α)
  | thrown (message : JsString)
  deriving DecidableEq

/-- The environment: configuration, the outcomes of building the clients, clock and the
collaborators' answers, each answer as a function of the log of the calls made before.
`newOpenAI` is the outcome of `new OpenAI({ apiKey })`, `newPinecone` the one of
`new Pinecone({ apiKey, environment })` and `pineconeIndex` the one of
`this.pinecone.Index(name)`: each returns or throws, as the installed package and the
configuration have it, and makes no call. -/
structure Env where
  openaiApiKey : Option JsString
  pineconeApiKey : Option JsString
  newOpenAI : Outcome Unit
  newPinecone : Outcome Unit
  pineconeIndex : Outcome Unit
  clock : List Call → Nat
  toISOString : Nat → JsString
  formatNumber : ℚ → JsString
  utf8Decode : List Nat → JsString
  httpGet : List Call → JsString → Outcome (List Nat)
  pdfParse : List Call → List Nat → Outcome JsString
  extractRawText : List Call → List Nat → Outcome JsString
  embeddingsCreate : List Call → EmbedInput → Outcome (List Embedding)
  upsert : List Call → List VectorRecord → JsString → Outcome Unit
  query : List Call → Embedding → JsString → Nat → Outcome (List StoreMatch)
  chatCompletion : List Call → JsString → JsString → Nat → ℚ → Outcome (List JsString)

/-- A computation of the service. -/
def Eff (α : Type) : Type := List Call → Outcome α × List Call

/-- The statement `return a`. -/
def Eff.pure {α : Type} (a : α) : Eff α :=
  fun log => (Outcome.returned a, log)

/-- Sequencing: a thrown error skips the continuation. -/
def Eff.bind {α β : Type} (x : Eff α) (f : α → Eff β) : Eff β :=
  fun log =>
    match x log with
    | (Outcome.returned a, log1) => f a log1
    | (Outcome.thrown e, log1) => (Outcome.thrown e, log1)

instance : Monad Eff where
  pure := Eff.pure
  bind := Eff.bind

/-- The statement `throw new Error(message)`. -/
def throwNew {α : Type} (message : JsString) : Eff α :=
  fun log => (Outcome.thrown message, log)

/-- The statement `try { body } catch (error) { handler(error.message) }`. -/
def tryCatch {α : Type} (body : Eff α) (handler : JsString → Eff α) : Eff α :=
  fun log =>
    match body log with
    | (Outcome.returned a, log1) => (Outcome.returned a, log1)
    | (Outcome.thrown e, log1) => handler e log1

/-- An awaited call to a collaborator: it is logged, and its outcome is the stub's answer
given the log before the call. -/
def call {α : Type} (c : Call) (answer : List Call → Outcome α) : Eff α :=
  fun log => (answer log, log ++ [c])

/-- The reading `Date.now()`, and the instant of `new Date()`. -/
def now (env : Env) : Eff Nat :=
  fun log => (Outcome.returned (env.clock log), log ++ [Call.now])

/-! ## The service -/

/-- Decimal numeral of a natural number, as in a template literal. -/
def decimal (n : Nat) : JsString :=
  (Nat.toDigits 10 n).map Char.toNat

/-- The builtin `s.toLowerCase()` on ASCII letters. Only ASCII letters lower-case to the letters of
`pdf`, `docx` and `txt`, so the comparisons of `extractTextFromDocument` are decided as by the
full mapping. -/
def toLowerCase (s : JsString) : JsString :=
  s.map fun u => if 65 ≤ u ∧ u ≤ 90 then u + 32 else u

/-- The builtin `parts.join(sep)`. -/
def join (sep : JsString) : List JsString → JsString
  | [] => []
  | [s] => s
  | s :: t :: rest => s ++ sep ++ join sep (t :: rest)

/-- A value of `process.env` that makes `initialize` throw: unset, empty, or the placeholder. -/
def unconfigured (key : Option JsString) (placeholder : JsString) : Bool :=
  match key with
  | none => true
  | some k => k == [] || k == placeholder

/-- The evaluation of `new OpenAI(...)`, of `new Pinecone(...)` or of `pinecone.Index(...)`: no
call is made, and the outcome is the one that the environment gives. -/
def construct (outcome : Outcome Unit) : Eff Unit :=
  fun log => (outcome, log)

/-- The method `initialize()`: the two configuration checks, then the clients. The source builds
a client when its field is not yet set (`if (!this.openai)`, `if (!this.pinecone)`) and keeps
it. Building a client makes no call and has the same outcome whenever it is evaluated, so a
constructor that throws throws at every call (the field stays unset), and one that returns
gives at a later call what the first call has kept: the model evaluates the three steps at
every call. It covers the runs entered with `this.pinecone` and `this.index` both unset or
both set; the two are assigned together, and only an `Index` that throws leaves them apart
for the runs after it. An error thrown by a step leaves `initialize()` as it is. -/
def initializeClients (env : Env) : Eff Unit :=
  if unconfigured env.openaiApiKey (units "your_openai_api_key_here") then
    throwNew (units "OPENAI_API_KEY is not configured. Please update the .env file with your OpenAI API key.")
  else if unconfigured env.pineconeApiKey (units "your_pinecone_api_key_here") then
    throwNew (units "PINECONE_API_KEY is not configured. Please update the .env file with your Pinecone API key.")
  else do
    construct env.newOpenAI
    construct env.newPinecone
    construct env.pineconeIndex

/-- The method `extractTextFromDocument(documentUrl, documentType = 'pdf')`. -/
def extractTextFromDocument (env : Env) (documentUrl : JsString)
    (documentType : JsString := units "pdf") : Eff JsString :=
  tryCatch
    (do
      let buffer ← call (Call.httpGet documentUrl) (fun log => env.httpGet log documentUrl)
      if toLowerCase documentType = units "pdf" then
        call (Call.pdfParse buffer) (fun log => env.pdfParse log buffer)
      else if toLowerCase documentType = units "docx" then
        call (Call.extractRawText buffer) (fun log => env.extractRawText log buffer)
      else if toLowerCase documentType = units "txt" then
        pure (env.utf8Decode buffer)
      else
        throwNew (units "Unsupported document type: " ++ documentType))
    (fun message => throwNew (units "Failed to extract text from document: " ++ message))

/-- The `for (let i = 0; i < textChunks.length; i += 10)` loop of `generateEmbeddings`, run
for at most `fuel` iterations; `textChunks.length` iterations are never exhausted, as `i`
grows by 10 in each. -/
def embedLoop (env : Env) (textChunks : List JsString) :
    Nat → Nat → List Embedding → Eff (List Embedding)
  | 0, _, embeddings => pure embeddings
  | fuel + 1, i, embeddings =>
    if i < textChunks.length then do
      let batch := (textChunks.drop i).take 10
      let response ← call (Call.embeddingsCreate (EmbedInput.batch batch))
        (fun log => env.embeddingsCreate log (EmbedInput.batch batch))
      embedLoop env textChunks fuel (i + 10) (embeddings ++ response)
    else pure embeddings

/-- The method `generateEmbeddings(textChunks)`. -/
def generateEmbeddings (env : Env) (textChunks : List JsString) : Eff (List Embedding) :=
  tryCatch
    (do
      initializeClients env
      embedLoop env textChunks textChunks.length 0 [])
    (fun message => throwNew (units "Failed to generate embeddings: " ++ message))

/-- The callback of `embeddings.map` in `storeEmbeddings`, from position `index` on: each
element reads the clock twice, for its `id` and for its `timestamp`. -/
def buildVectors (env : Env) (metadata : Metadata) (nspace : JsString) :
    List Embedding → Nat → Eff (List VectorRecord)
  | [], _ => pure []
  | embedding :: rest, index => do
    let stamp ← now env
    let date ← now env
    let vectors ← buildVectors env metadata nspace rest (index + 1)
    pure ({ id := nspace ++ units "_" ++ decimal stamp ++ units "_" ++ decimal index
            values := embedding
            metadata := metadata
            chunkIndex := index
            text := metadata.textChunks[index]?
            timestamp := env.toISOString date } :: vectors)

/-- The method `storeEmbeddings(embeddings, metadata, namespace)`. -/
def storeEmbeddings (env : Env) (embeddings : List Embedding) (metadata : Metadata)
    (nspace : JsString) : Eff Nat :=
  tryCatch
    (do
      initializeClients env
      let vectors ← buildVectors env metadata nspace embeddings 0
      call (Call.upsert vectors nspace) (fun log => env.upsert log vectors nspace)
      pure vectors.length)
    (fun message => throwNew (units "Failed to store embeddings: " ++ message))

/-- The object returned by `processDocument`. -/
structure ProcessResult where
  success : Bool
  chunks : Nat
  embeddings : Nat
  stored : Nat
  deriving DecidableEq

/-- The method `processDocument(documentUrl, documentType = 'pdf', namespace = 'default')`. The chunker
is called with its default parameters, for which `text.length` iterations are enough. -/
def processDocument (env : Env) (documentUrl : JsString)
    (documentType : JsString := units "pdf") (nspace : JsString := units "default") :
    Eff ProcessResult :=
  tryCatch
    (do
      let text ← extractTextFromDocument env documentUrl documentType
      let chunks := (splitTextIntoChunks text.length text).getD []
      let embeddings ← generateEmbeddings env chunks
      let metadata : Metadata :=
        { documentUrl := documentUrl
          documentType := documentType
          totalChunks := chunks.length
          textChunks := chunks }
      let storedCount ← storeEmbeddings env embeddings metadata nspace
      pure { success := true
             chunks := chunks.length
             embeddings := embeddings.length
             stored := storedCount })
    (fun message => throwNew message)

/-- The `TypeError` message for reading a property of `array[0]` on an empty array. -/
def undefinedProperty (name : JsString) : JsString :=
  units "Cannot read properties of undefined (reading '" ++ name ++ units "')"

/-- The method `searchChunks(query, namespace = 'default', topK = 5)`. -/
def searchChunks (env : Env) (query : JsString) (nspace : JsString := units "default")
    (topK : Nat := 5) : Eff (List RetrievalMatch) :=
  tryCatch
    (do
      initializeClients env
      let queryEmbedding ← call (Call.embeddingsCreate (EmbedInput.single query))
        (fun log => env.embeddingsCreate log (EmbedInput.single query))
      match queryEmbedding with
      | [] => throwNew (undefinedProperty (units "embedding"))
      | vector :: _ => do
        let found ← call (Call.query vector nspace topK)
          (fun log => env.query log vector nspace topK)
        pure (found.map fun m =>
          { score := m.score
            text := m.text
            chunkIndex := m.chunkIndex
            documentUrl := m.documentUrl }))
    (fun message => throwNew (units "Failed to search chunks: " ++ message))

/-- A JavaScript number that is a rational or an infinity. -/
inductive JsNumber where
  | negInfinity
  | finite (q : ℚ)
  | posInfinity
  deriving DecidableEq

/-- The builtin `Math.min(...xs)`. -/
def mathMin : List ℚ → JsNumber
  | [] => JsNumber.posInfinity
  | x :: rest => JsNumber.finite (rest.foldl min x)

/-- The builtin `Math.max(...xs)`. -/
def mathMax : List ℚ → JsNumber
  | [] => JsNumber.negInfinity
  | x :: rest => JsNumber.finite (rest.foldl max x)

/-- A number inside a template literal. -/
def numberToString (env : Env) : JsNumber → JsString
  | JsNumber.negInfinity => units "-Infinity"
  | JsNumber.finite q => env.formatNumber q
  | JsNumber.posInfinity => units "Infinity"

/-- The `content` of the system message of `generateAnswer`. -/
def systemContent : JsString :=
  units "You are a professional document analysis assistant. Provide accurate, detailed answers based on the provided context. Always cite specific sections when possible."

/-- The `prompt` of `generateAnswer`. -/
def buildPrompt (context query : JsString) : JsString :=
  units "You are an intelligent query retrieval system specialized in insurance, legal, HR, and compliance domains.\n\nContext from relevant document sections:\n"
    ++ context ++ units "\n\nUser Query: " ++ query
    ++ units "\n\nPlease provide a comprehensive answer based on the context above. If the information is not available in the context, clearly state that. Be specific and include relevant details, conditions, and limitations mentioned in the documents.\n\nAnswer:"

/-- The `explanation` of `generateAnswer`. -/
def explanationOf (env : Env) (relevantChunks : List RetrievalMatch) : JsString :=
  units "Based on " ++ decimal relevantChunks.length
    ++ units " relevant document sections with similarity scores ranging from "
    ++ numberToString env (mathMin (relevantChunks.map fun c => c.score))
    ++ units " to "
    ++ numberToString env (mathMax (relevantChunks.map fun c => c.score))

/-- The object returned by `generateAnswer`. -/
structure GeneratedAnswer where
  answer : JsString
  context : List RetrievalMatch
  explanation : JsString
  deriving DecidableEq

/-- The method `generateAnswer(query, relevantChunks)`; the completion call is made with model `gpt-4`,
`max_tokens: 1000` and `temperature: 0.3`, and answers with the contents of its `choices`. -/
def generateAnswer (env : Env) (query : JsString) (relevantChunks : List RetrievalMatch) :
    Eff GeneratedAnswer :=
  tryCatch
    (do
      initializeClients env
      let context := join (units "\n\n") (relevantChunks.map fun chunk => chunk.text)
      let prompt := buildPrompt context query
      let choices ← call (Call.chatCompletion systemContent prompt 1000 (3 / 10))
        (fun log => env.chatCompletion log systemContent prompt 1000 (3 / 10))
      match choices with
      | [] => throwNew (undefinedProperty (units "message"))
      | content :: _ =>
        pure { answer := content
               context := relevantChunks
               explanation := explanationOf env relevantChunks })
    (fun message => throwNew (units "Failed to generate answer: " ++ message))

/-- The object returned by `processQuery`. -/
structure AnswerRecord where
  query : JsString
  answer : JsString
  explanation : JsString
  relevantSections : List RetrievalMatch
  documentUrl : JsString
  timestamp : JsString
  deriving DecidableEq

/-- The method `processQuery(query, documentUrl, documentType = 'pdf')`. -/
def processQuery (env : Env) (query documentUrl : JsString)
    (documentType : JsString := units "pdf") : Eff AnswerRecord :=
  tryCatch
    (do
      let stamp ← now env
      let nspace := units "doc_" ++ decimal stamp
      let _ ← processDocument env documentUrl documentType nspace
      let relevantChunks ← searchChunks env query nspace
      let result ← generateAnswer env query relevantChunks
      let date ← now env
      pure { query := query
             answer := result.answer
             explanation := result.explanation
             relevantSections := relevantChunks
             documentUrl := documentUrl
             timestamp := env.toISOString date })
    (fun message => throwNew message)

/-- The prefix of the inline error string of a failed query in a batch. -/
def errorPrefix : JsString := units "Error processing query: "

/-- The `for (const query of queries)` loop of `processMultipleQueries`, `results` being the
array built so far. -/
def queryLoop (env : Env) (documentUrl documentType : JsString) :
    List JsString → List JsString → Eff (List JsString)
  | [], results => pure results
  | query :: rest, results => do
    let results1 ← tryCatch
      (do
        let result ← processQuery env query documentUrl documentType
        pure (results ++ [result.answer]))
      (fun message => pure (results ++ [errorPrefix ++ message]))
    queryLoop env documentUrl documentType rest results1

/-- The object returned by `processMultipleQueries`. -/
structure BatchResult where
  answers : List JsString
  documentUrl : JsString
  queriesProcessed : Nat
  timestamp : JsString
  deriving DecidableEq

/-- The method `processMultipleQueries(queries, documentUrl, documentType = 'pdf')`. -/
def processMultipleQueries (env : Env) (queries : List JsString) (documentUrl : JsString)
    (documentType : JsString := units "pdf") : Eff BatchResult :=
  tryCatch
    (do
      let stamp ← now env
      let nspace := units "doc_" ++ decimal stamp
      let _ ← processDocument env documentUrl documentType nspace
      let results ← queryLoop env documentUrl documentType queries []
      let date ← now env
      pure { answers := results
             documentUrl := documentUrl
             queriesProcessed := queries.length
             timestamp := env.toISOString date })
    (fun message => throwNew message)

/-! ## Observations on a run -/

/-- The log after the queries `queries` have been processed one after the other by
`processQuery`, from the log `log`. -/
def logAfterQueries (env : Env) (documentUrl documentType : JsString) :
    List JsString → List Call → List Call
  | [], log => log
  | query :: rest, log =>
    logAfterQueries env documentUrl documentType rest
      (processQuery env query documentUrl documentType log).2

/-- The answer slot that a batch gives to one outcome of `processQuery`. -/
def answerSlot : Outcome AnswerRecord → JsString
  | Outcome.returned record => record.answer
  | Outcome.thrown message => errorPrefix ++ message

/-- The answer slots of a batch: the queries are processed one after the other, each from
the log left by the one before. -/
def batchSlots (env : Env) (documentUrl documentType : JsString) :
    List JsString → List Call → List JsString
  | [], _ => []
  | query :: rest, log =>
    answerSlot (processQuery env query documentUrl documentType log).1
      :: batchSlots env documentUrl documentType rest
          (processQuery env query documentUrl documentType log).2

/-- Whether a call is the fetch of a document. -/
def isHttpGet : Call → Bool
  | Call.httpGet _ => true
  | _ => false

/-- Whether a call is an upsert to the vector store. -/
def isUpsert : Call → Bool
  | Call.upsert _ _ => true
  | _ => false

/-- Whether a call is a query of the vector store. -/
def isQuery : Call → Bool
  | Call.query _ _ _ => true
  | _ => false

/-- Whether a call is an embedding request for an array of texts. -/
def isEmbedBatch : Call → Bool
  | Call.embeddingsCreate (EmbedInput.batch _) => true
  | _ => false

/-- The number of document fetches in a log: one per document-processing run started. -/
def fetches (log : List Call) : Nat :=
  log.countP isHttpGet

/-- A computation that fetches no document, whatever its outcome. -/
def Silent {α : Type} (x : Eff α) : Prop :=
  ∀ log : List Call, fetches (x log).2 = fetches log

/-- A computation that fetches exactly one document, whatever its outcome. -/
def FetchesOnce {α : Type} (x : Eff α) : Prop :=
  ∀ log : List Call, fetches (x log).2 = fetches log + 1


/-! ## Observations on the embedding batches, the stored records and the explanation -/

/-- The service is configured: `initialize()` returns. Both keys pass their checks and the two
clients and the index handle are built. -/
def Configured (env : Env) : Prop :=
  unconfigured env.openaiApiKey (units "your_openai_api_key_here") = false ∧
  unconfigured env.pineconeApiKey (units "your_pinecone_api_key_here") = false ∧
  env.newOpenAI = Outcome.returned () ∧
  env.newPinecone = Outcome.returned () ∧
  env.pineconeIndex = Outcome.returned ()

instance (env : Env) : Decidable (Configured env) := by
  unfold Configured
  infer_instance

/-- The number of iterations of the loop of `generateEmbeddings` over `n` texts. -/
def batchCount (n : Nat) : Nat :=
  (n + 9) / 10

/-- The batch of iteration `k` (from 0): `textChunks.slice(10 * k, 10 * k + 10)`. -/
def batchAt (textChunks : List JsString) (k : Nat) : List JsString :=
  (textChunks.drop (10 * k)).take 10

/-- The provider call of iteration `k`. -/
def batchCall (textChunks : List JsString) (k : Nat) : Call :=
  Call.embeddingsCreate (EmbedInput.batch (batchAt textChunks k))

/-- The provider calls of the iterations `0, 1, ..., k - 1`, in this order. -/
def batchCalls (textChunks : List JsString) (k : Nat) : List Call :=
  (List.range k).map (batchCall textChunks)

/-- The provider's answer to the call of iteration `k`, when the loop has started from the
log `log` and the calls of the iterations before `k` have been made. -/
def batchAnswer (env : Env) (textChunks : List JsString) (log : List Call) (k : Nat) :
    Outcome (List Embedding) :=
  env.embeddingsCreate (log ++ batchCalls textChunks k) (EmbedInput.batch (batchAt textChunks k))

/-- The vectors of an answer of the provider; none for a failure. -/
def answeredVectors : Outcome (List Embedding) → List Embedding
  | Outcome.returned vectors => vectors
  | Outcome.thrown _ => []

/-- The vectors answered to the iterations `0, 1, ..., k - 1`, concatenated in this order. -/
def collected (env : Env) (textChunks : List JsString) (log : List Call) : Nat → List Embedding
  | 0 => []
  | k + 1 => collected env textChunks log k ++ answeredVectors (batchAnswer env textChunks log k)

/-- The element that `searchChunks` returns for one match of the store. -/
def toRetrievalMatch (m : StoreMatch) : RetrievalMatch :=
  { score := m.score, text := m.text, chunkIndex := m.chunkIndex, documentUrl := m.documentUrl }

/-- The `id` of the record at position `index`, built at clock reading `stamp`:
the template literal with `namespace`, `Date.now()` and `index`. -/
def recordId (nspace : JsString) (stamp index : Nat) : JsString :=
  nspace ++ units "_" ++ decimal stamp ++ units "_" ++ decimal index

/-- The log after `k` readings of the clock. -/
def afterReadings (log : List Call) (k : Nat) : List Call :=
  log ++ List.replicate k Call.now

/-- The number read back from a decimal numeral. -/
def decimalValue (digits : JsString) : Nat :=
  digits.foldl (fun value unit => 10 * value + (unit - 48)) 0

/-- The explanation as the specification words it: the count of the matches, then the
minimum and the maximum of their scores. -/
def explanationText (env : Env) (count : Nat) (lowest highest : ℚ) : JsString :=
  units "Based on " ++ decimal count
    ++ units " relevant document sections with similarity scores ranging from "
    ++ env.formatNumber lowest ++ units " to " ++ env.formatNumber highest

/-- Whether `needle` occurs in `text` as a contiguous run of code units. -/
def occursIn (needle text : JsString) : Bool :=
  text.tails.any fun t => needle.isPrefixOf t

/-! ## Observations on the windows of the chunker -/

/-- The windows that the loop of `splitTextIntoChunks` examines from the cursor `start` on, in at
most `fuel` iterations: for each iteration, the value of `start` on entry and the segment
`chunk` that the iteration has cut (before trimming and filtering). -/
def windowsFrom (text : JsString) (chunkSize overlap : Int) : Nat → Int → List (Int × JsString)
  | 0, _ => []
  | fuel + 1, start =>
    if start < text.length then
      (start, (cutWindow text chunkSize overlap start).1)
        :: windowsFrom text chunkSize overlap fuel (cutWindow text chunkSize overlap start).2
    else []

/-- The windows of a call of `splitTextIntoChunks`, the loop being allowed `text.length`
iterations. -/
def windows (text : JsString) (chunkSize overlap : Int) : List (Int × JsString) :=
  windowsFrom text chunkSize overlap text.length 0

/-- The break point of the window at `start`: the later of the last `'.'` and the last newline
in `text.slice(start, start + chunkSize)`, or `-1`. -/
def breakPointAt (text : JsString) (chunkSize start : Int) : Int :=
  max (lastIndexOf (slice text start (min (start + chunkSize) text.length)) period)
    (lastIndexOf (slice text start (min (start + chunkSize) text.length)) newline)

/-! ## The authentication middleware of `server/middleware/auth.js` -/

/-- The builtin `s.split(sep)` for a separator of one code unit: the fields between the
occurrences of the separator (one field, the whole string, when there is none). -/
def split : JsString → Nat → List JsString
  | [], _ => [[]]
  | u :: rest, sep =>
    if u = sep then [] :: split rest sep
    else
      match split rest sep with
      | [] => [[u]]
      | field :: fields => (u :: field) :: fields

/-- The object that `authenticateToken` assigns to `req.user`. -/
structure User where
  id : JsString
  role : JsString
  deriving DecidableEq

/-- What `authenticateToken` does with a request: it ends it with `res.status(status).json({ error,
message })`, or it sets `req.user` and calls `next()`. -/
inductive AuthResult where
  | respond (status : Nat) (error message : JsString)
  | next (user : User)
  deriving DecidableEq

/-- The constant `expectedToken`. -/
def expectedToken : JsString :=
  units "8d8e65d23dd42580097ecc2a2d23d7dcda7f9354b6c1e04e8d790335a3d6361d"

/-- The value of `authHeader && authHeader.split(' ')[1]`, where `authHeader` is the
`authorization` header of the request or `undefined` (`none`): `undefined` for an absent
header and for a header with a single field, the empty string for the empty header. -/
def headerToken (authHeader : Option JsString) : Option JsString :=
  match authHeader with
  | none => none
  | some header => if header = [] then some [] else (split header 32)[1]?

/-- The middleware `authenticateToken(req, res, next)`, as a function of the `authorization`
header of the request. Nothing in its `try` block throws (`next()` hands the request over
and does not throw), so the `catch` block is never entered. -/
def authenticateToken (authHeader : Option JsString) : AuthResult :=
  if headerToken authHeader = none ∨ headerToken authHeader = some [] then
    AuthResult.respond 401 (units "Access denied") (units "No token provided")
  else if headerToken authHeader = some expectedToken then
    AuthResult.next { id := units "hackrx-user", role := units "participant" }
  else
    AuthResult.respond 403 (units "Access denied") (units "Invalid token")

/-! ## Observations on the store calls of a run -/

/-- The namespaces of the upserts in a log, in the order of the calls. -/
def upsertNamespaces (log : List Call) : List JsString :=
  log.filterMap fun c =>
    match c with
    | Call.upsert _ nspace => some nspace
    | _ => none

/-- A computation that, whatever its outcome, leaves the log it was given in place and adds
to it only calls that satisfy `p`. -/
def Emits {α : Type} (p : Call → Prop) (x : Eff α) : Prop :=
  ∀ log : List Call, ∃ made : List Call, (x log).2 = log ++ made ∧ ∀ c ∈ made, p c

/-- A call that is neither an upsert nor a query of the vector store. -/
def offStore (c : Call) : Prop :=
  isUpsert c = false ∧ isQuery c = false

/-- The namespace `doc_${Date.now()}` that `processQuery` and `processMultipleQueries` build on
entry, when they are entered with the log `log`. -/
def runNamespace (env : Env) (log : List Call) : JsString :=
  units "doc_" ++ decimal (env.clock log)

/-! ## Concrete inputs used in the evaluations below -/

/-- A text of 61 code units, one sentence. -/
def oneSentence : JsString :=
  units "The policy covers hospital stays after a 30 day waiting time."

/-- A text of 393 code units: 141 times `x`, one `'.'` (at index 141), 251 times `x`. -/
def earlyPeriodText : JsString :=
  List.replicate 141 120 ++ [period] ++ List.replicate 251 120

/-- A text of 200 code units: 155 times `x`, one `'.'` (at index 155), 44 times `x`. -/
def latePeriodText : JsString :=
  List.replicate 155 120 ++ [period] ++ List.replicate 44 120

/-- The URL of the stub document. -/
def policyUrl : JsString := units "https://example.com/policy.txt"

/-- A stub environment in which the clients are built and every collaborator succeeds: the
document is `oneSentence`,
the clock advances by one with every call, the embedding of a text is its length, the store
returns one match and the model answers with the length of its prompt. -/
def stubEnv : Env where
  openaiApiKey := some (units "sk-test")
  pineconeApiKey := some (units "pc-test")
  newOpenAI := Outcome.returned ()
  newPinecone := Outcome.returned ()
  pineconeIndex := Outcome.returned ()
  clock := fun log => 1700000000000 + log.length
  toISOString := decimal
  formatNumber := fun q => decimal q.num.natAbs ++ units "/" ++ decimal q.den
  utf8Decode := fun bytes => bytes
  httpGet := fun _ _ => Outcome.returned oneSentence
  pdfParse := fun _ buffer => Outcome.returned buffer
  extractRawText := fun _ buffer => Outcome.returned buffer
  embeddingsCreate := fun _ input =>
    match input with
    | EmbedInput.batch texts => Outcome.returned (texts.map fun t => [(t.length : Int)])
    | EmbedInput.single text => Outcome.returned [[(text.length : Int)]]
  upsert := fun _ _ _ => Outcome.returned ()
  query := fun _ _ _ _ =>
    Outcome.returned [{ score := 9 / 10, text := oneSentence, chunkIndex := 0,
                        documentUrl := policyUrl }]
  chatCompletion := fun _ _ userContent _ _ =>
    Outcome.returned [units "Answer " ++ decimal userContent.length]

/-- The stub environment, except that the store fails on its second query. -/
def secondQueryFails : Env :=
  { stubEnv with
    query := fun log vector nspace topK =>
      if (log.filter isQuery).length = 1 then Outcome.thrown (units "store unavailable")
      else stubEnv.query log vector nspace topK }

/-- The stub environment, except that the document source fails from its second fetch on. -/
def secondFetchFails : Env :=
  { stubEnv with
    httpGet := fun log url =>
      if log.any isHttpGet then Outcome.thrown (units "connect ETIMEDOUT")
      else stubEnv.httpGet log url }

/-- A batch of two queries. -/
def twoQueries : List JsString := [units "first", units "second one"]

/-- A batch of three queries. -/
def threeQueries : List JsString := [units "first", units "second one", units "third"]

/-- The inline error string of a query whose document fetch timed out. -/
def fetchFailedSlot : JsString :=
  units "Error processing query: Failed to extract text from document: connect ETIMEDOUT"

/-- The text `oneSentence` between two blanks and a newline: 64 code units, 61 after
trimming. -/
def paddedSentence : JsString :=
  units "  The policy covers hospital stays after a 30 day waiting time.\n"

/-- The stub environment without `OPENAI_API_KEY`. -/
def noOpenaiKey : Env :=
  { stubEnv with openaiApiKey := none }

/-- The stub environment, both keys configured, except that `new Pinecone(...)` throws: the
installed `pinecone-client` has no export of the name `Pinecone`. -/
def pineconeNotExported : Env :=
  { stubEnv with newPinecone := Outcome.thrown (units "Pinecone is not a constructor") }

/-- The stub environment, except that the provider fails on its second embedding request
for an array of texts. -/
def secondBatchFails : Env :=
  { stubEnv with
    embeddingsCreate := fun log input =>
      if log.countP isEmbedBatch = 1 then Outcome.thrown (units "rate limit exceeded")
      else stubEnv.embeddingsCreate log input }

/-- The stub environment, except that the store rejects every upsert. -/
def upsertFails : Env :=
  { stubEnv with upsert := fun _ _ _ => Outcome.thrown (units "index not found") }

/-- Twenty-five texts: the numerals of 0 to 24. -/
def twentyFiveTexts : List JsString :=
  (List.range 25).map decimal

/-- The embedding that the stub environment gives a text. -/
def lengthEmbedding (text : JsString) : Embedding :=
  [(text.length : Int)]

/-- Two embeddings. -/
def twoEmbeddings : List Embedding := [[1, 2], [3, 4]]

/-- The metadata of a document of two chunks. -/
def twoChunkMetadata : Metadata :=
  { documentUrl := policyUrl
    documentType := units "txt"
    totalChunks := 2
    textChunks := [units "chunk one", units "chunk two"] }

/-- Two matches, in descending order of score. -/
def twoMatches : List RetrievalMatch :=
  [{ score := 9 / 10, text := units "chunk one", chunkIndex := 0, documentUrl := policyUrl },
   { score := 1 / 2, text := units "chunk two", chunkIndex := 1, documentUrl := policyUrl }]

/-- The explanation of `generateAnswer` for no match at all. -/
def emptyExplanation : JsString :=
  units "Based on 0 relevant document sections with similarity scores ranging from Infinity to -Infinity"

/-- Two matches as the store returns them, in descending order of score. -/
def twoStoreMatches : List StoreMatch :=
  [{ score := 9 / 10, text := units "chunk one", chunkIndex := 0, documentUrl := policyUrl },
   { score := 1 / 2, text := units "chunk two", chunkIndex := 1, documentUrl := policyUrl }]

/-- The stub environment, except that the store answers every query with `twoStoreMatches`. -/
def twoMatchStore : Env :=
  { stubEnv with query := fun _ _ _ _ => Outcome.returned twoStoreMatches }

/-- A text of 250 code units without `'.'` and newline: 250 times `x`. -/
def plainText : JsString :=
  List.replicate 250 120

/-- A text of 43 code units, three sentences. -/
def threeSentences : JsString :=
  units "Sentence one. Sentence two. Sentence three."

/-- The stub environment with a clock that stands still: every reading is the same. -/
def frozenClock : Env :=
  { stubEnv with clock := fun _ => 1700000000000 }

/-- The stub environment with a clock that starts later. -/
def laterClock : Env :=
  { stubEnv with clock := fun log => 1800000000000 + log.length }

/-- The user that `authenticateToken` attaches to an accepted request. -/
def participant : User :=
  { id := units "hackrx-user", role := units "participant" }

/-! ## Lemmas on the chunker -/

theorem trim_length_le (s : JsString) : (trim s).length ≤ s.length := by
  unfold trim
  exact ((List.rdropWhile_prefix _ _).sublist.length_le).trans (List.dropWhile_sublist _).length_le

theorem trim_trim (s : JsString) : trim (trim s) = trim s := by
  unfold trim
  have h : List.dropWhile isWhiteSpace ((s.dropWhile isWhiteSpace).rdropWhile isWhiteSpace)
      = (s.dropWhile isWhiteSpace).rdropWhile isWhiteSpace := by
    obtain ⟨v, hv⟩ := List.rdropWhile_prefix isWhiteSpace (s.dropWhile isWhiteSpace)
    have hid := List.dropWhile_idempotent isWhiteSpace s
    generalize (s.dropWhile isWhiteSpace).rdropWhile isWhiteSpace = u at hv ⊢
    cases u with
    | nil => rfl
    | cons a u =>
      rw [← hv] at hid
      cases ha : isWhiteSpace a with
      | false => simp [List.dropWhile_cons, ha]
      | true =>
        simp only [List.cons_append, List.dropWhile_cons, ha, if_true] at hid
        have h1 := (List.dropWhile_sublist isWhiteSpace (l := u ++ v)).length_le
        rw [hid] at h1
        simp at h1
  rw [h, List.rdropWhile_idempotent]

theorem lastIndexOf_bounds (s : JsString) (u : Nat) :
    -1 ≤ lastIndexOf s u ∧ lastIndexOf s u < s.length := by
  induction s with
  | nil => simp [lastIndexOf]
  | cons x xs ih =>
    simp only [lastIndexOf, List.length_cons]
    split_ifs <;> push_cast <;> refine ⟨?_, ?_⟩ <;> first | trivial | omega

theorem slice_length_le_length (s : JsString) (a b : Int) : (slice s a b).length ≤ s.length := by
  simp only [slice, List.length_take, List.length_drop]
  omega

theorem slice_length_le (s : JsString) (a b : Int) (ha : 0 ≤ a) (hb : 0 ≤ b) :
    ((slice s a b).length : Int) ≤ max (b - a) 0 := by
  simp only [slice, List.length_take, List.length_drop]
  split_ifs <;> omega

theorem fl_nonneg (x : Int) (h : 0 ≤ x) : 0 ≤ fl x := by
  unfold fl
  rw [if_neg (by omega)]
  exact Int.ofNat_nonneg _

theorem threshold_nonneg (start chunkSize : Int) (hs : 0 ≤ start) (hc : 0 ≤ chunkSize) :
    0 ≤ threshold start chunkSize := by
  unfold threshold
  apply fl_nonneg
  have h1 : 0 ≤ fl (chunkSize * seventyPercent) :=
    fl_nonneg _ (Int.mul_nonneg hc (by decide))
  have h2 : 0 ≤ start * (two53 : Int) := Int.mul_nonneg hs (Int.ofNat_nonneg _)
  omega

/-- Every iteration started inside the text moves the cursor strictly forward, and not
beyond the end of the text. -/
theorem cutWindow_progress (text : JsString) (chunkSize overlap start : Int)
    (ho : 0 ≤ overlap) (hc : overlap < chunkSize) (hs : 0 ≤ start) (hlt : start < text.length) :
    start < (cutWindow text chunkSize overlap start).2 ∧
      (cutWindow text chunkSize overlap start).2 ≤ text.length := by
  unfold cutWindow
  simp only
  split_ifs with h1 h2
  · -- sentence cut
    simp only [pastThreshold, decide_eq_true_eq] at h2
    have ht := threshold_nonneg start chunkSize hs (by omega)
    have hb : max (lastIndexOf (slice text start (min (start + chunkSize) text.length)) period)
        (lastIndexOf (slice text start (min (start + chunkSize) text.length)) newline)
        < ((slice text start (min (start + chunkSize) text.length)).length : Int) :=
      max_lt (lastIndexOf_bounds _ _).2 (lastIndexOf_bounds _ _).2
    have hl := slice_length_le text start (min (start + chunkSize) text.length) hs (by omega)
    have h53 : (0 : Int) < (two53 : Int) := by decide
    generalize max (lastIndexOf (slice text start (min (start + chunkSize) text.length)) period)
      (lastIndexOf (slice text start (min (start + chunkSize) text.length)) newline) = bp at *
    have hbp : 0 < bp := by
      by_contra hneg
      have : bp * (two53 : Int) ≤ 0 := Int.mul_nonpos_of_nonpos_of_nonneg (by omega) (by omega)
      omega
    omega
  · omega
  · omega


theorem splitLoop_done (text : JsString) (chunkSize overlap : Int) (fuel : Nat) (start : Int)
    (chunks : List JsString) (h : (text.length : Int) ≤ start) :
    splitLoop text chunkSize overlap fuel start chunks = some chunks := by
  cases fuel <;> simp [splitLoop, not_lt.mpr h]

theorem splitLoop_terminates (text : JsString) (chunkSize overlap : Int)
    (ho : 0 ≤ overlap) (hc : overlap < chunkSize) :
    ∀ (fuel : Nat) (start : Int) (chunks : List JsString), 0 ≤ start →
      (text.length : Int) - start ≤ fuel →
      ∃ r, splitLoop text chunkSize overlap fuel start chunks = some r := by
  intro fuel
  induction fuel with
  | zero =>
    intro start chunks _ hf
    exact ⟨chunks, splitLoop_done _ _ _ _ _ _ (by omega)⟩
  | succ n ih =>
    intro start chunks hs hf
    by_cases hlt : start < text.length
    · have hp := cutWindow_progress text chunkSize overlap start ho hc hs hlt
      simp only [splitLoop, if_pos hlt]
      exact ih _ _ (by omega) (by omega)
    · exact ⟨chunks, splitLoop_done _ _ _ _ _ _ (by omega)⟩

theorem cutWindow_fst_length (text : JsString) (chunkSize overlap start : Int)
    (hc : 0 ≤ chunkSize) (hs : 0 ≤ start) :
    (((cutWindow text chunkSize overlap start).1).length : Int) ≤ chunkSize := by
  have hl := slice_length_le text start (min (start + chunkSize) text.length) hs (by omega)
  unfold cutWindow
  simp only
  split_ifs <;> dsimp only
  · have := slice_length_le_length (slice text start (min (start + chunkSize) text.length)) 0
      (max (lastIndexOf (slice text start (min (start + chunkSize) text.length)) period)
        (lastIndexOf (slice text start (min (start + chunkSize) text.length)) newline) + 1)
    omega
  · omega
  · omega

theorem pushChunk_ok (chunkSize : Int) (chunks : List JsString) (chunk : JsString)
    (hlen : (chunk.length : Int) ≤ chunkSize) (h : ∀ ch ∈ chunks, ChunkOk chunkSize ch) :
    ∀ ch ∈ pushChunk chunks chunk, ChunkOk chunkSize ch := by
  unfold pushChunk
  split_ifs with h50
  · intro ch hch
    rcases List.mem_append.mp hch with h1 | h1
    · exact h ch h1
    · rw [List.mem_singleton.mp h1]
      refine ⟨by rw [trim_trim]; exact h50, ?_⟩
      have := trim_length_le chunk
      omega
  · exact h

theorem splitLoop_chunks_ok (text : JsString) (chunkSize overlap : Int)
    (ho : 0 ≤ overlap) (hc : overlap < chunkSize) :
    ∀ (fuel : Nat) (start : Int) (chunks r : List JsString), 0 ≤ start →
      splitLoop text chunkSize overlap fuel start chunks = some r →
      (∀ ch ∈ chunks, ChunkOk chunkSize ch) → ∀ ch ∈ r, ChunkOk chunkSize ch := by
  intro fuel
  induction fuel with
  | zero =>
    intro start chunks r _ hr hchunks
    simp only [splitLoop] at hr
    split_ifs at hr
    cases hr
    exact hchunks
  | succ n ih =>
    intro start chunks r hs hr hchunks
    simp only [splitLoop] at hr
    split_ifs at hr with hlt
    · have hp := cutWindow_progress text chunkSize overlap start ho hc hs hlt
      exact ih _ _ r (by omega) hr
        (pushChunk_ok chunkSize chunks _
          (cutWindow_fst_length text chunkSize overlap start (by omega) hs) hchunks)
    · cases hr
      exact hchunks


theorem excessBits_spec (fuel a : Nat) :
    excessBits fuel a = 0 ∨ two53 / 2 ≤ a / 2 ^ excessBits fuel a := by
  induction fuel generalizing a with
  | zero => left; rfl
  | succ n ih =>
    unfold excessBits
    split_ifs with h
    · left; rfl
    · right
      have key : a / 2 ^ (excessBits n (a / 2) + 1) = (a / 2) / 2 ^ excessBits n (a / 2) := by
        rw [pow_succ, mul_comm, Nat.div_div_eq_div_mul]
      rw [key]
      rcases ih (a / 2) with h0 | h1
      · rw [h0, pow_zero, Nat.div_one]
        exact Nat.div_le_div_right (by omega)
      · exact h1

theorem pushChunk_length_le (chunks : List JsString) (chunk : JsString) :
    (pushChunk chunks chunk).length ≤ chunks.length + 1 := by
  unfold pushChunk
  split_ifs <;> simp

theorem lastIndexOf_not_mem (s : JsString) (u : Nat) (h : u ∉ s) : lastIndexOf s u = -1 := by
  induction s with
  | nil => rfl
  | cons x xs ih =>
    have hx : ¬ x = u := fun e => h (e ▸ List.mem_cons_self _ _)
    have hxs : u ∉ xs := fun e => h (List.mem_cons_of_mem _ e)
    simp [lastIndexOf, ih hxs, hx]

theorem not_mem_slice (s : JsString) (a b : Int) (u : Nat) (h : u ∉ s) : u ∉ slice s a b :=
  fun hm => h (List.mem_of_mem_drop (List.mem_of_mem_take hm))

theorem slice_full (s : JsString) : slice s 0 s.length = s := by
  have h : ¬ ((s.length : Int) < 0) := by omega
  simp only [slice, lt_self_iff_false, if_false, if_neg h, min_self]
  simp

/-- A text that fits in the first window is cut in one iteration, whatever `overlap` is. -/
theorem splitLoop_single_window (text : JsString) (chunkSize overlap : Int) (fuel : Nat)
    (hlen : (text.length : Int) ≤ chunkSize) :
    splitLoop text chunkSize overlap (fuel + 1) 0 [] = some (pushChunk [] text) := by
  by_cases hne : (0 : Int) < text.length
  · have hcw : cutWindow text chunkSize overlap 0 = (text, (text.length : Int)) := by
      unfold cutWindow
      simp only [zero_add, min_eq_right hlen, lt_self_iff_false, if_false, slice_full]
    simp only [splitLoop, if_pos hne, hcw]
    exact splitLoop_done _ _ _ _ _ _ (le_refl _)
  · have h0 : text = [] := List.length_eq_zero.mp (by omega)
    subst h0
    simp [splitLoop, pushChunk, trim]

/-- With `chunkSize ≤ overlap`, on a text longer than one window and without `'.'` or
newline, the cursor never moves forward and the loop never exits. -/
theorem splitLoop_diverges (text : JsString) (chunkSize overlap : Int)
    (hco : chunkSize ≤ overlap) (hlen : chunkSize < text.length) (hne : text ≠ [])
    (hp : period ∉ text) (hn : newline ∉ text) :
    ∀ (fuel : Nat) (start : Int) (chunks : List JsString), start ≤ 0 →
      splitLoop text chunkSize overlap fuel start chunks = none := by
  have hpos : (0 : Int) < text.length := by
    have := List.length_pos.mpr hne
    omega
  intro fuel
  induction fuel with
  | zero =>
    intro start chunks hs
    simp [splitLoop, show start < (text.length : Int) by omega]
  | succ n ih =>
    intro start chunks hs
    simp only [splitLoop, if_pos (show start < (text.length : Int) by omega)]
    apply ih
    unfold cutWindow
    simp only [lastIndexOf_not_mem _ _ (not_mem_slice text _ _ _ hp),
      lastIndexOf_not_mem _ _ (not_mem_slice text _ _ _ hn)]
    split_ifs <;> dsimp only <;> omega

/-! ## The final window -/

theorem slice_to_end (s : JsString) (start : Int) (h0 : 0 ≤ start) (h1 : start ≤ s.length) :
    slice s start s.length = s.drop start.toNat := by
  have h : ¬ ((s.length : Int) < 0) := by omega
  simp only [slice, if_neg (not_lt.mpr h0), if_neg h, min_self, min_eq_left h1]
  apply List.take_of_length_le
  rw [List.length_drop]
  omega

/-- A window that reaches the end of the text is taken whole, and ends the loop. -/
theorem cutWindow_final (text : JsString) (chunkSize overlap start : Int) (h0 : 0 ≤ start)
    (h1 : start < text.length) (h2 : (text.length : Int) ≤ start + chunkSize) :
    cutWindow text chunkSize overlap start = (text.drop start.toNat, (text.length : Int)) := by
  unfold cutWindow
  simp only [min_eq_right h2, lt_self_iff_false, if_false, slice_to_end text start h0 (le_of_lt h1)]

theorem splitLoop_final (text : JsString) (chunkSize overlap start : Int) (fuel : Nat)
    (chunks : List JsString) (h0 : 0 ≤ start) (h1 : start < text.length)
    (h2 : (text.length : Int) ≤ start + chunkSize) :
    splitLoop text chunkSize overlap (fuel + 1) start chunks
      = some (pushChunk chunks (text.drop start.toNat)) := by
  simp only [splitLoop, if_pos h1, cutWindow_final text chunkSize overlap start h0 h1 h2]
  exact splitLoop_done _ _ _ _ _ _ (le_refl _)

/-! ## The windows of the chunker -/

theorem slice_of_bounds (s : JsString) (a b : Int) (ha : 0 ≤ a) (hab : a ≤ b)
    (hb : b ≤ s.length) :
    slice s a b = (s.drop a.toNat).take (b - a).toNat ∧ ((slice s a b).length : Int) = b - a := by
  have e : slice s a b = (s.drop a.toNat).take (b - a).toNat := by
    have h1 : ¬ a < 0 := by omega
    have h2 : ¬ b < 0 := by omega
    simp only [slice, if_neg h1, if_neg h2, min_eq_left (le_trans hab hb), min_eq_left hb,
      max_eq_left (sub_nonneg.mpr hab)]
  refine ⟨e, ?_⟩
  rw [e, List.length_take, List.length_drop]
  omega

theorem slice_slice_prefix (s : JsString) (a b c : Int) (ha : 0 ≤ a) (hab : a ≤ b)
    (hb : b ≤ s.length) (hc0 : 0 ≤ c) (hc : c ≤ b - a) :
    slice (slice s a b) 0 c = slice s a (a + c) := by
  have hl := (slice_of_bounds s a b ha hab hb).2
  rw [(slice_of_bounds (slice s a b) 0 c (le_refl _) hc0 (by omega)).1,
    (slice_of_bounds s a b ha hab hb).1,
    (slice_of_bounds s a (a + c) ha (by omega) (by omega)).1]
  simp only [Int.toNat_zero, List.drop_zero, sub_zero, add_sub_cancel_left, List.take_take]
  congr 1
  omega

/-- The segment and the cursor of one iteration, in each of the three branches. -/
theorem cutWindow_spec (text : JsString) (chunkSize overlap start : Int)
    (ho : 0 ≤ overlap) (hc : overlap < chunkSize) (hs : 0 ≤ start) (hlt : start < text.length) :
    (cutWindow text chunkSize overlap start).1
        = slice text start (start + ((cutWindow text chunkSize overlap start).1.length : Int)) ∧
      start + ((cutWindow text chunkSize overlap start).1.length : Int) ≤ text.length ∧
      start < (cutWindow text chunkSize overlap start).2 ∧
      (cutWindow text chunkSize overlap start).2
        ≤ start + ((cutWindow text chunkSize overlap start).1.length : Int) ∧
      ((cutWindow text chunkSize overlap start).2 < text.length ∨
        start + ((cutWindow text chunkSize overlap start).1.length : Int) = text.length) := by
  unfold cutWindow
  simp only
  split_ifs with h1 h2
  · -- sentence cut
    have hstop : min (start + chunkSize) (text.length : Int) = start + chunkSize := by omega
    rw [hstop] at h2 ⊢
    simp only [pastThreshold, decide_eq_true_eq] at h2
    have ht := threshold_nonneg start chunkSize hs (by omega)
    have hsl := slice_of_bounds text start (start + chunkSize) hs (by omega) (by omega)
    have hb : max (lastIndexOf (slice text start (start + chunkSize)) period)
        (lastIndexOf (slice text start (start + chunkSize)) newline)
        < ((slice text start (start + chunkSize)).length : Int) :=
      max_lt (lastIndexOf_bounds _ _).2 (lastIndexOf_bounds _ _).2
    have h53 : (0 : Int) < (two53 : Int) := by decide
    generalize max (lastIndexOf (slice text start (start + chunkSize)) period)
      (lastIndexOf (slice text start (start + chunkSize)) newline) = bp at *
    have hbp : 0 < bp := by
      by_contra hneg
      have : bp * (two53 : Int) ≤ 0 := Int.mul_nonpos_of_nonpos_of_nonneg (by omega) (by omega)
      omega
    have hpre := slice_slice_prefix text start (start + chunkSize) (bp + 1) hs (by omega)
      (by omega) (by omega) (by omega)
    have hlen := (slice_of_bounds text start (start + (bp + 1)) hs (by omega) (by omega)).2
    rw [hpre, hlen]
    have e : start + (start + (bp + 1) - start) = start + (bp + 1) := by ring
    rw [e]
    refine ⟨rfl, by omega, by omega, by omega, Or.inl (by omega)⟩
  · -- hard cut
    have hstop : min (start + chunkSize) (text.length : Int) = start + chunkSize := by omega
    rw [hstop]
    have hlen := (slice_of_bounds text start (start + chunkSize) hs (by omega) (by omega)).2
    rw [hlen]
    have e : start + (start + chunkSize - start) = start + chunkSize := by ring
    rw [e]
    refine ⟨rfl, by omega, by omega, by omega, Or.inl (by omega)⟩
  · -- final window
    have hstop : min (start + chunkSize) (text.length : Int) = text.length := by omega
    rw [hstop]
    have hlen := (slice_of_bounds text start text.length hs (by omega) (le_refl _)).2
    rw [hlen]
    have e : start + ((text.length : Int) - start) = text.length := by ring
    rw [e]
    refine ⟨rfl, le_refl _, hlt, le_refl _, Or.inr rfl⟩

theorem windowsFrom_done (text : JsString) (chunkSize overlap : Int) (fuel : Nat) (start : Int)
    (h : (text.length : Int) ≤ start) : windowsFrom text chunkSize overlap fuel start = [] := by
  cases fuel with
  | zero => rfl
  | succ n => simp only [windowsFrom, if_neg (not_lt.mpr h)]

/-- The chunks returned are the trimmed segments of the windows, in the order of the
windows, those of at most 50 code units left out. -/
theorem splitLoop_eq_windows (text : JsString) (chunkSize overlap : Int) :
    ∀ (fuel : Nat) (start : Int) (chunks r : List JsString),
      splitLoop text chunkSize overlap fuel start chunks = some r →
      r = chunks ++ ((windowsFrom text chunkSize overlap fuel start).map fun w => trim w.2).filter
        fun c => decide (50 < c.length) := by
  intro fuel
  induction fuel with
  | zero =>
    intro start chunks r h
    simp only [splitLoop] at h
    split_ifs at h
    simp only [Option.some.injEq] at h
    simp [windowsFrom, h]
  | succ n ih =>
    intro start chunks r h
    simp only [splitLoop] at h
    split_ifs at h with hlt
    · have := ih _ _ _ h
      rw [this]
      simp only [windowsFrom, if_pos hlt, List.map_cons, pushChunk]
      by_cases h50 : 50 < (trim (cutWindow text chunkSize overlap start).1).length
      · simp [h50]
      · simp [h50]
    · simp only [Option.some.injEq] at h
      simp [windowsFrom, hlt, h]
/-- The windows from a cursor inside the text: each is a slice of the text, the first starts at
the cursor, each next one starts after the start and not after the end of the one before,
and the last one ends at the end of the text. -/
theorem windowsFrom_spec (text : JsString) (chunkSize overlap : Int)
    (ho : 0 ≤ overlap) (hc : overlap < chunkSize) :
    ∀ (fuel : Nat) (start : Int), 0 ≤ start → start < text.length →
      (text.length : Int) - start ≤ fuel →
      (∀ w ∈ windowsFrom text chunkSize overlap fuel start,
        start ≤ w.1 ∧ w.2 = slice text w.1 (w.1 + (w.2.length : Int)) ∧
          w.1 + (w.2.length : Int) ≤ text.length) ∧
      (windowsFrom text chunkSize overlap fuel start).head?.map Prod.fst = some start ∧
      (∀ (k : Nat) (a b : Int × JsString),
        (windowsFrom text chunkSize overlap fuel start)[k]? = some a →
        (windowsFrom text chunkSize overlap fuel start)[k + 1]? = some b →
        a.1 < b.1 ∧ b.1 ≤ a.1 + (a.2.length : Int)) ∧
      (windowsFrom text chunkSize overlap fuel start).getLast?.map
        (fun w => w.1 + (w.2.length : Int)) = some (text.length : Int) := by
  intro fuel
  induction fuel with
  | zero =>
    intro start hs hlt hf
    omega
  | succ n ih =>
    intro start hs hlt hf
    obtain ⟨h1, h2, h3, h4, h5⟩ := cutWindow_spec text chunkSize overlap start ho hc hs hlt
    simp only [windowsFrom, if_pos hlt]
    by_cases hnext : (cutWindow text chunkSize overlap start).2 < text.length
    · obtain ⟨i1, i2, i3, i4⟩ := ih (cutWindow text chunkSize overlap start).2 (by omega) hnext
        (by omega)
      cases hws : windowsFrom text chunkSize overlap n (cutWindow text chunkSize overlap start).2
        with
      | nil => rw [hws] at i2; simp at i2
      | cons w0 rest =>
        rw [hws] at i1 i2 i3 i4
        simp only [List.head?_cons, Option.map_some', Option.some.injEq] at i2
        refine ⟨?_, rfl, ?_, ?_⟩
        · intro w hw
          rcases List.mem_cons.mp hw with hw | hw
          · subst hw
            exact ⟨le_refl _, h1, h2⟩
          · have := i1 w hw
            exact ⟨by omega, this.2.1, this.2.2⟩
        · intro k a b ha hb
          cases k with
          | zero =>
            simp only [List.getElem?_cons_zero, Option.some.injEq] at ha
            simp only [zero_add, List.getElem?_cons_succ, List.getElem?_cons_zero,
              Option.some.injEq] at hb
            subst ha
            subst hb
            simp only
            omega
          | succ k =>
            rw [List.getElem?_cons_succ] at ha hb
            exact i3 k a b ha hb
        · rw [List.getLast?_cons_cons]
          exact i4
    · rw [windowsFrom_done text chunkSize overlap n _ (not_lt.mp hnext)]
      have hend : start + ((cutWindow text chunkSize overlap start).1.length : Int)
          = text.length := by
        rcases h5 with h5 | h5
        · exact absurd h5 hnext
        · exact h5
      refine ⟨?_, rfl, ?_, ?_⟩
      · intro w hw
        simp only [List.mem_singleton] at hw
        subst hw
        exact ⟨le_refl _, h1, h2⟩
      · intro k a b ha hb
        simp at hb
      · simp only [List.getLast?_singleton, Option.map_some', hend]

/-- A window that does not reach the end of the text and is not cut at a break point. -/
theorem cutWindow_not_cut (text : JsString) (chunkSize overlap start : Int)
    (hend : start + chunkSize < text.length)
    (hbp : pastThreshold (breakPointAt text chunkSize start) start chunkSize = false) :
    cutWindow text chunkSize overlap start
      = (slice text start (start + chunkSize), start + chunkSize - overlap) := by
  unfold breakPointAt at hbp
  unfold cutWindow
  have hstop : min (start + chunkSize) (text.length : Int) = start + chunkSize := by omega
  rw [hstop] at hbp ⊢
  simp only [if_pos hend, hbp]
  rfl

/-- A break point of `-1` is never past the threshold. -/
theorem pastThreshold_neg_one (start chunkSize : Int) (hs : 0 ≤ start) (hc : 0 ≤ chunkSize) :
    pastThreshold (-1) start chunkSize = false := by
  have ht := threshold_nonneg start chunkSize hs hc
  have h53 : (0 : Int) < (two53 : Int) := by decide
  simp only [pastThreshold, decide_eq_false_iff_not, not_lt]
  omega

theorem breakPointAt_of_not_mem (text : JsString) (chunkSize start : Int)
    (hp : period ∉ text) (hn : newline ∉ text) : breakPointAt text chunkSize start = -1 := by
  unfold breakPointAt
  rw [lastIndexOf_not_mem _ _ (not_mem_slice text _ _ period hp),
    lastIndexOf_not_mem _ _ (not_mem_slice text _ _ newline hn)]
  rfl

/-- On a text without `'.'` and newline every window is a hard cut or the final one. -/
theorem cutWindow_hard (text : JsString) (chunkSize overlap start : Int)
    (hp : period ∉ text) (hn : newline ∉ text) (hs : 0 ≤ start) (hc : 0 ≤ chunkSize)
    (hend : start + chunkSize < text.length) :
    cutWindow text chunkSize overlap start
      = (slice text start (start + chunkSize), start + chunkSize - overlap) := by
  apply cutWindow_not_cut text chunkSize overlap start hend
  rw [breakPointAt_of_not_mem text chunkSize start hp hn]
  exact pastThreshold_neg_one start chunkSize hs hc

/-- On a text without `'.'` and newline, the window `k` positions after the one at `start`
starts `k * (chunkSize - overlap)` further. -/
theorem windowsFrom_hard_start (text : JsString) (chunkSize overlap : Int)
    (ho : 0 ≤ overlap) (hc : overlap < chunkSize) (hp : period ∉ text) (hn : newline ∉ text) :
    ∀ (fuel : Nat) (start : Int) (k : Nat) (a : Int × JsString), 0 ≤ start →
      (windowsFrom text chunkSize overlap fuel start)[k]? = some a →
      a.1 = start + (k : Int) * (chunkSize - overlap) := by
  intro fuel
  induction fuel with
  | zero =>
    intro start k a hs ha
    simp [windowsFrom] at ha
  | succ n ih =>
    intro start k a hs ha
    simp only [windowsFrom] at ha
    split_ifs at ha with hlt
    · cases k with
      | zero =>
        simp only [List.getElem?_cons_zero, Option.some.injEq] at ha
        subst ha
        simp
      | succ k =>
        simp only [List.getElem?_cons_succ] at ha
        by_cases hend : start + chunkSize < text.length
        · rw [cutWindow_hard text chunkSize overlap start hp hn hs (by omega) hend] at ha
          have := ih _ k a (by omega) ha
          rw [this]
          push_cast
          ring
        · rw [cutWindow_final text chunkSize overlap start hs hlt (by omega),
            windowsFrom_done text chunkSize overlap n _ (le_refl _)] at ha
          simp at ha
    · simp at ha

/-- On a text without `'.'` and newline, a window that is followed by another one is full,
and the next one starts `overlap` code units before its end and repeats them. -/
theorem windowsFrom_hard_overlap (text : JsString) (chunkSize overlap : Int)
    (ho : 0 ≤ overlap) (hc : overlap < chunkSize) (hp : period ∉ text) (hn : newline ∉ text) :
    ∀ (fuel : Nat) (start : Int) (k : Nat) (a b : Int × JsString), 0 ≤ start →
      (windowsFrom text chunkSize overlap fuel start)[k]? = some a →
      (windowsFrom text chunkSize overlap fuel start)[k + 1]? = some b →
      a.2 = slice text a.1 (a.1 + chunkSize) ∧ (a.2.length : Int) = chunkSize ∧
      b.1 + overlap = a.1 + chunkSize ∧ overlap ≤ (b.2.length : Int) ∧
      b.2.take overlap.toNat = a.2.drop (chunkSize - overlap).toNat := by
  intro fuel
  induction fuel with
  | zero =>
    intro start k a b hs ha hb
    simp [windowsFrom] at ha
  | succ n ih =>
    intro start k a b hs ha hb
    simp only [windowsFrom] at ha hb
    split_ifs at ha hb with hlt
    · by_cases hend : start + chunkSize < text.length
      · rw [cutWindow_hard text chunkSize overlap start hp hn hs (by omega) hend] at ha hb
        cases k with
        | succ k =>
          simp only [List.getElem?_cons_succ] at ha hb
          exact ih _ k a b (by omega) ha hb
        | zero =>
          simp only [List.getElem?_cons_zero, Option.some.injEq] at ha
          simp only [zero_add, List.getElem?_cons_succ] at hb
          subst ha
          simp only
          cases n with
          | zero => simp [windowsFrom] at hb
          | succ m =>
            simp only [windowsFrom] at hb
            split_ifs at hb with hlt2
            · simp only [List.getElem?_cons_zero, Option.some.injEq] at hb
              subst hb
              simp only
              have hA := slice_of_bounds text start (start + chunkSize) hs (by omega) (by omega)
              have hseg : (cutWindow text chunkSize overlap (start + chunkSize - overlap)).1
                  = slice text (start + chunkSize - overlap)
                      (min (start + chunkSize - overlap + chunkSize) text.length) := by
                by_cases hend2 : start + chunkSize - overlap + chunkSize < text.length
                · rw [cutWindow_hard text chunkSize overlap _ hp hn (by omega) (by omega) hend2,
                    min_eq_left (le_of_lt hend2)]
                · rw [cutWindow_final text chunkSize overlap _ (by omega) hlt2 (by omega),
                    min_eq_right (by omega),
                    slice_to_end text _ (by omega) (by omega)]
              have hB := slice_of_bounds text (start + chunkSize - overlap)
                (min (start + chunkSize - overlap + chunkSize) text.length) (by omega) (by omega)
                (by omega)
              refine ⟨trivial, by omega, by omega, ?_, ?_⟩
              · rw [hseg, hB.2]
                omega
              · rw [hseg, hB.1, hA.1, List.take_take, List.drop_take, List.drop_drop]
                have e1 : (start + chunkSize - overlap).toNat
                    = start.toNat + (chunkSize - overlap).toNat := by omega
                have e2 : min overlap.toNat
                    ((min (start + chunkSize - overlap + chunkSize) (text.length : Int)
                      - (start + chunkSize - overlap)).toNat) = overlap.toNat := by omega
                have e3 : (start + chunkSize - start).toNat - (chunkSize - overlap).toNat
                    = overlap.toNat := by omega
                rw [e1, e2, e3]
            · simp at hb
      · rw [cutWindow_final text chunkSize overlap start hs hlt (by omega),
          windowsFrom_done text chunkSize overlap n _ (le_refl _)] at ha hb
        cases k with
        | zero => simp at hb
        | succ k => simp at ha
    · simp at ha

theorem windowsFrom_length_le (text : JsString) (chunkSize overlap : Int)
    (ho : 0 ≤ overlap) (hc : overlap < chunkSize) :
    ∀ (fuel : Nat) (start : Int), 0 ≤ start →
      ∀ w ∈ windowsFrom text chunkSize overlap fuel start, (w.2.length : Int) ≤ chunkSize := by
  intro fuel
  induction fuel with
  | zero =>
    intro start hs w hw
    simp [windowsFrom] at hw
  | succ n ih =>
    intro start hs w hw
    simp only [windowsFrom] at hw
    split_ifs at hw with hlt
    · rcases List.mem_cons.mp hw with hw | hw
      · subst hw
        exact cutWindow_fst_length text chunkSize overlap start (by omega) hs
      · exact ih _ (by
          have := (cutWindow_progress text chunkSize overlap start ho hc hs hlt).1
          omega) w hw
    · simp at hw

/-! ## The least advance of the cursor -/

/-- Rounding to 53 significant bits loses less than one part in `2^53`. -/
theorem roundSig53_fine (a : Nat) : (two53 - 1) * a ≤ two53 * roundSig53 a := by
  unfold roundSig53
  simp only
  rcases excessBits_spec a a with h0 | h1
  · rw [h0]
    simp only [pow_zero, Nat.div_one, Nat.mod_one, two53]
    split_ifs <;> omega
  · generalize excessBits a a = k at h1 ⊢
    have hP : 0 < 2 ^ k := Nat.pow_pos (by decide)
    have hdm := Nat.div_add_mod a (2 ^ k)
    have hr := Nat.mod_lt a hP
    have h52 : (two53 / 2) * 2 ^ k ≤ (a / 2 ^ k) * 2 ^ k := Nat.mul_le_mul_right _ h1
    generalize a / 2 ^ k = q at *
    generalize a % 2 ^ k = r at *
    generalize 2 ^ k = P at *
    have hcomm : P * q = q * P := Nat.mul_comm _ _
    simp only [two53] at *
    split_ifs with hup
    · rw [Nat.add_mul]
      omega
    · have hdown : 2 * r ≤ P := by
        by_contra hlt
        exact hup (Or.inl (by omega))
      omega

theorem fl_fine (x : Int) (h : 0 ≤ x) : ((two53 : Int) - 1) * x ≤ (two53 : Int) * fl x := by
  unfold fl
  rw [if_neg (by omega)]
  have := roundSig53_fine x.natAbs
  simp only [two53] at this ⊢
  omega

/-- A break point that passes the test `breakPoint > start + chunkSize * 0.7` is at least
`0.7 * chunkSize`, for every cursor `start ≥ 0` and every `chunkSize` up to `2^48`: the
roundings of the binary64 arithmetic do not let a smaller integer pass. -/
theorem pastThreshold_lower (breakPoint start chunkSize : Int) (hs : 0 ≤ start)
    (hc0 : 0 ≤ chunkSize) (hc : chunkSize ≤ 2 ^ 48)
    (h : pastThreshold breakPoint start chunkSize = true) :
    7 * chunkSize ≤ 10 * breakPoint := by
  simp only [pastThreshold, decide_eq_true_eq] at h
  unfold threshold at h
  have ht0 : 0 ≤ chunkSize * seventyPercent := Int.mul_nonneg hc0 (by decide)
  have ht := fl_fine _ ht0
  have htn := fl_nonneg _ ht0
  generalize fl (chunkSize * seventyPercent) = t at *
  have hx0 : 0 ≤ start * (two53 : Int) + t := by
    have := Int.mul_nonneg hs (Int.ofNat_nonneg two53)
    omega
  have hT := fl_fine _ hx0
  generalize fl (start * (two53 : Int) + t) = T at *
  simp only [two53, seventyPercent, Nat.cast_ofNat] at *
  norm_num at hc
  omega

/-- The advance of the cursor in one iteration: it reaches the end of the text, or it moves
forward by at least `chunkSize - overlap` (hard cut) or by more than `0.7 * chunkSize`
(cut at a break point). -/
theorem cutWindow_advance (text : JsString) (chunkSize overlap start : Int)
    (ho : 0 ≤ overlap) (hc : overlap < chunkSize) (hs : 0 ≤ start) (hlt : start < text.length)
    (hlen : (text.length : Int) ≤ 2 ^ 48) (d : Int) (hd1 : d ≤ chunkSize - overlap)
    (hd2 : 10 * d < 7 * chunkSize + 20) :
    (text.length : Int) ≤ (cutWindow text chunkSize overlap start).2 ∨
      start + d ≤ (cutWindow text chunkSize overlap start).2 := by
  unfold cutWindow
  simp only
  split_ifs with h1 h2
  · right
    have hcs : chunkSize ≤ 2 ^ 48 := by omega
    have := pastThreshold_lower _ start chunkSize hs (by omega) hcs h2
    omega
  · right
    omega
  · left
    omega

/-- The number of chunks, counted by the least advance `d` of the cursor: when the loop is at
a cursor `start ≥ k * d` inside the text with at most `k` chunks, it returns at most `n + 1`
chunks for some `n` with `n * d < text.length`. -/
theorem splitLoop_count_advance (text : JsString) (chunkSize overlap : Int)
    (ho : 0 ≤ overlap) (hc : overlap < chunkSize) (hlen : (text.length : Int) ≤ 2 ^ 48)
    (d : Int) (hd1 : d ≤ chunkSize - overlap) (hd2 : 10 * d < 7 * chunkSize + 20) :
    ∀ (fuel : Nat) (start : Int) (chunks r : List JsString) (k : Nat),
      0 ≤ start → start < text.length → chunks.length ≤ k → (k : Int) * d ≤ start →
      splitLoop text chunkSize overlap fuel start chunks = some r →
      ∃ n : Nat, r.length ≤ n + 1 ∧ (n : Int) * d < text.length := by
  intro fuel
  induction fuel with
  | zero =>
    intro start chunks r k hs hlt hk hkd h
    simp only [splitLoop, if_pos hlt] at h
    cases h
  | succ m ih =>
    intro start chunks r k hs hlt hk hkd h
    simp only [splitLoop, if_pos hlt] at h
    have hpush := pushChunk_length_le chunks (cutWindow text chunkSize overlap start).1
    have hprog := cutWindow_progress text chunkSize overlap start ho hc hs hlt
    by_cases hnext : (cutWindow text chunkSize overlap start).2 < text.length
    · rcases cutWindow_advance text chunkSize overlap start ho hc hs hlt hlen d hd1 hd2
        with hend | hadv
      · omega
      · refine ih _ _ r (k + 1) (by omega) hnext (by omega) ?_ h
        push_cast
        have : ((k : Int) + 1) * d = (k : Int) * d + d := by ring
        omega
    · rw [splitLoop_done _ _ _ _ _ _ (not_lt.mp hnext)] at h
      simp only [Option.some.injEq] at h
      refine ⟨k, by rw [← h]; omega, by omega⟩

/-! ## Lemmas on the orchestration -/

theorem bind_apply {α β : Type} (x : Eff α) (f : α → Eff β) (log : List Call) :
    (x >>= f) log = Eff.bind x f log := rfl

theorem pure_apply {α : Type} (a : α) (log : List Call) :
    (pure a : Eff α) log = (Outcome.returned a, log) := rfl

theorem bind_returned {α β : Type} (x : Eff α) (f : α → Eff β) (log log1 : List Call) (a : α)
    (h : x log = (Outcome.returned a, log1)) : (x >>= f) log = f a log1 := by
  simp only [bind_apply, Eff.bind, h]

theorem bind_thrown {α β : Type} (x : Eff α) (f : α → Eff β) (log log1 : List Call)
    (e : JsString) (h : x log = (Outcome.thrown e, log1)) :
    (x >>= f) log = (Outcome.thrown e, log1) := by
  simp only [bind_apply, Eff.bind, h]

/-- A `catch` block that only rethrows changes nothing. -/
theorem tryCatch_rethrow {α : Type} (body : Eff α) (log : List Call) :
    tryCatch body (fun message => throwNew message) log = body log := by
  unfold tryCatch throwNew
  rcases h : body log with ⟨o, log1⟩
  cases o <;> rfl

theorem now_apply (env : Env) (log : List Call) :
    now env log = (Outcome.returned (env.clock log), log ++ [Call.now]) := rfl

/-- One iteration of the loop over the queries: the slot is filled whether `processQuery`
returns or throws, and the iteration itself never throws. -/
theorem queryLoop_iteration (env : Env) (documentUrl documentType query : JsString)
    (results : List JsString) (log : List Call) :
    tryCatch
        (do
          let result ← processQuery env query documentUrl documentType
          pure (results ++ [result.answer]))
        (fun message => pure (results ++ [errorPrefix ++ message])) log
      = (Outcome.returned
          (results ++ [answerSlot (processQuery env query documentUrl documentType log).1]),
         (processQuery env query documentUrl documentType log).2) := by
  unfold tryCatch
  rcases h : processQuery env query documentUrl documentType log with ⟨o, log1⟩
  cases o with
  | returned record => simp only [bind_apply, Eff.bind, h, pure_apply, answerSlot]
  | thrown message => simp only [bind_apply, Eff.bind, h, pure_apply, answerSlot]

/-- The loop over the queries always returns: it appends one slot per query, in order. -/
theorem queryLoop_eq (env : Env) (documentUrl documentType : JsString) :
    ∀ (queries results : List JsString) (log : List Call),
      queryLoop env documentUrl documentType queries results log
        = (Outcome.returned (results ++ batchSlots env documentUrl documentType queries log),
           logAfterQueries env documentUrl documentType queries log) := by
  intro queries
  induction queries with
  | nil =>
    intro results log
    simp only [queryLoop, pure_apply, batchSlots, logAfterQueries, List.append_nil]
  | cons query rest ih =>
    intro results log
    simp only [queryLoop]
    rw [bind_returned _ _ _ _ _ (queryLoop_iteration env documentUrl documentType query results log),
      ih]
    simp only [batchSlots, logAfterQueries, List.append_assoc, List.singleton_append]

theorem batchSlots_length (env : Env) (documentUrl documentType : JsString) :
    ∀ (queries : List JsString) (log : List Call),
      (batchSlots env documentUrl documentType queries log).length = queries.length := by
  intro queries
  induction queries with
  | nil => intro log; rfl
  | cons query rest ih => intro log; simp only [batchSlots, List.length_cons, ih]

/-- The slot of the query at index `i` is decided by the outcome of its own `processQuery`. -/
theorem batchSlots_getElem (env : Env) (documentUrl documentType : JsString) :
    ∀ (queries : List JsString) (log : List Call) (i : Nat) (h : i < queries.length),
      (batchSlots env documentUrl documentType queries log)[i]?
        = some (answerSlot (processQuery env (queries.get ⟨i, h⟩) documentUrl documentType
            (logAfterQueries env documentUrl documentType (queries.take i) log)).1) := by
  intro queries
  induction queries with
  | nil => intro log i h; simp at h
  | cons query rest ih =>
    intro log i h
    cases i with
    | zero =>
      simp only [batchSlots, List.getElem?_cons_zero, List.take_zero, logAfterQueries]
      rfl
    | succ j =>
      simp only [batchSlots, List.getElem?_cons_succ, List.take_succ_cons, logAfterQueries,
        List.get_cons_succ]
      exact ih _ j (by simpa using h)

/-- The batch, once the initial document processing has returned. -/
theorem processMultipleQueries_of_returned (env : Env) (queries : List JsString)
    (documentUrl documentType : JsString) (log log1 : List Call) (r : ProcessResult)
    (hdoc : processDocument env documentUrl documentType
      (units "doc_" ++ decimal (env.clock log)) (log ++ [Call.now]) = (Outcome.returned r, log1)) :
    processMultipleQueries env queries documentUrl documentType log
      = (Outcome.returned
          { answers := batchSlots env documentUrl documentType queries log1
            documentUrl := documentUrl
            queriesProcessed := queries.length
            timestamp := env.toISOString
              (env.clock (logAfterQueries env documentUrl documentType queries log1)) },
         logAfterQueries env documentUrl documentType queries log1 ++ [Call.now]) := by
  unfold processMultipleQueries
  rw [tryCatch_rethrow, bind_returned _ _ _ _ _ (now_apply env log),
    bind_returned _ _ _ _ _ hdoc,
    bind_returned _ _ _ _ _ (queryLoop_eq env documentUrl documentType queries [] log1),
    bind_returned _ _ _ _ _ (now_apply env _)]
  simp only [pure_apply, List.nil_append]

/-- The batch, when the initial document processing throws: the error reaches the caller
unchanged, and no query is processed. -/
theorem processMultipleQueries_of_thrown (env : Env) (queries : List JsString)
    (documentUrl documentType : JsString) (log log1 : List Call) (message : JsString)
    (hdoc : processDocument env documentUrl documentType
      (units "doc_" ++ decimal (env.clock log)) (log ++ [Call.now]) = (Outcome.thrown message, log1)) :
    processMultipleQueries env queries documentUrl documentType log
      = (Outcome.thrown message, log1) := by
  unfold processMultipleQueries
  rw [tryCatch_rethrow, bind_returned _ _ _ _ _ (now_apply env log),
    bind_thrown _ _ _ _ _ hdoc]

/-! ## Counting the document fetches of a run -/

theorem fetches_append_now (log : List Call) : fetches (log ++ [Call.now]) = fetches log := by
  simp [fetches, isHttpGet]

theorem silent_pure {α : Type} (a : α) : Silent (pure a : Eff α) :=
  fun _ => rfl

theorem silent_throwNew {α : Type} (message : JsString) : Silent (throwNew message : Eff α) :=
  fun _ => rfl

theorem silent_now (env : Env) : Silent (now env) := by
  intro log
  simp [now, fetches, isHttpGet]

theorem silent_call {α : Type} (c : Call) (answer : List Call → Outcome α)
    (hc : isHttpGet c = false) : Silent (call c answer) := by
  intro log
  simp [call, fetches, hc]

theorem silent_bind {α β : Type} (x : Eff α) (f : α → Eff β) (hx : Silent x)
    (hf : ∀ a, Silent (f a)) : Silent (x >>= f) := by
  intro log
  have h1 := hx log
  rcases h : x log with ⟨o, log1⟩
  rw [h] at h1
  cases o with
  | returned a => rw [bind_returned _ _ _ _ _ h, hf a log1]; exact h1
  | thrown e => rw [bind_thrown _ _ _ _ _ h]; exact h1

theorem silent_tryCatch {α : Type} (body : Eff α) (handler : JsString → Eff α)
    (hb : Silent body) (hh : ∀ e, Silent (handler e)) : Silent (tryCatch body handler) := by
  intro log
  have h1 := hb log
  unfold tryCatch
  rcases h : body log with ⟨o, log1⟩
  rw [h] at h1
  cases o with
  | returned a => exact h1
  | thrown e => simp only [hh e log1]; exact h1

theorem fetchesOnce_bind {α β : Type} (x : Eff α) (f : α → Eff β) (hx : FetchesOnce x)
    (hf : ∀ a, Silent (f a)) : FetchesOnce (x >>= f) := by
  intro log
  have h1 := hx log
  rcases h : x log with ⟨o, log1⟩
  rw [h] at h1
  cases o with
  | returned a => rw [bind_returned _ _ _ _ _ h, hf a log1]; exact h1
  | thrown e => rw [bind_thrown _ _ _ _ _ h]; exact h1

theorem fetchesOnce_tryCatch {α : Type} (body : Eff α) (handler : JsString → Eff α)
    (hb : FetchesOnce body) (hh : ∀ e, Silent (handler e)) :
    FetchesOnce (tryCatch body handler) := by
  intro log
  have h1 := hb log
  unfold tryCatch
  rcases h : body log with ⟨o, log1⟩
  rw [h] at h1
  cases o with
  | returned a => exact h1
  | thrown e => simp only [hh e log1]; exact h1

theorem fetchesOnce_after_now {β : Type} (env : Env) (f : Nat → Eff β)
    (hf : ∀ a, FetchesOnce (f a)) : FetchesOnce (now env >>= f) := by
  intro log
  rw [bind_returned _ _ _ _ _ (now_apply env log), hf _ _]
  simp [fetches, isHttpGet]

theorem fetchesOnce_httpGet {α : Type} (url : JsString) (answer : List Call → Outcome α) :
    FetchesOnce (call (Call.httpGet url) answer) := by
  intro log
  simp [call, fetches, isHttpGet]

theorem silent_construct (outcome : Outcome Unit) : Silent (construct outcome) :=
  fun _ => rfl

theorem silent_initializeClients (env : Env) : Silent (initializeClients env) := by
  unfold initializeClients
  split_ifs
  · exact silent_throwNew _
  · exact silent_throwNew _
  · exact silent_bind _ _ (silent_construct _) (fun _ =>
      silent_bind _ _ (silent_construct _) (fun _ => silent_construct _))

theorem fetchesOnce_extractTextFromDocument (env : Env) (documentUrl documentType : JsString) :
    FetchesOnce (extractTextFromDocument env documentUrl documentType) := by
  unfold extractTextFromDocument
  refine fetchesOnce_tryCatch _ _ (fetchesOnce_bind _ _ (fetchesOnce_httpGet _ _) ?_)
    (fun _ => silent_throwNew _)
  intro buffer
  split_ifs
  · exact silent_call _ _ rfl
  · exact silent_call _ _ rfl
  · exact silent_pure _
  · exact silent_throwNew _

theorem silent_embedLoop (env : Env) (textChunks : List JsString) :
    ∀ (fuel i : Nat) (embeddings : List Embedding),
      Silent (embedLoop env textChunks fuel i embeddings) := by
  intro fuel
  induction fuel with
  | zero => intro i embeddings; exact silent_pure _
  | succ n ih =>
    intro i embeddings
    unfold embedLoop
    split_ifs
    · exact silent_bind _ _ (silent_call _ _ rfl) (fun _ => ih _ _)
    · exact silent_pure _

theorem silent_generateEmbeddings (env : Env) (textChunks : List JsString) :
    Silent (generateEmbeddings env textChunks) := by
  unfold generateEmbeddings
  exact silent_tryCatch _ _
    (silent_bind _ _ (silent_initializeClients env) (fun _ => silent_embedLoop env _ _ _ _))
    (fun _ => silent_throwNew _)

theorem silent_buildVectors (env : Env) (metadata : Metadata) (nspace : JsString) :
    ∀ (embeddings : List Embedding) (index : Nat),
      Silent (buildVectors env metadata nspace embeddings index) := by
  intro embeddings
  induction embeddings with
  | nil => intro index; exact silent_pure _
  | cons e rest ih =>
    intro index
    unfold buildVectors
    exact silent_bind _ _ (silent_now env) (fun _ =>
      silent_bind _ _ (silent_now env) (fun _ =>
        silent_bind _ _ (ih _) (fun _ => silent_pure _)))

theorem silent_storeEmbeddings (env : Env) (embeddings : List Embedding) (metadata : Metadata)
    (nspace : JsString) : Silent (storeEmbeddings env embeddings metadata nspace) := by
  unfold storeEmbeddings
  exact silent_tryCatch _ _
    (silent_bind _ _ (silent_initializeClients env) (fun _ =>
      silent_bind _ _ (silent_buildVectors env metadata nspace _ _) (fun _ =>
        silent_bind _ _ (silent_call _ _ rfl) (fun _ => silent_pure _))))
    (fun _ => silent_throwNew _)

theorem fetchesOnce_processDocument (env : Env) (documentUrl documentType nspace : JsString) :
    FetchesOnce (processDocument env documentUrl documentType nspace) := by
  unfold processDocument
  exact fetchesOnce_tryCatch _ _
    (fetchesOnce_bind _ _ (fetchesOnce_extractTextFromDocument env _ _) (fun _ =>
      silent_bind _ _ (silent_generateEmbeddings env _) (fun _ =>
        silent_bind _ _ (silent_storeEmbeddings env _ _ _) (fun _ => silent_pure _))))
    (fun _ => silent_throwNew _)

theorem silent_searchChunks (env : Env) (query nspace : JsString) (topK : Nat) :
    Silent (searchChunks env query nspace topK) := by
  unfold searchChunks
  refine silent_tryCatch _ _
    (silent_bind _ _ (silent_initializeClients env) (fun _ =>
      silent_bind _ _ (silent_call _ _ rfl) ?_))
    (fun _ => silent_throwNew _)
  intro queryEmbedding
  cases queryEmbedding with
  | nil => exact silent_throwNew _
  | cons vector _ => exact silent_bind _ _ (silent_call _ _ rfl) (fun _ => silent_pure _)

theorem silent_generateAnswer (env : Env) (query : JsString)
    (relevantChunks : List RetrievalMatch) :
    Silent (generateAnswer env query relevantChunks) := by
  unfold generateAnswer
  refine silent_tryCatch _ _
    (silent_bind _ _ (silent_initializeClients env) (fun _ =>
      silent_bind _ _ (silent_call _ _ rfl) ?_))
    (fun _ => silent_throwNew _)
  intro choices
  cases choices with
  | nil => exact silent_throwNew _
  | cons content _ => exact silent_pure _

/-- Every `processQuery` fetches the document once more, whatever its outcome. -/
theorem fetchesOnce_processQuery (env : Env) (query documentUrl documentType : JsString) :
    FetchesOnce (processQuery env query documentUrl documentType) := by
  unfold processQuery
  refine fetchesOnce_tryCatch _ _ (fetchesOnce_after_now env _ (fun stamp => ?_))
    (fun _ => silent_throwNew _)
  exact fetchesOnce_bind _ _ (fetchesOnce_processDocument env _ _ _) (fun _ =>
    silent_bind _ _ (silent_searchChunks env _ _ _) (fun _ =>
      silent_bind _ _ (silent_generateAnswer env _ _) (fun _ =>
        silent_bind _ _ (silent_now env) (fun _ => silent_pure _))))

theorem fetches_logAfterQueries (env : Env) (documentUrl documentType : JsString) :
    ∀ (queries : List JsString) (log : List Call),
      fetches (logAfterQueries env documentUrl documentType queries log)
        = fetches log + queries.length := by
  intro queries
  induction queries with
  | nil => intro log; rfl
  | cons query rest ih =>
    intro log
    simp only [logAfterQueries, ih, List.length_cons,
      fetchesOnce_processQuery env query documentUrl documentType log]
    omega

/-! ## Lemmas on `generateEmbeddings` -/

theorem tryCatch_returned {α : Type} (body : Eff α) (handler : JsString → Eff α)
    (log log1 : List Call) (a : α) (h : body log = (Outcome.returned a, log1)) :
    tryCatch body handler log = (Outcome.returned a, log1) := by
  simp only [tryCatch, h]

theorem tryCatch_thrown {α : Type} (body : Eff α) (handler : JsString → Eff α)
    (log log1 : List Call) (e : JsString) (h : body log = (Outcome.thrown e, log1)) :
    tryCatch body handler log = handler e log1 := by
  simp only [tryCatch, h]

theorem construct_apply (outcome : Outcome Unit) (log : List Call) :
    construct outcome log = (outcome, log) := rfl

/-- Three construction steps in a row: they leave the log as it is, and return if and only if
each of them returns. -/
theorem constructions_apply (o1 o2 o3 : Outcome Unit) (log : List Call) :
    ((do
        construct o1
        construct o2
        construct o3 : Eff Unit) log).2 = log ∧
    ((o1 = Outcome.returned () ∧ o2 = Outcome.returned () ∧ o3 = Outcome.returned ()) →
      (do
        construct o1
        construct o2
        construct o3 : Eff Unit) log = (Outcome.returned (), log)) ∧
    ((o1 = Outcome.returned () ∧ o2 = Outcome.returned () ∧ o3 = Outcome.returned ()) ∨
      ∃ message, (do
        construct o1
        construct o2
        construct o3 : Eff Unit) log = (Outcome.thrown message, log)) := by
  cases o1 <;> cases o2 <;> cases o3 <;>
    simp [construct, bind_apply, Eff.bind]

theorem initializeClients_of_configured (env : Env) (hcfg : Configured env) (log : List Call) :
    initializeClients env log = (Outcome.returned (), log) := by
  unfold initializeClients
  simp only [hcfg.1, hcfg.2.1]
  exact (constructions_apply _ _ _ log).2.1 hcfg.2.2

theorem initializeClients_log (env : Env) (log : List Call) :
    (initializeClients env log).2 = log := by
  unfold initializeClients
  split_ifs
  · rfl
  · rfl
  · exact (constructions_apply _ _ _ log).1

theorem initializeClients_cases (env : Env) (log : List Call) :
    Configured env ∨ ∃ message, initializeClients env log = (Outcome.thrown message, log) := by
  unfold Configured initializeClients
  cases h1 : unconfigured env.openaiApiKey (units "your_openai_api_key_here")
  · cases h2 : unconfigured env.pineconeApiKey (units "your_pinecone_api_key_here")
    · rcases (constructions_apply env.newOpenAI env.newPinecone env.pineconeIndex log).2.2
        with h | ⟨message, h⟩
      · left
        exact ⟨rfl, rfl, h⟩
      · right
        exact ⟨message, h⟩
    · right; exact ⟨_, rfl⟩
  · right; exact ⟨_, rfl⟩

theorem call_apply {α : Type} (c : Call) (answer : List Call → Outcome α) (log : List Call) :
    call c answer log = (answer log, log ++ [c]) := rfl

theorem batchCalls_succ (textChunks : List JsString) (k : Nat) :
    batchCalls textChunks (k + 1) = batchCalls textChunks k ++ [batchCall textChunks k] := by
  simp [batchCalls, List.range_succ]

theorem batchCalls_length (textChunks : List JsString) (k : Nat) :
    (batchCalls textChunks k).length = k := by
  simp [batchCalls]

theorem lt_batchCount_iff (n k : Nat) : k < batchCount n ↔ 10 * k < n := by
  unfold batchCount
  omega

theorem batchCount_le (n : Nat) : batchCount n ≤ n := by
  unfold batchCount
  omega

/-- The loop, when every batch call is answered: it makes the calls of all the iterations
and returns the answers concatenated. -/
theorem embedLoop_returned (env : Env) (textChunks : List JsString) (log : List Call)
    (pre : List Embedding)
    (hall : ∀ j, j < batchCount textChunks.length →
      ∃ v, batchAnswer env textChunks log j = Outcome.returned v) :
    ∀ (fuel k : Nat), k ≤ batchCount textChunks.length →
      batchCount textChunks.length ≤ fuel + k →
      embedLoop env textChunks fuel (10 * k) (pre ++ collected env textChunks log k)
          (log ++ batchCalls textChunks k)
        = (Outcome.returned (pre ++ collected env textChunks log (batchCount textChunks.length)),
           log ++ batchCalls textChunks (batchCount textChunks.length)) := by
  intro fuel
  induction fuel with
  | zero =>
    intro k hk hf
    have hkK : k = batchCount textChunks.length := by omega
    rw [hkK]
    rfl
  | succ f ih =>
    intro k hk hf
    unfold embedLoop
    by_cases hlt : 10 * k < textChunks.length
    · have hkK := (lt_batchCount_iff textChunks.length k).mpr hlt
      obtain ⟨v, hv⟩ := hall k hkK
      rw [if_pos hlt]
      have hcall : call (Call.embeddingsCreate (EmbedInput.batch ((textChunks.drop (10 * k)).take 10)))
          (fun log1 => env.embeddingsCreate log1
            (EmbedInput.batch ((textChunks.drop (10 * k)).take 10)))
          (log ++ batchCalls textChunks k)
          = (Outcome.returned v, log ++ batchCalls textChunks (k + 1)) := by
        rw [call_apply, batchCalls_succ, List.append_assoc]
        exact congrArg (fun o => (o, _)) hv
      rw [bind_returned _ _ _ _ _ hcall]
      have h1 := ih (k + 1) (by omega) (by omega)
      simp only [collected, hv, answeredVectors] at h1
      rw [show 10 * (k + 1) = 10 * k + 10 by ring, ← List.append_assoc] at h1
      exact h1
    · have hkK : k = batchCount textChunks.length := by
        have := (lt_batchCount_iff textChunks.length k).not.mpr hlt
        omega
      rw [if_neg hlt, hkK]
      rfl

/-- The loop, when the call of iteration `j0` is the first to fail: the error is thrown
after that call, and no later call is made. -/
theorem embedLoop_thrown (env : Env) (textChunks : List JsString) (log : List Call)
    (j0 : Nat) (message : JsString) (hj0 : j0 < batchCount textChunks.length)
    (hbefore : ∀ j, j < j0 → ∃ v, batchAnswer env textChunks log j = Outcome.returned v)
    (hfail : batchAnswer env textChunks log j0 = Outcome.thrown message) :
    ∀ (fuel k : Nat) (embeddings : List Embedding), k ≤ j0 →
      batchCount textChunks.length ≤ fuel + k →
      embedLoop env textChunks fuel (10 * k) embeddings (log ++ batchCalls textChunks k)
        = (Outcome.thrown message, log ++ batchCalls textChunks (j0 + 1)) := by
  intro fuel
  induction fuel with
  | zero =>
    intro k embeddings hk hf
    omega
  | succ f ih =>
    intro k embeddings hk hf
    unfold embedLoop
    have hlt : 10 * k < textChunks.length :=
      (lt_batchCount_iff textChunks.length k).mp (by omega)
    rw [if_pos hlt]
    rcases Nat.lt_or_eq_of_le hk with hkj | hkj
    · obtain ⟨v, hv⟩ := hbefore k hkj
      have hcall : call (Call.embeddingsCreate (EmbedInput.batch ((textChunks.drop (10 * k)).take 10)))
          (fun log1 => env.embeddingsCreate log1
            (EmbedInput.batch ((textChunks.drop (10 * k)).take 10)))
          (log ++ batchCalls textChunks k)
          = (Outcome.returned v, log ++ batchCalls textChunks (k + 1)) := by
        rw [call_apply, batchCalls_succ, List.append_assoc]
        exact congrArg (fun o => (o, _)) hv
      rw [bind_returned _ _ _ _ _ hcall]
      have h1 := ih (k + 1) (embeddings ++ v) (by omega) (by omega)
      rw [show 10 * (k + 1) = 10 * k + 10 by ring] at h1
      exact h1
    · subst hkj
      have hcall : call (Call.embeddingsCreate (EmbedInput.batch ((textChunks.drop (10 * k)).take 10)))
          (fun log1 => env.embeddingsCreate log1
            (EmbedInput.batch ((textChunks.drop (10 * k)).take 10)))
          (log ++ batchCalls textChunks k)
          = (Outcome.thrown message, log ++ batchCalls textChunks (k + 1)) := by
        rw [call_apply, batchCalls_succ, List.append_assoc]
        exact congrArg (fun o => (o, _)) hfail
      rw [bind_thrown _ _ _ _ _ hcall]

/-- Either every one of the first `count` answers is a value, or there is a first failure. -/
theorem all_returned_or_first_thrown {α : Type} (answer : Nat → Outcome α) (count : Nat) :
    (∀ j, j < count → ∃ v, answer j = Outcome.returned v) ∨
    ∃ j0 message, j0 < count ∧ (∀ j, j < j0 → ∃ v, answer j = Outcome.returned v) ∧
      answer j0 = Outcome.thrown message := by
  induction count with
  | zero => left; intro j hj; omega
  | succ c ih =>
    rcases ih with hall | ⟨j0, message, hj0, hbefore, hfail⟩
    · cases hc : answer c with
      | returned v =>
        left
        intro j hj
        rcases Nat.lt_or_eq_of_le (Nat.lt_succ_iff.mp hj) with h | h
        · exact hall j h
        · exact ⟨v, h ▸ hc⟩
      | thrown message => right; exact ⟨c, message, Nat.lt_succ_self c, hall, hc⟩
    · right; exact ⟨j0, message, by omega, hbefore, hfail⟩

/-- The method `generateEmbeddings` when `initialize()` returns, every batch call answered. -/
theorem generateEmbeddings_returned (env : Env) (hcfg : Configured env)
    (textChunks : List JsString) (log : List Call)
    (hall : ∀ j, j < batchCount textChunks.length →
      ∃ v, batchAnswer env textChunks log j = Outcome.returned v) :
    generateEmbeddings env textChunks log
      = (Outcome.returned (collected env textChunks log (batchCount textChunks.length)),
         log ++ batchCalls textChunks (batchCount textChunks.length)) := by
  unfold generateEmbeddings
  apply tryCatch_returned
  rw [bind_returned _ _ _ _ _ (initializeClients_of_configured env hcfg log)]
  have h := embedLoop_returned env textChunks log [] hall textChunks.length 0 (Nat.zero_le _)
    (by have := batchCount_le textChunks.length; omega)
  simpa [batchCalls, collected] using h

/-- The method `generateEmbeddings` when `initialize()` returns, the call of iteration `j0`
being the first to fail. -/
theorem generateEmbeddings_thrown (env : Env) (hcfg : Configured env)
    (textChunks : List JsString) (log : List Call) (j0 : Nat) (message : JsString)
    (hj0 : j0 < batchCount textChunks.length)
    (hbefore : ∀ j, j < j0 → ∃ v, batchAnswer env textChunks log j = Outcome.returned v)
    (hfail : batchAnswer env textChunks log j0 = Outcome.thrown message) :
    generateEmbeddings env textChunks log
      = (Outcome.thrown (units "Failed to generate embeddings: " ++ message),
         log ++ batchCalls textChunks (j0 + 1)) := by
  unfold generateEmbeddings
  have hbody : (do
      initializeClients env
      embedLoop env textChunks textChunks.length 0 []) log
      = (Outcome.thrown message, log ++ batchCalls textChunks (j0 + 1)) := by
    rw [bind_returned _ _ _ _ _ (initializeClients_of_configured env hcfg log)]
    have h := embedLoop_thrown env textChunks log j0 message hj0 hbefore hfail
      textChunks.length 0 [] (Nat.zero_le _)
      (by have := batchCount_le textChunks.length; omega)
    simpa [batchCalls] using h
  rw [tryCatch_thrown _ _ _ _ _ hbody]
  rfl

/-- The batches of the iterations before `k` are the first `10 * k` texts. -/
theorem batches_flatten (textChunks : List JsString) (k : Nat) :
    ((List.range k).map (batchAt textChunks)).flatten = textChunks.take (10 * k) := by
  induction k with
  | zero => simp
  | succ k ih =>
    rw [List.range_succ, List.map_append, List.flatten_append, ih]
    simp only [List.map_cons, List.map_nil, List.flatten_cons, List.flatten_nil,
      List.append_nil, batchAt]
    rw [show 10 * (k + 1) = 10 * k + 10 by ring, List.take_add]

theorem take_batchCount (textChunks : List JsString) :
    textChunks.take (10 * batchCount textChunks.length) = textChunks := by
  apply List.take_of_length_le
  unfold batchCount
  omega

/-- The answers collected from a provider that embeds every text by `f`. -/
theorem collected_of_map (env : Env) (f : JsString → Embedding)
    (hstub : ∀ (log : List Call) (batch : List JsString),
      env.embeddingsCreate log (EmbedInput.batch batch) = Outcome.returned (batch.map f))
    (textChunks : List JsString) (log : List Call) (k : Nat) :
    collected env textChunks log k = (textChunks.take (10 * k)).map f := by
  induction k with
  | zero => simp [collected]
  | succ k ih =>
    simp only [collected, ih, batchAnswer, hstub, answeredVectors]
    rw [show 10 * (k + 1) = 10 * k + 10 by ring, List.take_add, List.map_append]
    rfl

theorem batchCount_eq_ceil (n : Nat) : batchCount n = ⌈(n : ℚ) / 10⌉₊ := by
  apply le_antisymm
  · by_cases h0 : batchCount n = 0
    · omega
    · have h1 : batchCount n - 1 < ⌈(n : ℚ) / 10⌉₊ := by
        rw [Nat.lt_ceil, lt_div_iff₀ (by norm_num)]
        have h2 : (batchCount n - 1) * 10 < n := by unfold batchCount at *; omega
        exact_mod_cast h2
      omega
  · rw [Nat.ceil_le, div_le_iff₀ (by norm_num)]
    have h2 : n ≤ batchCount n * 10 := by unfold batchCount; omega
    exact_mod_cast h2

theorem batchAt_length (textChunks : List JsString) (k : Nat) :
    (batchAt textChunks k).length = min (10 * k + 10) textChunks.length - 10 * k := by
  simp only [batchAt, List.length_take, List.length_drop]
  omega

theorem batchAt_getElem (textChunks : List JsString) (k i : Nat) (hi : i < 10) :
    (batchAt textChunks k)[i]? = textChunks[10 * k + i]? := by
  simp only [batchAt, List.getElem?_take, hi, if_true, List.getElem?_drop]

/-! ## Lemmas on decimal numerals and on `storeEmbeddings` -/

theorem digitChar_toNat (d : Nat) (h : d < 10) : (Nat.digitChar d).toNat = 48 + d := by
  interval_cases d <;> rfl

theorem decimalValue_append (p : JsString) (u : Nat) :
    decimalValue (p ++ [u]) = 10 * decimalValue p + (u - 48) := by
  simp [decimalValue, List.foldl_append]

theorem toDigitsCore_spec : ∀ (fuel n : Nat) (ds : List Char), n < fuel →
    ∃ p : List Char, Nat.toDigitsCore 10 fuel n ds = p ++ ds ∧
      decimalValue (p.map Char.toNat) = n ∧ ∀ c ∈ p, 48 ≤ c.toNat ∧ c.toNat ≤ 57 := by
  intro fuel
  induction fuel with
  | zero => intro n ds h; omega
  | succ f ih =>
    intro n ds h
    have hd := digitChar_toNat (n % 10) (Nat.mod_lt _ (by decide))
    unfold Nat.toDigitsCore
    by_cases h0 : n / 10 = 0
    · simp only [h0, if_true]
      refine ⟨[Nat.digitChar (n % 10)], rfl, ?_, ?_⟩
      · simp only [List.map_cons, List.map_nil, decimalValue, List.foldl_cons, List.foldl_nil, hd]
        omega
      · intro c hc
        rw [List.mem_singleton.mp hc, hd]
        omega
    · simp only [h0, if_false]
      obtain ⟨p, hp, hval, hdig⟩ := ih (n / 10) (Nat.digitChar (n % 10) :: ds) (by omega)
      refine ⟨p ++ [Nat.digitChar (n % 10)], ?_, ?_, ?_⟩
      · rw [hp, List.append_assoc, List.singleton_append]
      · rw [List.map_append, List.map_cons, List.map_nil, decimalValue_append, hval, hd]
        omega
      · intro c hc
        rcases List.mem_append.mp hc with h1 | h1
        · exact hdig c h1
        · rw [List.mem_singleton.mp h1, hd]
          omega

theorem decimal_spec (n : Nat) :
    decimalValue (decimal n) = n ∧ ∀ u ∈ decimal n, 48 ≤ u ∧ u ≤ 57 := by
  obtain ⟨p, hp, hval, hdig⟩ := toDigitsCore_spec (n + 1) n [] (Nat.lt_succ_self n)
  have hdec : decimal n = p.map Char.toNat := by
    unfold decimal Nat.toDigits
    rw [hp, List.append_nil]
  rw [hdec]
  refine ⟨hval, fun u hu => ?_⟩
  obtain ⟨c, hc, rfl⟩ := List.mem_map.mp hu
  exact hdig c hc

/-- Different numbers have different decimal numerals. -/
theorem decimal_injective (a b : Nat) (h : decimal a = decimal b) : a = b := by
  have h1 := (decimal_spec a).1
  rw [h, (decimal_spec b).1] at h1
  exact h1.symm

/-- A decimal numeral holds no underscore. -/
theorem underscore_not_mem_decimal (n : Nat) : 95 ∉ decimal n := by
  intro h
  have := (decimal_spec n).2 95 h
  omega

/-- A list is split in one way only at the first occurrence of a separator. -/
theorem append_separator_inj (sep : Nat) :
    ∀ (a c b d : List Nat), sep ∉ a → sep ∉ c → a ++ sep :: b = c ++ sep :: d →
      a = c ∧ b = d := by
  intro a
  induction a with
  | nil =>
    intro c b d _ hc h
    cases c with
    | nil => simp only [List.nil_append, List.cons.injEq, true_and] at h; exact ⟨rfl, h⟩
    | cons y c =>
      simp only [List.nil_append, List.cons_append, List.cons.injEq] at h
      exact absurd (h.1 ▸ List.mem_cons_self _ _) hc
  | cons x a ih =>
    intro c b d ha hc h
    cases c with
    | nil =>
      simp only [List.nil_append, List.cons_append, List.cons.injEq] at h
      exact absurd (h.1 ▸ List.mem_cons_self _ _) ha
    | cons y c =>
      simp only [List.cons_append, List.cons.injEq] at h
      obtain ⟨h1, h2⟩ := ih c b d (fun hm => ha (List.mem_cons_of_mem _ hm))
        (fun hm => hc (List.mem_cons_of_mem _ hm)) h.2
      exact ⟨by rw [h.1, h1], h2⟩

/-- Two ids built on the same namespace are equal only for the same clock reading and the
same position. -/
theorem recordId_inj (nspace : JsString) (stamp1 stamp2 index1 index2 : Nat)
    (h : recordId nspace stamp1 index1 = recordId nspace stamp2 index2) :
    stamp1 = stamp2 ∧ index1 = index2 := by
  have hu : units "_" = [95] := by decide
  simp only [recordId, hu, List.append_assoc, List.singleton_append] at h
  have h1 := List.append_cancel_left h
  simp only [List.cons_append, List.cons.injEq, true_and] at h1
  obtain ⟨h2, h3⟩ := append_separator_inj 95 _ _ _ _ (underscore_not_mem_decimal stamp1)
    (underscore_not_mem_decimal stamp2) h1
  exact ⟨decimal_injective _ _ h2, decimal_injective _ _ h3⟩

theorem afterReadings_zero (log : List Call) : afterReadings log 0 = log := by
  simp [afterReadings]

theorem afterReadings_one (log : List Call) : afterReadings log 1 = log ++ [Call.now] := rfl

theorem afterReadings_two_add (log : List Call) (m : Nat) :
    afterReadings (log ++ [Call.now] ++ [Call.now]) m = afterReadings log (m + 2) := by
  simp [afterReadings, List.replicate_succ]

/-- The records built by the callback of `embeddings.map`: it always returns, with one record
per embedding, after two readings of the clock per record. -/
theorem buildVectors_spec (env : Env) (metadata : Metadata) (nspace : JsString) :
    ∀ (embeddings : List Embedding) (index : Nat) (log : List Call),
      ∃ vectors : List VectorRecord,
        buildVectors env metadata nspace embeddings index log
          = (Outcome.returned vectors, afterReadings log (2 * embeddings.length)) ∧
        vectors.length = embeddings.length ∧
        ∀ (i : Nat) (hi : i < embeddings.length),
          vectors[i]? = some
            { id := recordId nspace (env.clock (afterReadings log (2 * i))) (index + i)
              values := embeddings.get ⟨i, hi⟩
              metadata := metadata
              chunkIndex := index + i
              text := metadata.textChunks[index + i]?
              timestamp := env.toISOString (env.clock (afterReadings log (2 * i + 1))) } := by
  intro embeddings
  induction embeddings with
  | nil =>
    intro index log
    exact ⟨[], by simp [buildVectors, afterReadings, pure_apply], rfl, fun i hi => by simp at hi⟩
  | cons e rest ih =>
    intro index log
    obtain ⟨vs, hvs, hlen, hget⟩ := ih (index + 1) (log ++ [Call.now] ++ [Call.now])
    refine ⟨{ id := recordId nspace (env.clock log) index
              values := e
              metadata := metadata
              chunkIndex := index
              text := metadata.textChunks[index]?
              timestamp := env.toISOString (env.clock (log ++ [Call.now])) } :: vs,
      ?_, by simp [hlen], ?_⟩
    · unfold buildVectors
      rw [bind_returned _ _ _ _ _ (now_apply env log),
        bind_returned _ _ _ _ _ (now_apply env (log ++ [Call.now])),
        bind_returned _ _ _ _ _ hvs, pure_apply, afterReadings_two_add]
      rfl
    · intro i hi
      cases i with
      | zero =>
        simp only [List.getElem?_cons_zero, Nat.mul_zero, afterReadings_zero, Nat.add_zero,
          Nat.zero_add, afterReadings_one, recordId]
        rfl
      | succ j =>
        have hj : j < rest.length := by simpa using hi
        rw [List.getElem?_cons_succ, hget j hj, afterReadings_two_add, afterReadings_two_add]
        simp only [List.get_cons_succ, Nat.mul_succ, Nat.add_assoc, Nat.add_comm 1 j]

/-- The method `storeEmbeddings` when `initialize()` returns: the records are built, one
upsert is made, and the outcome is that of the upsert. -/
theorem storeEmbeddings_spec (env : Env) (hcfg : Configured env) (embeddings : List Embedding)
    (metadata : Metadata) (nspace : JsString) (log : List Call) (vectors : List VectorRecord)
    (hvs : buildVectors env metadata nspace embeddings 0 log
      = (Outcome.returned vectors, afterReadings log (2 * embeddings.length))) :
    (storeEmbeddings env embeddings metadata nspace log).2
      = afterReadings log (2 * embeddings.length) ++ [Call.upsert vectors nspace] ∧
    (env.upsert (afterReadings log (2 * embeddings.length)) vectors nspace = Outcome.returned () →
      (storeEmbeddings env embeddings metadata nspace log).1 = Outcome.returned vectors.length) ∧
    (∀ message : JsString,
      env.upsert (afterReadings log (2 * embeddings.length)) vectors nspace
        = Outcome.thrown message →
      (storeEmbeddings env embeddings metadata nspace log).1
        = Outcome.thrown (units "Failed to store embeddings: " ++ message)) := by
  have hbody : ∀ o : Outcome Unit,
      env.upsert (afterReadings log (2 * embeddings.length)) vectors nspace = o →
      (do
        initializeClients env
        let vs ← buildVectors env metadata nspace embeddings 0
        call (Call.upsert vs nspace) (fun log1 => env.upsert log1 vs nspace)
        pure vs.length : Eff Nat) log
      = (match o with
          | Outcome.returned _ => Outcome.returned vectors.length
          | Outcome.thrown message => Outcome.thrown message,
         afterReadings log (2 * embeddings.length) ++ [Call.upsert vectors nspace]) := by
    intro o ho
    rw [bind_returned _ _ _ _ _ (initializeClients_of_configured env hcfg log),
      bind_returned _ _ _ _ _ hvs]
    cases o with
    | returned u =>
      rw [bind_returned _ _ _ _ u (by rw [call_apply, ho])]
      rfl
    | thrown message =>
      rw [bind_thrown _ _ _ _ message (by rw [call_apply, ho])]
  unfold storeEmbeddings
  cases ho : env.upsert (afterReadings log (2 * embeddings.length)) vectors nspace with
  | returned u =>
    have h1 := hbody _ ho
    rw [tryCatch_returned _ _ _ _ _ h1]
    exact ⟨rfl, fun _ => rfl, fun message hm => by cases hm⟩
  | thrown message =>
    have h1 := hbody _ ho
    rw [tryCatch_thrown _ _ _ _ _ h1]
    refine ⟨rfl, fun hm => (by cases hm), fun m hm => ?_⟩
    simp only [Outcome.thrown.injEq] at hm
    rw [← hm]
    rfl

/-! ## Lemmas on `searchChunks` and `generateAnswer` -/

theorem self_ne_append {α : Type} (log extra : List α) (h : extra ≠ []) :
    log ≠ log ++ extra := by
  intro heq
  have := congrArg List.length heq
  rw [List.length_append] at this
  have hpos := List.length_pos.mpr h
  omega

theorem append_ne_self_of_length {α : Type} (log extra1 extra2 : List α)
    (h : extra1.length ≠ extra2.length) : log ++ extra1 ≠ log ++ extra2 := by
  intro heq
  exact h (congrArg List.length (List.append_cancel_left heq))

/-- The method `searchChunks` once the clients are initialized and the query is embedded:
one query of the store, whose outcome decides the outcome of the call. -/
theorem searchChunks_of_embedded (env : Env) (hcfg : Configured env)
    (query nspace : JsString) (topK : Nat) (log : List Call) (vector : Embedding)
    (rest : List Embedding)
    (hemb : env.embeddingsCreate log (EmbedInput.single query)
      = Outcome.returned (vector :: rest)) :
    searchChunks env query nspace topK log
      = (match env.query (log ++ [Call.embeddingsCreate (EmbedInput.single query)]) vector
            nspace topK with
          | Outcome.returned found => Outcome.returned (found.map toRetrievalMatch)
          | Outcome.thrown message =>
            Outcome.thrown (units "Failed to search chunks: " ++ message),
         log ++ [Call.embeddingsCreate (EmbedInput.single query),
           Call.query vector nspace topK]) := by
  unfold searchChunks
  cases hq : env.query (log ++ [Call.embeddingsCreate (EmbedInput.single query)]) vector
      nspace topK with
  | returned found =>
    apply tryCatch_returned
    rw [bind_returned _ _ _ _ _ (initializeClients_of_configured env hcfg log),
      bind_returned _ _ _ _ (vector :: rest) (by rw [call_apply, hemb])]
    simp only
    rw [bind_returned _ _ _ _ found (by rw [call_apply, hq])]
    simp [pure_apply, toRetrievalMatch]
  | thrown message =>
    have hbody : ∀ handler, tryCatch
        (do
          initializeClients env
          let queryEmbedding ← call (Call.embeddingsCreate (EmbedInput.single query))
            (fun log => env.embeddingsCreate log (EmbedInput.single query))
          match queryEmbedding with
          | [] => throwNew (undefinedProperty (units "embedding"))
          | vector :: _ => do
            let found ← call (Call.query vector nspace topK)
              (fun log => env.query log vector nspace topK)
            pure (found.map fun m =>
              ({ score := m.score
                 text := m.text
                 chunkIndex := m.chunkIndex
                 documentUrl := m.documentUrl } : RetrievalMatch))) handler log
        = handler message (log ++ [Call.embeddingsCreate (EmbedInput.single query),
            Call.query vector nspace topK]) := by
      intro handler
      apply tryCatch_thrown
      rw [bind_returned _ _ _ _ _ (initializeClients_of_configured env hcfg log),
        bind_returned _ _ _ _ (vector :: rest) (by rw [call_apply, hemb])]
      simp only
      rw [bind_thrown _ _ _ _ message (by rw [call_apply, hq])]
      simp
    rw [hbody]
    rfl

/-- The log of `searchChunks` when the store is not reached: it has grown by at most the
embedding request. -/
theorem searchChunks_not_reached (env : Env) (query nspace : JsString) (topK : Nat)
    (log : List Call)
    (h : ¬ (Configured env ∧ ∃ vector rest,
      env.embeddingsCreate log (EmbedInput.single query) = Outcome.returned (vector :: rest))) :
    (searchChunks env query nspace topK log).2 = log ∨
    (searchChunks env query nspace topK log).2
      = log ++ [Call.embeddingsCreate (EmbedInput.single query)] := by
  unfold searchChunks
  rcases initializeClients_cases env log with hcfg | ⟨message, hinit⟩
  · right
    cases hemb : env.embeddingsCreate log (EmbedInput.single query) with
    | returned vectors =>
      cases vectors with
      | nil =>
        rw [tryCatch_thrown _ _ log (log ++ [Call.embeddingsCreate (EmbedInput.single query)])
          (undefinedProperty (units "embedding"))]
        · rfl
        · rw [bind_returned _ _ _ _ _ (initializeClients_of_configured env hcfg log),
            bind_returned _ _ _ _ ([] : List Embedding) (by rw [call_apply, hemb])]
          rfl
      | cons vector rest => exact absurd ⟨hcfg, vector, rest, hemb⟩ h
    | thrown message =>
      rw [tryCatch_thrown _ _ log (log ++ [Call.embeddingsCreate (EmbedInput.single query)])
        message]
      · rfl
      · rw [bind_returned _ _ _ _ _ (initializeClients_of_configured env hcfg log),
          bind_thrown _ _ _ _ message (by rw [call_apply, hemb])]
  · left
    rw [tryCatch_thrown _ _ log log message (bind_thrown _ _ _ _ _ hinit)]
    rfl

theorem foldl_min_spec : ∀ (rest : List ℚ) (x : ℚ),
    (∀ y ∈ x :: rest, rest.foldl min x ≤ y) ∧ rest.foldl min x ∈ x :: rest := by
  intro rest
  induction rest with
  | nil => intro x; simp
  | cons y r ih =>
    intro x
    obtain ⟨h1, h2⟩ := ih (min x y)
    simp only [List.foldl_cons]
    constructor
    · intro z hz
      have hm := h1 (min x y) (List.mem_cons_self _ _)
      rcases List.mem_cons.mp hz with rfl | hz
      · exact le_trans hm (min_le_left _ _)
      · rcases List.mem_cons.mp hz with rfl | hz
        · exact le_trans hm (min_le_right _ _)
        · exact h1 z (List.mem_cons_of_mem _ hz)
    · rcases List.mem_cons.mp h2 with h | h
      · rw [h]
        rcases min_choice x y with hc | hc <;> rw [hc] <;> simp
      · exact List.mem_cons_of_mem _ (List.mem_cons_of_mem _ h)

theorem foldl_max_spec : ∀ (rest : List ℚ) (x : ℚ),
    (∀ y ∈ x :: rest, y ≤ rest.foldl max x) ∧ rest.foldl max x ∈ x :: rest := by
  intro rest
  induction rest with
  | nil => intro x; simp
  | cons y r ih =>
    intro x
    obtain ⟨h1, h2⟩ := ih (max x y)
    simp only [List.foldl_cons]
    constructor
    · intro z hz
      have hm := h1 (max x y) (List.mem_cons_self _ _)
      rcases List.mem_cons.mp hz with rfl | hz
      · exact le_trans (le_max_left _ _) hm
      · rcases List.mem_cons.mp hz with rfl | hz
        · exact le_trans (le_max_right _ _) hm
        · exact h1 z (List.mem_cons_of_mem _ hz)
    · rcases List.mem_cons.mp h2 with h | h
      · rw [h]
        rcases max_choice x y with hc | hc <;> rw [hc] <;> simp
      · exact List.mem_cons_of_mem _ (List.mem_cons_of_mem _ h)

/-- The method `generateAnswer` once the clients are initialized and the completion call
is answered with at least one choice. -/
theorem generateAnswer_of_choice (env : Env) (hcfg : Configured env) (query : JsString)
    (relevantChunks : List RetrievalMatch) (log : List Call) (content : JsString)
    (rest : List JsString)
    (hchat : env.chatCompletion log systemContent
      (buildPrompt (join (units "\n\n") (relevantChunks.map fun chunk => chunk.text)) query)
      1000 (3 / 10) = Outcome.returned (content :: rest)) :
    generateAnswer env query relevantChunks log
      = (Outcome.returned
          { answer := content
            context := relevantChunks
            explanation := explanationOf env relevantChunks },
         log ++ [Call.chatCompletion systemContent
           (buildPrompt (join (units "\n\n") (relevantChunks.map fun chunk => chunk.text)) query)
           1000 (3 / 10)]) := by
  unfold generateAnswer
  apply tryCatch_returned
  rw [bind_returned _ _ _ _ _ (initializeClients_of_configured env hcfg log),
    bind_returned _ _ _ _ (content :: rest) (by rw [call_apply, hchat])]
  rfl

/-- Whatever `generateAnswer` returns carries the explanation computed from the matches. -/
theorem generateAnswer_returned (env : Env) (query : JsString)
    (relevantChunks : List RetrievalMatch) (log : List Call) (result : GeneratedAnswer)
    (h : (generateAnswer env query relevantChunks log).1 = Outcome.returned result) :
    result.explanation = explanationOf env relevantChunks ∧ result.context = relevantChunks := by
  rcases initializeClients_cases env log with hcfg | ⟨message, hinit⟩
  · cases hchat : env.chatCompletion log systemContent
        (buildPrompt (join (units "\n\n") (relevantChunks.map fun chunk => chunk.text)) query)
        1000 (3 / 10) with
    | returned choices =>
      cases choices with
      | nil =>
        unfold generateAnswer at h
        rw [tryCatch_thrown _ _ log _ (undefinedProperty (units "message"))
          (by
            rw [bind_returned _ _ _ _ _ (initializeClients_of_configured env hcfg log),
              bind_returned _ _ _ _ ([] : List JsString) (by rw [call_apply, hchat])]
            rfl)] at h
        cases h
      | cons content rest =>
        rw [generateAnswer_of_choice env hcfg query relevantChunks log content rest hchat] at h
        simp only [Outcome.returned.injEq] at h
        subst h
        exact ⟨rfl, rfl⟩
    | thrown message =>
      unfold generateAnswer at h
      rw [tryCatch_thrown _ _ log _ message
        (by
          rw [bind_returned _ _ _ _ _ (initializeClients_of_configured env hcfg log),
            bind_thrown _ _ _ _ message (by rw [call_apply, hchat])])] at h
      cases h
  · unfold generateAnswer at h
    rw [tryCatch_thrown _ _ log log message (bind_thrown _ _ _ _ _ hinit)] at h
    cases h

/-- The log of `generateAnswer` when `initialize()` throws is unchanged. -/
theorem generateAnswer_unconfigured_log (env : Env) (hcfg : ¬ Configured env)
    (query : JsString) (relevantChunks : List RetrievalMatch) (log : List Call) :
    (generateAnswer env query relevantChunks log).2 = log := by
  rcases initializeClients_cases env log with h | ⟨message, hinit⟩
  · exact absurd h hcfg
  · unfold generateAnswer
    rw [tryCatch_thrown _ _ log log message (bind_thrown _ _ _ _ _ hinit)]
    rfl

/-! ## Lemmas on the calls of a run -/

theorem bind_eq_returned {α β : Type} (x : Eff α) (f : α → Eff β) (log logf : List Call) (b : β)
    (h : (x >>= f) log = (Outcome.returned b, logf)) :
    ∃ a log1, x log = (Outcome.returned a, log1) ∧ f a log1 = (Outcome.returned b, logf) := by
  rcases hx : x log with ⟨o, log1⟩
  cases o with
  | returned a =>
    rw [bind_returned _ _ _ _ _ hx] at h
    exact ⟨a, log1, rfl, h⟩
  | thrown e =>
    rw [bind_thrown _ _ _ _ _ hx] at h
    cases h

/-- A `try` whose `catch` block throws returns only if its body does. -/
theorem tryCatch_eq_returned {α : Type} (body : Eff α) (wrap : JsString → JsString)
    (log logf : List Call) (a : α)
    (h : tryCatch body (fun message => throwNew (wrap message)) log = (Outcome.returned a, logf)) :
    body log = (Outcome.returned a, logf) := by
  rcases hb : body log with ⟨o, log1⟩
  cases o with
  | returned a1 =>
    rw [tryCatch_returned _ _ _ _ _ hb] at h
    exact h
  | thrown e =>
    rw [tryCatch_thrown _ _ _ _ _ hb] at h
    cases h

theorem eq_pair_of_fst {α : Type} (x : Eff α) (log : List Call) (a : α)
    (h : (x log).1 = Outcome.returned a) : x log = (Outcome.returned a, (x log).2) := by
  rw [← h]

theorem upsertNamespaces_append (log1 log2 : List Call) :
    upsertNamespaces (log1 ++ log2) = upsertNamespaces log1 ++ upsertNamespaces log2 := by
  simp [upsertNamespaces, List.filterMap_append]

theorem upsertNamespaces_of_offStore (made : List Call) (h : ∀ c ∈ made, offStore c) :
    upsertNamespaces made = [] := by
  induction made with
  | nil => rfl
  | cons c rest ih =>
    have hc := (h c (List.mem_cons_self _ _)).1
    have hrest := ih (fun c1 hc1 => h c1 (List.mem_cons_of_mem _ hc1))
    cases c <;> simp_all [upsertNamespaces, isUpsert]

theorem emits_mono {α : Type} {p q : Call → Prop} (x : Eff α) (hpq : ∀ c, p c → q c)
    (hx : Emits p x) : Emits q x := by
  intro log
  obtain ⟨made, h1, h2⟩ := hx log
  exact ⟨made, h1, fun c hc => hpq c (h2 c hc)⟩

theorem emits_pure {α : Type} (p : Call → Prop) (a : α) : Emits p (pure a : Eff α) :=
  fun log => ⟨[], by simp [pure_apply], by simp⟩

theorem emits_throwNew {α : Type} (p : Call → Prop) (message : JsString) :
    Emits p (throwNew message : Eff α) :=
  fun log => ⟨[], by simp [throwNew], by simp⟩

theorem emits_now (p : Call → Prop) (env : Env) (hp : p Call.now) : Emits p (now env) :=
  fun log => ⟨[Call.now], rfl, by simpa using hp⟩

theorem emits_call {α : Type} (p : Call → Prop) (c : Call) (answer : List Call → Outcome α)
    (hp : p c) : Emits p (call c answer) :=
  fun log => ⟨[c], rfl, by simpa using hp⟩

theorem emits_bind {α β : Type} (p : Call → Prop) (x : Eff α) (f : α → Eff β)
    (hx : Emits p x) (hf : ∀ a, Emits p (f a)) : Emits p (x >>= f) := by
  intro log
  obtain ⟨made, h1, h2⟩ := hx log
  rcases hxl : x log with ⟨o, log1⟩
  rw [hxl] at h1
  simp only at h1
  cases o with
  | returned a =>
    rw [bind_returned _ _ _ _ _ hxl]
    obtain ⟨made2, h3, h4⟩ := hf a log1
    refine ⟨made ++ made2, by rw [h3, h1, List.append_assoc], ?_⟩
    intro c hc
    rcases List.mem_append.mp hc with hc | hc
    · exact h2 c hc
    · exact h4 c hc
  | thrown e =>
    rw [bind_thrown _ _ _ _ _ hxl]
    exact ⟨made, h1, h2⟩

theorem emits_tryCatch {α : Type} (p : Call → Prop) (body : Eff α) (handler : JsString → Eff α)
    (hb : Emits p body) (hh : ∀ e, Emits p (handler e)) : Emits p (tryCatch body handler) := by
  intro log
  obtain ⟨made, h1, h2⟩ := hb log
  rcases hbl : body log with ⟨o, log1⟩
  rw [hbl] at h1
  simp only at h1
  cases o with
  | returned a =>
    rw [tryCatch_returned _ _ _ _ _ hbl]
    exact ⟨made, h1, h2⟩
  | thrown e =>
    rw [tryCatch_thrown _ _ _ _ _ hbl]
    obtain ⟨made2, h3, h4⟩ := hh e log1
    refine ⟨made ++ made2, by rw [h3, h1, List.append_assoc], ?_⟩
    intro c hc
    rcases List.mem_append.mp hc with hc | hc
    · exact h2 c hc
    · exact h4 c hc

theorem emits_initializeClients (p : Call → Prop) (env : Env) :
    Emits p (initializeClients env) :=
  fun log => ⟨[], by rw [initializeClients_log, List.append_nil], by simp⟩

theorem emits_extractTextFromDocument (p : Call → Prop) (hoff : ∀ c, offStore c → p c)
    (env : Env) (documentUrl documentType : JsString) :
    Emits p (extractTextFromDocument env documentUrl documentType) := by
  unfold extractTextFromDocument
  refine emits_tryCatch p _ _
    (emits_bind p _ _ (emits_call p _ _ (hoff _ ⟨rfl, rfl⟩)) (fun buffer => ?_))
    (fun _ => emits_throwNew p _)
  split_ifs
  · exact emits_call p _ _ (hoff _ ⟨rfl, rfl⟩)
  · exact emits_call p _ _ (hoff _ ⟨rfl, rfl⟩)
  · exact emits_pure p _
  · exact emits_throwNew p _

theorem emits_embedLoop (p : Call → Prop) (hoff : ∀ c, offStore c → p c) (env : Env)
    (textChunks : List JsString) :
    ∀ (fuel i : Nat) (embeddings : List Embedding),
      Emits p (embedLoop env textChunks fuel i embeddings) := by
  intro fuel
  induction fuel with
  | zero =>
    intro i embeddings
    exact emits_pure p _
  | succ n ih =>
    intro i embeddings
    simp only [embedLoop]
    split_ifs
    · exact emits_bind p _ _ (emits_call p _ _ (hoff _ ⟨rfl, rfl⟩)) (fun _ => ih _ _)
    · exact emits_pure p _

theorem emits_generateEmbeddings (p : Call → Prop) (hoff : ∀ c, offStore c → p c) (env : Env)
    (textChunks : List JsString) : Emits p (generateEmbeddings env textChunks) := by
  unfold generateEmbeddings
  exact emits_tryCatch p _ _
    (emits_bind p _ _ (emits_initializeClients p env)
      (fun _ => emits_embedLoop p hoff env textChunks _ _ _))
    (fun _ => emits_throwNew p _)

theorem emits_buildVectors (p : Call → Prop) (hoff : ∀ c, offStore c → p c) (env : Env)
    (metadata : Metadata) (nspace : JsString) :
    ∀ (embeddings : List Embedding) (index : Nat),
      Emits p (buildVectors env metadata nspace embeddings index) := by
  intro embeddings
  induction embeddings with
  | nil =>
    intro index
    exact emits_pure p _
  | cons embedding rest ih =>
    intro index
    simp only [buildVectors]
    exact emits_bind p _ _ (emits_now p env (hoff _ ⟨rfl, rfl⟩)) (fun _ =>
      emits_bind p _ _ (emits_now p env (hoff _ ⟨rfl, rfl⟩)) (fun _ =>
        emits_bind p _ _ (ih _) (fun _ => emits_pure p _)))

theorem emits_storeEmbeddings (p : Call → Prop) (hoff : ∀ c, offStore c → p c) (env : Env)
    (embeddings : List Embedding) (metadata : Metadata) (nspace : JsString)
    (hup : ∀ vectors, p (Call.upsert vectors nspace)) :
    Emits p (storeEmbeddings env embeddings metadata nspace) := by
  unfold storeEmbeddings
  exact emits_tryCatch p _ _
    (emits_bind p _ _ (emits_initializeClients p env) (fun _ =>
      emits_bind p _ _ (emits_buildVectors p hoff env metadata nspace embeddings 0) (fun _ =>
        emits_bind p _ _ (emits_call p _ _ (hup _)) (fun _ => emits_pure p _))))
    (fun _ => emits_throwNew p _)

theorem emits_processDocument (p : Call → Prop) (hoff : ∀ c, offStore c → p c) (env : Env)
    (documentUrl documentType nspace : JsString)
    (hup : ∀ vectors, p (Call.upsert vectors nspace)) :
    Emits p (processDocument env documentUrl documentType nspace) := by
  unfold processDocument
  exact emits_tryCatch p _ _
    (emits_bind p _ _ (emits_extractTextFromDocument p hoff env _ _) (fun _ =>
      emits_bind p _ _ (emits_generateEmbeddings p hoff env _) (fun _ =>
        emits_bind p _ _ (emits_storeEmbeddings p hoff env _ _ _ hup) (fun _ =>
          emits_pure p _))))
    (fun _ => emits_throwNew p _)

theorem emits_searchChunks (p : Call → Prop) (hoff : ∀ c, offStore c → p c) (env : Env)
    (query nspace : JsString) (topK : Nat)
    (hq : ∀ vector, p (Call.query vector nspace topK)) :
    Emits p (searchChunks env query nspace topK) := by
  unfold searchChunks
  refine emits_tryCatch p _ _
    (emits_bind p _ _ (emits_initializeClients p env) (fun _ =>
      emits_bind p _ _ (emits_call p _ _ (hoff _ ⟨rfl, rfl⟩)) ?_))
    (fun _ => emits_throwNew p _)
  intro queryEmbedding
  cases queryEmbedding with
  | nil => exact emits_throwNew p _
  | cons vector _ => exact emits_bind p _ _ (emits_call p _ _ (hq _)) (fun _ => emits_pure p _)

theorem emits_generateAnswer (p : Call → Prop) (hoff : ∀ c, offStore c → p c) (env : Env)
    (query : JsString) (relevantChunks : List RetrievalMatch) :
    Emits p (generateAnswer env query relevantChunks) := by
  unfold generateAnswer
  refine emits_tryCatch p _ _
    (emits_bind p _ _ (emits_initializeClients p env) (fun _ =>
      emits_bind p _ _ (emits_call p _ _ (hoff _ ⟨rfl, rfl⟩)) ?_))
    (fun _ => emits_throwNew p _)
  intro choices
  cases choices with
  | nil => exact emits_throwNew p _
  | cons content _ => exact emits_pure p _
theorem call_eq_returned {α : Type} (c : Call) (answer : List Call → Outcome α)
    (log logf : List Call) (a : α) (h : call c answer log = (Outcome.returned a, logf)) :
    answer log = Outcome.returned a ∧ logf = log ++ [c] := by
  rw [call_apply] at h
  simp only [Prod.mk.injEq] at h
  exact ⟨h.1, h.2.symm⟩

theorem initializeClients_eq_returned (env : Env) (log logf : List Call)
    (h : initializeClients env log = (Outcome.returned (), logf)) :
    Configured env ∧ logf = log := by
  have hl := initializeClients_log env log
  rw [h] at hl
  refine ⟨?_, hl⟩
  rcases initializeClients_cases env log with hcfg | ⟨message, hm⟩
  · exact hcfg
  · rw [hm] at h
    cases h

theorem afterReadings_offStore (log : List Call) (k : Nat) :
    ∃ made, afterReadings log k = log ++ made ∧ ∀ c ∈ made, offStore c := by
  refine ⟨List.replicate k Call.now, rfl, fun c hc => ?_⟩
  rw [List.eq_of_mem_replicate hc]
  exact ⟨rfl, rfl⟩

/-- A call of `storeEmbeddings` that returns has read the clock twice per embedding and then
made one upsert, into the namespace it was given; it returns the number of embeddings. -/
theorem storeEmbeddings_eq_returned (env : Env) (embeddings : List Embedding)
    (metadata : Metadata) (nspace : JsString) (log logf : List Call) (stored : Nat)
    (h : storeEmbeddings env embeddings metadata nspace log = (Outcome.returned stored, logf)) :
    Configured env ∧ stored = embeddings.length ∧
    ∃ vectors, logf = afterReadings log (2 * embeddings.length) ++ [Call.upsert vectors nspace] ∧
      env.upsert (afterReadings log (2 * embeddings.length)) vectors nspace
        = Outcome.returned () ∧
      vectors.length = embeddings.length := by
  unfold storeEmbeddings at h
  have h1 := tryCatch_eq_returned _ _ _ _ _ h
  obtain ⟨u, log1, hinit, h2⟩ := bind_eq_returned _ _ _ _ _ h1
  obtain ⟨hcfg, hlog1⟩ := initializeClients_eq_returned env log log1 hinit
  subst hlog1
  obtain ⟨vectors, log2, hbuild, h3⟩ := bind_eq_returned _ _ _ _ _ h2
  obtain ⟨vs, hvs, hlen, _⟩ := buildVectors_spec env metadata nspace embeddings 0 log1
  rw [hvs] at hbuild
  simp only [Prod.mk.injEq, Outcome.returned.injEq] at hbuild
  obtain ⟨hv, hl2⟩ := hbuild
  subst hv
  subst hl2
  obtain ⟨u2, log3, hcall, h4⟩ := bind_eq_returned _ _ _ _ _ h3
  obtain ⟨hans, hlog3⟩ := call_eq_returned _ _ _ _ _ hcall
  subst hlog3
  rw [pure_apply] at h4
  simp only [Prod.mk.injEq, Outcome.returned.injEq] at h4
  exact ⟨hcfg, by omega, vs, h4.2.symm, hans, hlen⟩

/-- A call of `processDocument` that returns: the three steps have returned one after the
other, and the result counts the chunks and the embeddings. -/
theorem processDocument_eq_returned (env : Env) (documentUrl documentType nspace : JsString)
    (log logf : List Call) (r : ProcessResult)
    (h : processDocument env documentUrl documentType nspace log = (Outcome.returned r, logf)) :
    ∃ (text : JsString) (log1 : List Call) (embeddings : List Embedding) (log2 : List Call),
      extractTextFromDocument env documentUrl documentType log = (Outcome.returned text, log1) ∧
      generateEmbeddings env ((splitTextIntoChunks text.length text).getD []) log1
        = (Outcome.returned embeddings, log2) ∧
      storeEmbeddings env embeddings
          { documentUrl := documentUrl
            documentType := documentType
            totalChunks := ((splitTextIntoChunks text.length text).getD []).length
            textChunks := (splitTextIntoChunks text.length text).getD [] } nspace log2
        = (Outcome.returned embeddings.length, logf) ∧
      r = { success := true
            chunks := ((splitTextIntoChunks text.length text).getD []).length
            embeddings := embeddings.length
            stored := embeddings.length } := by
  unfold processDocument at h
  rw [tryCatch_rethrow] at h
  obtain ⟨text, log1, hext, h1⟩ := bind_eq_returned _ _ _ _ _ h
  obtain ⟨embeddings, log2, hemb, h2⟩ := bind_eq_returned _ _ _ _ _ h1
  obtain ⟨stored, log3, hstore, h3⟩ := bind_eq_returned _ _ _ _ _ h2
  obtain ⟨_, hst, _⟩ := storeEmbeddings_eq_returned _ _ _ _ _ _ _ hstore
  subst hst
  rw [pure_apply] at h3
  simp only [Prod.mk.injEq, Outcome.returned.injEq] at h3
  obtain ⟨hr, hl⟩ := h3
  subst hl
  exact ⟨text, log1, embeddings, log2, hext, hemb, hstore, hr.symm⟩

/-- The store calls of a document-processing run that returns: one upsert, the last call of
the run, into the namespace given. -/
theorem processDocument_trace (env : Env) (documentUrl documentType nspace : JsString)
    (log logf : List Call) (r : ProcessResult)
    (h : processDocument env documentUrl documentType nspace log = (Outcome.returned r, logf)) :
    ∃ (before : List Call) (vectors : List VectorRecord),
      logf = log ++ before ++ [Call.upsert vectors nspace] ∧ (∀ c ∈ before, offStore c) ∧
      env.upsert (log ++ before) vectors nspace = Outcome.returned () ∧
      vectors.length = r.stored := by
  obtain ⟨text, log1, embeddings, log2, hext, hemb, hstore, hr⟩ :=
    processDocument_eq_returned env documentUrl documentType nspace log logf r h
  obtain ⟨m1, hm1, hoff1⟩ :=
    emits_extractTextFromDocument offStore (fun _ hc => hc) env documentUrl documentType log
  obtain ⟨m2, hm2, hoff2⟩ := emits_generateEmbeddings offStore (fun _ hc => hc) env
    ((splitTextIntoChunks text.length text).getD []) log1
  rw [hext] at hm1
  rw [hemb] at hm2
  simp only at hm1 hm2
  obtain ⟨_, _, vectors, hlogf, hup, hvlen⟩ := storeEmbeddings_eq_returned _ _ _ _ _ _ _ hstore
  obtain ⟨m3, hm3, hoff3⟩ := afterReadings_offStore log2 (2 * embeddings.length)
  refine ⟨m1 ++ m2 ++ m3, vectors, ?_, ?_, ?_, by rw [hr]; exact hvlen⟩
  · rw [hlogf, hm3, hm2, hm1]
    simp only [List.append_assoc]
  · intro c hc
    rcases List.mem_append.mp hc with hc | hc
    · rcases List.mem_append.mp hc with hc | hc
      · exact hoff1 c hc
      · exact hoff2 c hc
    · exact hoff3 c hc
  · rw [hm3, hm2, hm1] at hup
    simp only [List.append_assoc] at hup ⊢
    exact hup

/-- A call of `searchChunks` that returns: the query has been embedded, the store has been
queried once, in the namespace and for the number of matches given, and its matches are
returned. -/
theorem searchChunks_eq_returned (env : Env) (query nspace : JsString) (topK : Nat)
    (log logf : List Call) (result : List RetrievalMatch)
    (h : searchChunks env query nspace topK log = (Outcome.returned result, logf)) :
    ∃ (vector : Embedding) (found : List StoreMatch),
      logf = log ++ [Call.embeddingsCreate (EmbedInput.single query),
        Call.query vector nspace topK] ∧
      env.query (log ++ [Call.embeddingsCreate (EmbedInput.single query)]) vector nspace topK
        = Outcome.returned found ∧
      result = found.map toRetrievalMatch := by
  unfold searchChunks at h
  have h1 := tryCatch_eq_returned _ _ _ _ _ h
  obtain ⟨u, log1, hinit, h2⟩ := bind_eq_returned _ _ _ _ _ h1
  obtain ⟨_, hlog1⟩ := initializeClients_eq_returned env log log1 hinit
  subst hlog1
  obtain ⟨queryEmbedding, log2, hcall, h3⟩ := bind_eq_returned _ _ _ _ _ h2
  obtain ⟨_, hlog2⟩ := call_eq_returned _ _ _ _ _ hcall
  subst hlog2
  cases queryEmbedding with
  | nil =>
    simp only [throwNew, Prod.mk.injEq] at h3
    cases h3.1
  | cons vector rest =>
    simp only at h3
    obtain ⟨found, log3, hq, h4⟩ := bind_eq_returned _ _ _ _ _ h3
    obtain ⟨hans, hlog3⟩ := call_eq_returned _ _ _ _ _ hq
    subst hlog3
    rw [pure_apply] at h4
    simp only [Prod.mk.injEq, Outcome.returned.injEq] at h4
    refine ⟨vector, found, ?_, hans, ?_⟩
    · rw [← h4.2]
      simp
    · rw [← h4.1]
      rfl

/-- A call of `processQuery` that returns: the document has been processed into the namespace
built on entry, the store has been searched in that namespace, and the answer has been
generated from the matches found. -/
theorem processQuery_eq_returned (env : Env) (query documentUrl documentType : JsString)
    (log logf : List Call) (record : AnswerRecord)
    (h : processQuery env query documentUrl documentType log = (Outcome.returned record, logf)) :
    ∃ (r : ProcessResult) (log1 : List Call) (relevantChunks : List RetrievalMatch)
      (log2 : List Call) (result : GeneratedAnswer) (log3 : List Call),
      processDocument env documentUrl documentType (runNamespace env log) (log ++ [Call.now])
        = (Outcome.returned r, log1) ∧
      searchChunks env query (runNamespace env log) 5 log1
        = (Outcome.returned relevantChunks, log2) ∧
      generateAnswer env query relevantChunks log2 = (Outcome.returned result, log3) ∧
      logf = log3 ++ [Call.now] ∧
      record = { query := query
                 answer := result.answer
                 explanation := result.explanation
                 relevantSections := relevantChunks
                 documentUrl := documentUrl
                 timestamp := env.toISOString (env.clock log3) } := by
  unfold processQuery at h
  rw [tryCatch_rethrow, bind_returned _ _ _ _ _ (now_apply env log)] at h
  obtain ⟨r, log1, hdoc, h1⟩ := bind_eq_returned _ _ _ _ _ h
  obtain ⟨relevantChunks, log2, hsearch, h2⟩ := bind_eq_returned _ _ _ _ _ h1
  obtain ⟨result, log3, hgen, h3⟩ := bind_eq_returned _ _ _ _ _ h2
  rw [bind_returned _ _ _ _ _ (now_apply env log3), pure_apply] at h3
  simp only [Prod.mk.injEq, Outcome.returned.injEq] at h3
  exact ⟨r, log1, relevantChunks, log2, result, log3, hdoc, hsearch, hgen, h3.2.symm,
    h3.1.symm⟩

theorem emits_processQuery (p : Call → Prop) (hp : ∀ c, p c) (env : Env)
    (query documentUrl documentType : JsString) :
    Emits p (processQuery env query documentUrl documentType) := by
  unfold processQuery
  exact emits_tryCatch p _ _
    (emits_bind p _ _ (emits_now p env (hp _)) (fun _ =>
      emits_bind p _ _ (emits_processDocument p (fun c _ => hp c) env _ _ _ (fun _ => hp _))
        (fun _ =>
          emits_bind p _ _ (emits_searchChunks p (fun c _ => hp c) env _ _ _ (fun _ => hp _))
            (fun _ =>
              emits_bind p _ _ (emits_generateAnswer p (fun c _ => hp c) env _ _) (fun _ =>
                emits_bind p _ _ (emits_now p env (hp _)) (fun _ => emits_pure p _))))))
    (fun _ => emits_throwNew p _)

theorem logAfterQueries_append (env : Env) (documentUrl documentType : JsString) :
    ∀ (queries : List JsString) (log : List Call),
      ∃ made, logAfterQueries env documentUrl documentType queries log = log ++ made := by
  intro queries
  induction queries with
  | nil =>
    intro log
    exact ⟨[], by simp [logAfterQueries]⟩
  | cons query rest ih =>
    intro log
    obtain ⟨m1, h1, _⟩ := emits_processQuery (fun _ => True) (fun _ => trivial) env query
      documentUrl documentType log
    obtain ⟨m2, h2⟩ := ih (processQuery env query documentUrl documentType log).2
    refine ⟨m1 ++ m2, ?_⟩
    simp only [logAfterQueries]
    rw [h2, h1, List.append_assoc]

/-- The store calls of a `processQuery` that returns: one upsert and one query, both in the
namespace built on entry, the query for 5 matches; the matches of the store are the
`relevantSections` of the record. -/
theorem processQuery_trace (env : Env) (query documentUrl documentType : JsString)
    (log logf : List Call) (record : AnswerRecord)
    (h : processQuery env query documentUrl documentType log = (Outcome.returned record, logf)) :
    ∃ (before after : List Call) (vectors : List VectorRecord) (vector : Embedding)
      (found : List StoreMatch),
      logf = log ++ before
        ++ [Call.upsert vectors (runNamespace env log),
            Call.embeddingsCreate (EmbedInput.single query),
            Call.query vector (runNamespace env log) 5]
        ++ after ∧
      (∀ c ∈ before, offStore c) ∧ (∀ c ∈ after, offStore c) ∧
      env.query (log ++ before ++ [Call.upsert vectors (runNamespace env log),
          Call.embeddingsCreate (EmbedInput.single query)]) vector (runNamespace env log) 5
        = Outcome.returned found ∧
      record.relevantSections = found.map toRetrievalMatch ∧
      record.query = query ∧ record.documentUrl = documentUrl := by
  obtain ⟨r, log1, relevantChunks, log2, result, log3, hdoc, hsearch, hgen, hlogf, hrec⟩ :=
    processQuery_eq_returned env query documentUrl documentType log logf record h
  obtain ⟨before, vectors, hlog1, hoff1, _, _⟩ := processDocument_trace _ _ _ _ _ _ _ hdoc
  obtain ⟨vector, found, hlog2, hfound, hrel⟩ := searchChunks_eq_returned _ _ _ _ _ _ _ hsearch
  obtain ⟨m3, hm3, hoff3⟩ := emits_generateAnswer offStore (fun _ hc => hc) env query
    relevantChunks log2
  rw [hgen] at hm3
  simp only at hm3
  refine ⟨[Call.now] ++ before, m3 ++ [Call.now], vectors, vector, found, ?_, ?_, ?_, ?_, ?_, ?_,
    ?_⟩
  · rw [hlogf, hm3, hlog2, hlog1]
    simp only [List.append_assoc, List.cons_append, List.nil_append]
  · intro c hc
    rcases List.mem_append.mp hc with hc | hc
    · rw [List.mem_singleton.mp hc]
      exact ⟨rfl, rfl⟩
    · exact hoff1 c hc
  · intro c hc
    rcases List.mem_append.mp hc with hc | hc
    · exact hoff3 c hc
    · rw [List.mem_singleton.mp hc]
      exact ⟨rfl, rfl⟩
  · rw [hlog1] at hfound
    simp only [List.append_assoc, List.cons_append, List.nil_append] at hfound ⊢
    exact hfound
  · rw [hrec, hrel]
  · rw [hrec]
  · rw [hrec]

theorem upsertNamespaces_processDocument (env : Env)
    (documentUrl documentType nspace : JsString) (log : List Call) (r : ProcessResult)
    (h : (processDocument env documentUrl documentType nspace log).1 = Outcome.returned r) :
    upsertNamespaces (processDocument env documentUrl documentType nspace log).2
      = upsertNamespaces log ++ [nspace] := by
  obtain ⟨before, vectors, hlog, hoff, _, _⟩ :=
    processDocument_trace _ _ _ _ _ _ _ (eq_pair_of_fst _ _ _ h)
  rw [hlog, upsertNamespaces_append, upsertNamespaces_append,
    upsertNamespaces_of_offStore before hoff]
  simp [upsertNamespaces]

theorem upsertNamespaces_processQuery (env : Env) (query documentUrl documentType : JsString)
    (log : List Call) (record : AnswerRecord)
    (h : (processQuery env query documentUrl documentType log).1 = Outcome.returned record) :
    upsertNamespaces (processQuery env query documentUrl documentType log).2
      = upsertNamespaces log ++ [runNamespace env log] := by
  obtain ⟨before, after, vectors, vector, found, hlog, hoff1, hoff2, _⟩ :=
    processQuery_trace _ _ _ _ _ _ _ (eq_pair_of_fst _ _ _ h)
  rw [hlog]
  simp only [upsertNamespaces_append, upsertNamespaces_of_offStore before hoff1,
    upsertNamespaces_of_offStore after hoff2]
  simp [upsertNamespaces]

theorem runNamespace_eq_iff (env : Env) (log1 log2 : List Call) :
    runNamespace env log1 = runNamespace env log2 ↔ env.clock log1 = env.clock log2 := by
  constructor
  · intro h
    exact decimal_injective _ _ (List.append_cancel_left h)
  · intro h
    unfold runNamespace
    rw [h]

/-- The upserts of a batch whose initial document processing returns: first the one of the
initial run, into the namespace built on entry, then those of the queries. -/
theorem upsertNamespaces_processMultipleQueries (env : Env) (queries : List JsString)
    (documentUrl documentType : JsString) (log : List Call) (r : ProcessResult)
    (hdoc : (processDocument env documentUrl documentType (runNamespace env log)
      (log ++ [Call.now])).1 = Outcome.returned r) :
    upsertNamespaces (processMultipleQueries env queries documentUrl documentType log).2
      = upsertNamespaces (logAfterQueries env documentUrl documentType queries
          (processDocument env documentUrl documentType (runNamespace env log)
            (log ++ [Call.now])).2) := by
  rw [processMultipleQueries_of_returned env queries documentUrl documentType log _ r
    (eq_pair_of_fst _ _ _ hdoc)]
  simp only [upsertNamespaces_append]
  simp [upsertNamespaces]
  rfl
/-! ## Lemmas on the result of `processDocument` and on the prompt -/

/-- With a provider that answers every batch with one vector per text, the loop of
`generateEmbeddings` collects one vector per text. -/
theorem embedLoop_length (env : Env) (textChunks : List JsString)
    (hone : ∀ (log : List Call) (batch : List JsString) (vectors : List Embedding),
      env.embeddingsCreate log (EmbedInput.batch batch) = Outcome.returned vectors →
      vectors.length = batch.length) :
    ∀ (fuel i : Nat) (embeddings result : List Embedding) (log logf : List Call),
      textChunks.length ≤ i + 10 * fuel →
      embedLoop env textChunks fuel i embeddings log = (Outcome.returned result, logf) →
      result.length = embeddings.length + (textChunks.length - i) := by
  intro fuel
  induction fuel with
  | zero =>
    intro i embeddings result log logf hf h
    simp only [embedLoop, pure_apply, Prod.mk.injEq, Outcome.returned.injEq] at h
    rw [← h.1]
    omega
  | succ n ih =>
    intro i embeddings result log logf hf h
    simp only [embedLoop] at h
    split_ifs at h with hlt
    · obtain ⟨response, log1, hcall, h1⟩ := bind_eq_returned _ _ _ _ _ h
      obtain ⟨hans, _⟩ := call_eq_returned _ _ _ _ _ hcall
      have hlen := hone _ _ _ hans
      have := ih (i + 10) (embeddings ++ response) result log1 logf (by omega) h1
      rw [this, List.length_append, hlen, List.length_take, List.length_drop]
      omega
    · simp only [pure_apply, Prod.mk.injEq, Outcome.returned.injEq] at h
      rw [← h.1]
      omega

theorem generateEmbeddings_length (env : Env) (textChunks : List JsString)
    (hone : ∀ (log : List Call) (batch : List JsString) (vectors : List Embedding),
      env.embeddingsCreate log (EmbedInput.batch batch) = Outcome.returned vectors →
      vectors.length = batch.length)
    (log logf : List Call) (embeddings : List Embedding)
    (h : generateEmbeddings env textChunks log = (Outcome.returned embeddings, logf)) :
    embeddings.length = textChunks.length := by
  unfold generateEmbeddings at h
  have h1 := tryCatch_eq_returned _ _ _ _ _ h
  obtain ⟨u, log1, _, h2⟩ := bind_eq_returned _ _ _ _ _ h1
  have := embedLoop_length env textChunks hone textChunks.length 0 [] embeddings log1 logf
    (by omega) h2
  simpa using this

/-- The builtin `join` puts the separator between every two elements. -/
theorem join_eq_intercalate (sep : JsString) :
    ∀ parts : List JsString, join sep parts = sep.intercalate parts := by
  intro parts
  induction parts with
  | nil => rfl
  | cons s rest ih =>
    cases rest with
    | nil => simp [join, List.intercalate]
    | cons t rest2 =>
      simp only [join]
      rw [ih]
      simp [List.intercalate, List.intersperse]

/-- Every element of a joined list occurs in the result, whole. -/
theorem join_contains (sep : JsString) :
    ∀ (parts : List JsString) (s : JsString), s ∈ parts →
      ∃ pre post : JsString, join sep parts = pre ++ s ++ post := by
  intro parts
  induction parts with
  | nil =>
    intro s hs
    cases hs
  | cons t rest ih =>
    intro s hs
    cases rest with
    | nil =>
      simp only [List.mem_singleton] at hs
      subst hs
      exact ⟨[], [], by simp [join]⟩
    | cons t2 rest2 =>
      rcases List.mem_cons.mp hs with hs | hs
      · subst hs
        exact ⟨[], sep ++ join sep (t2 :: rest2), by simp [join]⟩
      · obtain ⟨pre, post, h⟩ := ih s hs
        refine ⟨t ++ sep ++ pre, post, ?_⟩
        simp only [join]
        rw [h]
        simp only [List.append_assoc]

/-- The log of `generateAnswer` when `initialize()` returns: one completion call, with the
prompt built from the matches and the query. -/
theorem generateAnswer_configured_log (env : Env) (hcfg : Configured env) (query : JsString)
    (relevantChunks : List RetrievalMatch) (log : List Call) :
    (generateAnswer env query relevantChunks log).2
      = log ++ [Call.chatCompletion systemContent
          (buildPrompt (join (units "\n\n") (relevantChunks.map fun chunk => chunk.text)) query)
          1000 (3 / 10)] := by
  unfold generateAnswer
  cases hchat : env.chatCompletion log systemContent
      (buildPrompt (join (units "\n\n") (relevantChunks.map fun chunk => chunk.text)) query)
      1000 (3 / 10) with
  | returned choices =>
    cases choices with
    | nil =>
      rw [tryCatch_thrown _ _ log _ (undefinedProperty (units "message"))]
      · rfl
      · rw [bind_returned _ _ _ _ _ (initializeClients_of_configured env hcfg log),
          bind_returned _ _ _ _ ([] : List JsString) (by rw [call_apply, hchat])]
        rfl
    | cons content rest =>
      rw [tryCatch_returned _ _ log _
        { answer := content, context := relevantChunks,
          explanation := explanationOf env relevantChunks }]
      rw [bind_returned _ _ _ _ _ (initializeClients_of_configured env hcfg log),
        bind_returned _ _ _ _ (content :: rest) (by rw [call_apply, hchat])]
      rfl
  | thrown message =>
    rw [tryCatch_thrown _ _ log _ message]
    · rfl
    · rw [bind_returned _ _ _ _ _ (initializeClients_of_configured env hcfg log),
        bind_thrown _ _ _ _ message (by rw [call_apply, hchat])]

/-! ## Lemmas on `split` -/

theorem split_of_not_mem (sep : Nat) : ∀ s : JsString, sep ∉ s → split s sep = [s] := by
  intro s
  induction s with
  | nil =>
    intro _
    rfl
  | cons u rest ih =>
    intro h
    have hu : u ≠ sep := fun e => h (by rw [e]; exact List.mem_cons_self _ _)
    have hrest : sep ∉ rest := fun hm => h (List.mem_cons_of_mem _ hm)
    simp only [split, if_neg hu, ih hrest]

theorem split_ne_nil (sep : Nat) : ∀ s : JsString, split s sep ≠ [] := by
  intro s
  induction s with
  | nil => simp [split]
  | cons u rest ih =>
    simp only [split]
    split_ifs
    · simp
    · cases h : split rest sep with
      | nil => exact absurd h ih
      | cons field fields => simp

theorem split_append (sep : Nat) (tail : JsString) :
    ∀ a : JsString, sep ∉ a → split (a ++ sep :: tail) sep = a :: split tail sep := by
  intro a
  induction a with
  | nil =>
    intro _
    simp [split]
  | cons u rest ih =>
    intro h
    have hu : u ≠ sep := fun e => h (by rw [e]; exact List.mem_cons_self _ _)
    have hrest : sep ∉ rest := fun hm => h (List.mem_cons_of_mem _ hm)
    have e : u :: rest ++ sep :: tail = u :: (rest ++ sep :: tail) := rfl
    rw [e]
    simp only [split, if_neg hu]
    rw [ih hrest]

/-- A string either does not contain the separator, or splits at its first occurrence. -/
theorem first_occurrence (sep : Nat) :
    ∀ s : JsString, sep ∉ s ∨ ∃ a tail, sep ∉ a ∧ s = a ++ sep :: tail := by
  intro s
  induction s with
  | nil => exact Or.inl (List.not_mem_nil _)
  | cons u rest ih =>
    by_cases hu : u = sep
    · exact Or.inr ⟨[], rest, List.not_mem_nil _, by rw [hu]; rfl⟩
    · rcases ih with h | ⟨a, tail, ha, hs⟩
      · left
        intro hm
        rcases List.mem_cons.mp hm with hm | hm
        · exact hu hm.symm
        · exact h hm
      · right
        refine ⟨u :: a, tail, ?_, by rw [hs]; rfl⟩
        intro hm
        rcases List.mem_cons.mp hm with hm | hm
        · exact hu hm.symm
        · exact ha hm

/-- The first field of a split. -/
theorem split_head (sep : Nat) (s t : JsString) :
    (split s sep).head? = some t ↔
      sep ∉ t ∧ (s = t ∨ ∃ r, s = t ++ sep :: r) := by
  rcases first_occurrence sep s with h | ⟨a, tail, ha, hs⟩
  · rw [split_of_not_mem sep s h]
    simp only [List.head?_cons, Option.some.injEq]
    constructor
    · intro e
      subst e
      exact ⟨h, Or.inl rfl⟩
    · rintro ⟨ht, e | ⟨r, e⟩⟩
      · exact e
      · exfalso
        apply h
        rw [e]
        simp
  · rw [hs, split_append sep tail a ha]
    simp only [List.head?_cons, Option.some.injEq]
    constructor
    · intro e
      subst e
      exact ⟨ha, Or.inr ⟨tail, rfl⟩⟩
    · rintro ⟨ht, e | ⟨r, e⟩⟩
      · exfalso
        apply ht
        rw [← e]
        simp
      · exact (append_separator_inj sep a t tail r ha ht e).1

/-- The second field of a split. -/
theorem split_second (sep : Nat) (s t : JsString) :
    (split s sep)[1]? = some t ↔
      ∃ a rest, s = a ++ sep :: (t ++ rest) ∧ sep ∉ a ∧ sep ∉ t ∧
        (rest = [] ∨ ∃ r, rest = sep :: r) := by
  rcases first_occurrence sep s with h | ⟨a, tail, ha, hs⟩
  · rw [split_of_not_mem sep s h]
    constructor
    · intro e
      simp at e
    · rintro ⟨a, rest, e, _⟩
      exfalso
      apply h
      rw [e]
      simp
  · rw [hs, split_append sep tail a ha]
    have hidx : (a :: split tail sep)[1]? = (split tail sep).head? := by
      cases split tail sep <;> simp
    rw [hidx, split_head]
    constructor
    · rintro ⟨ht, e | ⟨r, e⟩⟩
      · exact ⟨a, [], by rw [e]; simp, ha, ht, Or.inl rfl⟩
      · exact ⟨a, sep :: r, by rw [e], ha, ht, Or.inr ⟨r, rfl⟩⟩
    · rintro ⟨a2, rest, e, ha2, ht, hrest⟩
      obtain ⟨_, htail⟩ := append_separator_inj sep a a2 tail (t ++ rest) ha ha2 e
      refine ⟨ht, ?_⟩
      rcases hrest with hr | ⟨r, hr⟩
      · left
        rw [htail, hr, List.append_nil]
      · right
        exact ⟨r, by rw [htail, hr]⟩

theorem headerToken_some (header : JsString) (t : JsString) (ht : t ≠ []) :
    headerToken (some header) = some t ↔ (split header 32)[1]? = some t := by
  unfold headerToken
  simp only
  split_ifs with h
  · subst h
    constructor
    · intro e
      simp only [Option.some.injEq] at e
      exact absurd e.symm ht
    · intro e
      simp [split] at e
  · rfl

theorem expectedToken_ne_nil : expectedToken ≠ [] := by decide

theorem space_not_mem_expectedToken : 32 ∉ expectedToken := by decide

/-- The three branches of `authenticateToken`, by the token read from the header. -/
theorem authenticateToken_cases (authHeader : Option JsString) :
    (authenticateToken authHeader
        = AuthResult.respond 401 (units "Access denied") (units "No token provided") ↔
      headerToken authHeader = none ∨ headerToken authHeader = some []) ∧
    (authenticateToken authHeader = AuthResult.next participant ↔
      headerToken authHeader = some expectedToken) ∧
    (authenticateToken authHeader
        = AuthResult.respond 403 (units "Access denied") (units "Invalid token") ↔
      ¬ (headerToken authHeader = none ∨ headerToken authHeader = some []) ∧
        headerToken authHeader ≠ some expectedToken) := by
  have hne := expectedToken_ne_nil
  unfold authenticateToken
  split_ifs with h1 h2
  · refine ⟨⟨fun _ => h1, fun _ => rfl⟩, ⟨fun e => (by cases e), fun e => ?_⟩,
      ⟨fun e => (by cases e), fun e => absurd h1 e.1⟩⟩
    rcases h1 with h1 | h1
    · rw [h1] at e
      cases e
    · rw [h1] at e
      simp only [Option.some.injEq] at e
      exact absurd e.symm hne
  · exact ⟨⟨fun e => (by cases e), fun e => absurd e h1⟩, ⟨fun _ => h2, fun _ => rfl⟩,
      ⟨fun e => (by cases e), fun e => absurd h2 e.2⟩⟩
  · exact ⟨⟨fun e => (by cases e), fun e => absurd e h1⟩, ⟨fun e => (by cases e), fun e => absurd e h2⟩,
      ⟨fun _ => ⟨h1, h2⟩, fun _ => rfl⟩⟩

/-! ## The batch orchestrator: `processMultipleQueries` -/

set_option maxRecDepth 1000000

/-- C1, measured on the code: a call of `processMultipleQueries` that returns has fetched the
document `1 + n` times for `n` queries, once in the initial `processDocument` (the one under
the comment `// Process document once`) and once more in the `processDocument` that every
`processQuery` runs on its own. The number of document-processing runs is independent of `n`
only in the claim. -/
theorem processMultipleQueries_fetches (env : Env) (queries : List JsString)
    (documentUrl documentType : JsString) (log : List Call) (result : BatchResult)
    (h : (processMultipleQueries env queries documentUrl documentType log).1
      = Outcome.returned result) :
    fetches (processMultipleQueries env queries documentUrl documentType log).2
      = fetches log + 1 + queries.length := by
  rcases hdoc : processDocument env documentUrl documentType
    (units "doc_" ++ decimal (env.clock log)) (log ++ [Call.now]) with ⟨o, log1⟩
  have hfetch : fetches log1 = fetches log + 1 := by
    have h1 := fetchesOnce_processDocument env documentUrl documentType
      (units "doc_" ++ decimal (env.clock log)) (log ++ [Call.now])
    rw [hdoc, fetches_append_now] at h1
    exact h1
  cases o with
  | returned r =>
    rw [processMultipleQueries_of_returned env queries documentUrl documentType log log1 r hdoc]
    have h1 := fetches_logAfterQueries env documentUrl documentType queries log1
    simp only [fetches_append_now, h1]
    omega
  | thrown message =>
    rw [processMultipleQueries_of_thrown env queries documentUrl documentType log log1 message
      hdoc] at h
    cases h

/-- C1 at a concrete input: with two queries and collaborators that always succeed, the run
makes three fetches, three embedding requests for the chunks and three upserts. -/
theorem processMultipleQueries_fetches_witness :
    fetches (processMultipleQueries stubEnv twoQueries policyUrl (units "txt") []).2
      = fetches [] + 1 + twoQueries.length ∧
    (processMultipleQueries stubEnv twoQueries policyUrl (units "txt") []).2.countP isEmbedBatch
      = 3 ∧
    (processMultipleQueries stubEnv twoQueries policyUrl (units "txt") []).2.countP isUpsert
      = 3 :=
  ⟨processMultipleQueries_fetches stubEnv twoQueries policyUrl (units "txt") []
      { answers := [units "Answer 475", units "Answer 480"]
        documentUrl := policyUrl
        queriesProcessed := 2
        timestamp := units "1700000000026" }
      (by decide),
    by decide, by decide⟩

/-- C2: whenever the initial document processing returns, `processMultipleQueries` returns,
with one answer per query; the entry at index `i` is the `answer` of the record returned by
`processQuery` on query `i` if that call returned, and `"Error processing query: "` followed
by the error message if it threw. Each entry is decided by the outcome of its own query
alone; a failure neither stops the loop nor touches another entry. -/
theorem processMultipleQueries_isolation (env : Env) (queries : List JsString)
    (documentUrl documentType : JsString) (log : List Call) (r : ProcessResult)
    (hdoc : (processDocument env documentUrl documentType
      (units "doc_" ++ decimal (env.clock log)) (log ++ [Call.now])).1 = Outcome.returned r) :
    ∃ result : BatchResult,
      (processMultipleQueries env queries documentUrl documentType log).1
        = Outcome.returned result ∧
      result.answers.length = queries.length ∧
      ∀ (i : Nat) (h : i < queries.length),
        (∀ record : AnswerRecord,
          (processQuery env (queries.get ⟨i, h⟩) documentUrl documentType
            (logAfterQueries env documentUrl documentType (queries.take i)
              (processDocument env documentUrl documentType
                (units "doc_" ++ decimal (env.clock log)) (log ++ [Call.now])).2)).1
            = Outcome.returned record →
          result.answers[i]? = some record.answer) ∧
        (∀ message : JsString,
          (processQuery env (queries.get ⟨i, h⟩) documentUrl documentType
            (logAfterQueries env documentUrl documentType (queries.take i)
              (processDocument env documentUrl documentType
                (units "doc_" ++ decimal (env.clock log)) (log ++ [Call.now])).2)).1
            = Outcome.thrown message →
          result.answers[i]? = some (units "Error processing query: " ++ message)) := by
  rcases hpd : processDocument env documentUrl documentType
    (units "doc_" ++ decimal (env.clock log)) (log ++ [Call.now]) with ⟨o, log1⟩
  rw [hpd] at hdoc
  simp only at hdoc
  subst hdoc
  rw [processMultipleQueries_of_returned env queries documentUrl documentType log log1 r hpd]
  refine ⟨_, rfl, batchSlots_length env documentUrl documentType queries log1, ?_⟩
  intro i h
  have hslot := batchSlots_getElem env documentUrl documentType queries log1 i h
  constructor
  · intro record hrec
    rw [hrec] at hslot
    exact hslot
  · intro message hmsg
    rw [hmsg] at hslot
    exact hslot

/-- C2 at the input of the specification: three queries, the store failing on the second
query only. The batch returns a normal answer, an inline error string and a normal answer. -/
theorem processMultipleQueries_isolation_witness :
    (∃ result : BatchResult,
      (processMultipleQueries secondQueryFails threeQueries policyUrl (units "txt") []).1
        = Outcome.returned result ∧
      result.answers.length = threeQueries.length ∧
      ∀ (i : Nat) (h : i < threeQueries.length),
        (∀ record : AnswerRecord,
          (processQuery secondQueryFails (threeQueries.get ⟨i, h⟩) policyUrl (units "txt")
            (logAfterQueries secondQueryFails policyUrl (units "txt") (threeQueries.take i)
              (processDocument secondQueryFails policyUrl (units "txt")
                (units "doc_" ++ decimal (secondQueryFails.clock [])) ([] ++ [Call.now])).2)).1
            = Outcome.returned record →
          result.answers[i]? = some record.answer) ∧
        (∀ message : JsString,
          (processQuery secondQueryFails (threeQueries.get ⟨i, h⟩) policyUrl (units "txt")
            (logAfterQueries secondQueryFails policyUrl (units "txt") (threeQueries.take i)
              (processDocument secondQueryFails policyUrl (units "txt")
                (units "doc_" ++ decimal (secondQueryFails.clock [])) ([] ++ [Call.now])).2)).1
            = Outcome.thrown message →
          result.answers[i]? = some (units "Error processing query: " ++ message))) ∧
    (processMultipleQueries secondQueryFails threeQueries policyUrl (units "txt") []).1
      = Outcome.returned
          { answers := [units "Answer 475",
              units "Error processing query: Failed to search chunks: store unavailable",
              units "Answer 475"]
            documentUrl := policyUrl
            queriesProcessed := 3
            timestamp := units "1700000000034" } :=
  ⟨processMultipleQueries_isolation secondQueryFails threeQueries policyUrl (units "txt") []
      { success := true, chunks := 1, embeddings := 1, stored := 1 } (by decide),
    by decide⟩

/-- C3: whenever `processMultipleQueries` returns a result, `answers` has the length of
`queries`, `queriesProcessed` is that length and `documentUrl` is the input URL, whichever
queries failed and also for the empty list of queries. -/
theorem processMultipleQueries_shape (env : Env) (queries : List JsString)
    (documentUrl documentType : JsString) (log : List Call) (result : BatchResult)
    (h : (processMultipleQueries env queries documentUrl documentType log).1
      = Outcome.returned result) :
    result.answers.length = queries.length ∧
    result.queriesProcessed = queries.length ∧
    result.documentUrl = documentUrl := by
  rcases hdoc : processDocument env documentUrl documentType
    (units "doc_" ++ decimal (env.clock log)) (log ++ [Call.now]) with ⟨o, log1⟩
  cases o with
  | returned r =>
    rw [processMultipleQueries_of_returned env queries documentUrl documentType log log1 r hdoc]
      at h
    simp only [Outcome.returned.injEq] at h
    subst h
    exact ⟨batchSlots_length env documentUrl documentType queries log1, rfl, rfl⟩
  | thrown message =>
    rw [processMultipleQueries_of_thrown env queries documentUrl documentType log log1 message
      hdoc] at h
    cases h

/-- C3 at a concrete input: two queries that both fail, the document source failing from
its second fetch on. The call returns, with two answers. -/
theorem processMultipleQueries_shape_witness :
    (processMultipleQueries secondFetchFails twoQueries policyUrl (units "txt") []).1
      = Outcome.returned
          { answers := [fetchFailedSlot, fetchFailedSlot]
            documentUrl := policyUrl
            queriesProcessed := 2
            timestamp := units "1700000000010" } ∧
    [fetchFailedSlot, fetchFailedSlot].length = twoQueries.length ∧
    2 = twoQueries.length ∧
    policyUrl = policyUrl :=
  ⟨by decide,
    processMultipleQueries_shape secondFetchFails twoQueries policyUrl (units "txt") []
      { answers := [fetchFailedSlot, fetchFailedSlot]
        documentUrl := policyUrl
        queriesProcessed := 2
        timestamp := units "1700000000010" }
      (by decide)⟩

/-- C4, evaluated where the code departs from it. A failure of the initial document
processing makes the call fail with that error, in every environment (first part). But each
`processQuery` of the batch processes the document again, and a failure of that run is caught
by the loop: with a document source that fails from its second fetch on, the fetch step of
the second document-processing run fails (the initial run returns, the `processQuery` of the
query throws the extraction error), and the call returns normally with the failure
downgraded to an inline error string in the answer slot. -/
theorem processMultipleQueries_document_failure_downgraded :
    (∀ (env : Env) (queries : List JsString) (documentUrl documentType : JsString)
        (log : List Call) (message : JsString),
      (processDocument env documentUrl documentType
        (units "doc_" ++ decimal (env.clock log)) (log ++ [Call.now])).1
          = Outcome.thrown message →
      (processMultipleQueries env queries documentUrl documentType log).1
        = Outcome.thrown message) ∧
    (processDocument secondFetchFails policyUrl (units "txt")
        (units "doc_" ++ decimal (secondFetchFails.clock [])) ([] ++ [Call.now])).1
      = Outcome.returned { success := true, chunks := 1, embeddings := 1, stored := 1 } ∧
    (processQuery secondFetchFails (units "first") policyUrl (units "txt")
        (processDocument secondFetchFails policyUrl (units "txt")
          (units "doc_" ++ decimal (secondFetchFails.clock [])) ([] ++ [Call.now])).2).1
      = Outcome.thrown (units "Failed to extract text from document: connect ETIMEDOUT") ∧
    (processMultipleQueries secondFetchFails [units "first"] policyUrl (units "txt") []).1
      = Outcome.returned
          { answers := [fetchFailedSlot]
            documentUrl := policyUrl
            queriesProcessed := 1
            timestamp := units "1700000000008" } := by
  refine ⟨?_, by decide, by decide, by decide⟩
  intro env queries documentUrl documentType log message hdoc
  rcases hpd : processDocument env documentUrl documentType
    (units "doc_" ++ decimal (env.clock log)) (log ++ [Call.now]) with ⟨o, log1⟩
  rw [hpd] at hdoc
  simp only at hdoc
  subst hdoc
  rw [processMultipleQueries_of_thrown env queries documentUrl documentType log log1 message hpd]

/-! ## The chunker: `splitTextIntoChunks` -/

/-- C5, as stated, fails: with `chunkSize = overlap = 100` the 61-unit text `oneSentence`
is not rejected; the call returns normally, with the text as its single chunk. -/
theorem splitTextIntoChunks_chunkSize_le_overlap_returns :
    (100 : Int) ≤ 100 ∧ splitTextIntoChunks 1 oneSentence 100 100 = some [oneSentence] := by
  decide

/-- C5, amended: `splitTextIntoChunks` has no rejection path for `chunkSize ≤ overlap`.
A text that fits in the first window (`text.length ≤ chunkSize`) is returned normally, as
its trimmed content if that is longer than 50 and as no chunk otherwise; on a non-empty
text longer than `chunkSize` that contains neither `'.'` nor a newline the loop never
exits, whatever number of iterations it is given. -/
theorem splitTextIntoChunks_chunkSize_le_overlap (text : JsString) (chunkSize overlap : Int)
    (hco : chunkSize ≤ overlap) :
    ((text.length : Int) ≤ chunkSize → ∀ fuel : Nat,
      splitTextIntoChunks (fuel + 1) text chunkSize overlap
        = some (if 50 < (trim text).length then [trim text] else [])) ∧
    (chunkSize < text.length → text ≠ [] → period ∉ text → newline ∉ text → ∀ fuel : Nat,
      splitTextIntoChunks fuel text chunkSize overlap = none) := by
  refine ⟨fun hlen fuel => ?_, fun hlen hne hp hn fuel => ?_⟩
  · unfold splitTextIntoChunks
    rw [splitLoop_single_window text chunkSize overlap fuel hlen]
    simp [pushChunk]
  · exact splitLoop_diverges text chunkSize overlap hco hlen hne hp hn fuel 0 [] (le_refl _)

/-- C5, amended, at concrete inputs: `oneSentence` with `chunkSize = overlap = 100` is returned
as one chunk, and the two-unit text `ab` with `chunkSize = overlap = 1` loops forever. -/
theorem splitTextIntoChunks_chunkSize_le_overlap_witness :
    (∀ fuel : Nat, splitTextIntoChunks (fuel + 1) oneSentence 100 100
        = some (if 50 < (trim oneSentence).length then [trim oneSentence] else [])) ∧
    (∀ fuel : Nat, splitTextIntoChunks fuel (units "ab") 1 1 = none) :=
  ⟨(splitTextIntoChunks_chunkSize_le_overlap oneSentence 100 100 (by decide)).1 (by decide),
   (splitTextIntoChunks_chunkSize_le_overlap (units "ab") 1 1 (by decide)).2
      (by decide) (by decide) (by decide) (by decide)⟩

/-- C6: for `0 ≤ overlap < chunkSize` the loop terminates. Every iteration started at a
cursor inside the text (whichever of the three branches it takes) leaves the cursor strictly
larger and at most `text.length`; the loop exits as soon as the cursor is at least
`text.length`; and `text.length` iterations are enough for `splitTextIntoChunks` to return. -/
theorem splitTextIntoChunks_terminates (text : JsString) (chunkSize overlap : Int)
    (ho : 0 ≤ overlap) (hc : overlap < chunkSize) :
    (∀ start : Int, 0 ≤ start → start < text.length →
      start < (cutWindow text chunkSize overlap start).2 ∧
        (cutWindow text chunkSize overlap start).2 ≤ text.length) ∧
    (∀ (fuel : Nat) (start : Int) (chunks : List JsString), (text.length : Int) ≤ start →
      splitLoop text chunkSize overlap fuel start chunks = some chunks) ∧
    (∀ fuel : Nat, text.length ≤ fuel →
      ∃ chunks, splitTextIntoChunks fuel text chunkSize overlap = some chunks) := by
  refine ⟨fun start hs hlt => cutWindow_progress text chunkSize overlap start ho hc hs hlt,
    fun fuel start chunks h => splitLoop_done text chunkSize overlap fuel start chunks h,
    fun fuel hf => ?_⟩
  exact splitLoop_terminates text chunkSize overlap ho hc fuel 0 [] (le_refl _) (by omega)

/-- C6 at a concrete input, the text `earlyPeriodText` with `chunkSize = 200`, `overlap = 0`:
the first iteration moves the cursor forward from 0, and the call returns. -/
theorem splitTextIntoChunks_terminates_witness :
    ((0 : Int) < (cutWindow earlyPeriodText 200 0 0).2 ∧
      (cutWindow earlyPeriodText 200 0 0).2 ≤ earlyPeriodText.length) ∧
    ∃ chunks, splitTextIntoChunks earlyPeriodText.length earlyPeriodText 200 0 = some chunks :=
  ⟨(splitTextIntoChunks_terminates earlyPeriodText 200 0 (by decide) (by decide)).1 0
      (le_refl _) (by decide),
    (splitTextIntoChunks_terminates earlyPeriodText 200 0 (by decide) (by decide)).2.2 _
      (le_refl _)⟩

/-- C7, as stated, fails: `earlyPeriodText` (393 code units) with `chunkSize = 200`,
`overlap = 0` yields three chunks (142, 200 and 51 code units), while
`ceil(393 / (200 - 0)) = 2`. -/
theorem splitTextIntoChunks_count_counterexample :
    splitTextIntoChunks 393 earlyPeriodText 200 0
      = some [List.replicate 141 120 ++ [period], List.replicate 200 120,
          List.replicate 51 120] ∧
    earlyPeriodText.length = 393 ∧
    ¬ ((3 : Int) ≤ ⌈((393 : ℚ)) / ((200 : ℚ) - 0)⌉) := by
  refine ⟨by decide, by decide, ?_⟩
  rw [not_le, Int.ceil_lt_iff]
  norm_num

/-- C7, amended: for `0 ≤ overlap < chunkSize` (and a text of at most `2^48` code units, more
than any string an engine holds), `splitTextIntoChunks` returns, and the number of chunks it
returns is at most `ceil(text.length / d)`, where `d` is the least advance of the cursor in
one window: `d = min(chunkSize - overlap, ceil(0.7 * chunkSize) + 1)`, the advance of a hard
cut and the least advance of a cut at a break point past 70% of the window. -/
theorem splitTextIntoChunks_count (text : JsString) (chunkSize overlap : Int)
    (ho : 0 ≤ overlap) (hc : overlap < chunkSize) (hlen : text.length ≤ 2 ^ 48) :
    ∃ chunks, splitTextIntoChunks text.length text chunkSize overlap = some chunks ∧
      (chunks.length : Int)
        ≤ ⌈(text.length : ℚ)
            / min ((chunkSize : ℚ) - overlap) ((⌈(7 : ℚ) * chunkSize / 10⌉ : Int) + 1)⌉ := by
  obtain ⟨r, hr⟩ := splitLoop_terminates text chunkSize overlap ho hc text.length 0 []
    (le_refl _) (by omega)
  refine ⟨r, hr, ?_⟩
  have hd1 : min (chunkSize - overlap) (⌈(7 : ℚ) * chunkSize / 10⌉ + 1) ≤ chunkSize - overlap :=
    min_le_left _ _
  have hceil : 10 * ⌈(7 : ℚ) * chunkSize / 10⌉ < 7 * chunkSize + 10 := by
    have h1 := Int.ceil_lt_add_one ((7 : ℚ) * chunkSize / 10)
    have h2 : (10 : ℚ) * (⌈(7 : ℚ) * chunkSize / 10⌉ : Int) < 7 * chunkSize + 10 := by linarith
    exact_mod_cast h2
  have hd2 : 10 * min (chunkSize - overlap) (⌈(7 : ℚ) * chunkSize / 10⌉ + 1)
      < 7 * chunkSize + 20 := by
    have := min_le_right (chunkSize - overlap) (⌈(7 : ℚ) * chunkSize / 10⌉ + 1)
    omega
  have hpos : 0 < min (chunkSize - overlap) (⌈(7 : ℚ) * chunkSize / 10⌉ + 1) := by
    have h1 : (0 : ℚ) < (7 : ℚ) * chunkSize / 10 := by
      have : (0 : ℚ) < chunkSize := by exact_mod_cast (show (0 : Int) < chunkSize by omega)
      linarith
    have h2 : 0 < ⌈(7 : ℚ) * chunkSize / 10⌉ := Int.ceil_pos.mpr h1
    exact lt_min (by omega) (by omega)
  have hcast : ((min (chunkSize - overlap) (⌈(7 : ℚ) * chunkSize / 10⌉ + 1) : Int) : ℚ)
      = min ((chunkSize : ℚ) - overlap) ((⌈(7 : ℚ) * chunkSize / 10⌉ : Int) + 1) := by
    push_cast
    rfl
  rw [← hcast]
  generalize min (chunkSize - overlap) (⌈(7 : ℚ) * chunkSize / 10⌉ + 1) = d at *
  by_cases hne : (0 : Int) < text.length
  · obtain ⟨n, hn1, hn2⟩ := splitLoop_count_advance text chunkSize overlap ho hc
      (by exact_mod_cast hlen) d hd1 hd2 text.length 0 [] r 0 (le_refl _) hne (le_refl _)
      (by simp) hr
    have hdq : (0 : ℚ) < (d : ℚ) := by exact_mod_cast hpos
    have hq : (n : ℚ) * (d : ℚ) < (text.length : ℚ) := by exact_mod_cast hn2
    have hlt : (n : ℚ) < (text.length : ℚ) / (d : ℚ) := (lt_div_iff₀ hdq).mpr hq
    have hc2 : (n : Int) < ⌈(text.length : ℚ) / (d : ℚ)⌉ := by
      rw [Int.lt_ceil]
      push_cast
      exact hlt
    omega
  · have h0 : text = [] := List.length_eq_zero.mp (by omega)
    subst h0
    simp [splitLoop] at hr
    subst hr
    simp

/-- C7, amended, at a concrete input: `earlyPeriodText` (393 code units) with `chunkSize = 200`,
`overlap = 0` yields three chunks, and `ceil(393 / min(200, 141)) = 3`. -/
theorem splitTextIntoChunks_count_witness :
    (∃ chunks, splitTextIntoChunks earlyPeriodText.length earlyPeriodText 200 0 = some chunks ∧
      (chunks.length : Int)
        ≤ ⌈(earlyPeriodText.length : ℚ)
            / min ((((200 : Int)) : ℚ) - ((0 : Int))) ((⌈(7 : ℚ) * ((200 : Int)) / 10⌉ : Int) + 1)⌉) ∧
    splitTextIntoChunks earlyPeriodText.length earlyPeriodText 200 0
      = some [List.replicate 141 120 ++ [period], List.replicate 200 120,
          List.replicate 51 120] :=
  ⟨splitTextIntoChunks_count earlyPeriodText 200 0 (by decide) (by decide) (by decide),
    by decide⟩

/-- C8: for `0 ≤ overlap < chunkSize`, `splitTextIntoChunks` returns, and every chunk it
returns has more than 50 code units after trimming (so it is neither empty nor made of
whitespace only) and at most `chunkSize` code units. -/
theorem splitTextIntoChunks_chunk_lengths (text : JsString) (chunkSize overlap : Int)
    (ho : 0 ≤ overlap) (hc : overlap < chunkSize) :
    ∃ chunks, splitTextIntoChunks text.length text chunkSize overlap = some chunks ∧
      ∀ ch ∈ chunks, 50 < (trim ch).length ∧ ch ≠ [] ∧ (ch.length : Int) ≤ chunkSize := by
  obtain ⟨r, hr⟩ := splitLoop_terminates text chunkSize overlap ho hc text.length 0 []
    (le_refl _) (by omega)
  refine ⟨r, hr, fun ch hch => ?_⟩
  have h := splitLoop_chunks_ok text chunkSize overlap ho hc text.length 0 [] r (le_refl _) hr
    (fun _ hmem => absurd hmem (List.not_mem_nil _)) ch hch
  refine ⟨h.1, ?_, h.2⟩
  intro hnil
  have h1 := h.1
  rw [hnil] at h1
  simp [trim] at h1

/-- C8 at a concrete input: `earlyPeriodText` with `chunkSize = 200`, `overlap = 0`, which
yields three chunks of 142, 200 and 51 code units. -/
theorem splitTextIntoChunks_chunk_lengths_witness :
    ∃ chunks, splitTextIntoChunks earlyPeriodText.length earlyPeriodText 200 0 = some chunks ∧
      ∀ ch ∈ chunks, 50 < (trim ch).length ∧ ch ≠ [] ∧ (ch.length : Int) ≤ 200 :=
  splitTextIntoChunks_chunk_lengths earlyPeriodText 200 0 (by decide) (by decide)

/-- C9, evaluated where the code departs from it: `latePeriodText` with `chunkSize = 100`,
`overlap = 20`. The second window starts at cursor 80 and does not reach the end of the text;
the later of its last `'.'` and last newline is at offset `b = 75`, and `75 > 0.7 * 100`.
The code compares `b` with `80 + 0.7 * 100 = 150` instead, does not cut at the break point,
keeps the full window `text[80 .. 180)` and moves the cursor to `160`, where the claim has
the segment `text[80 .. 155]` and the cursor `156`. -/
theorem cutWindow_later_window_not_cut :
    cutWindow latePeriodText 100 20 0 = (List.replicate 100 120, 80) ∧
    max (lastIndexOf (slice latePeriodText 80 180) period)
      (lastIndexOf (slice latePeriodText 80 180) newline) = 75 ∧
    pastThreshold 75 0 100 = true ∧
    pastThreshold 75 80 100 = false ∧
    cutWindow latePeriodText 100 20 80
      = (List.replicate 75 120 ++ [period] ++ List.replicate 24 120, 160) ∧
    cutWindow latePeriodText 100 20 80 ≠ (slice latePeriodText 80 156, 156) ∧
    splitTextIntoChunks 200 latePeriodText 100 20
      = some [List.replicate 100 120,
          List.replicate 75 120 ++ [period] ++ List.replicate 24 120] := by
  decide

/-- C10: on the empty text `splitTextIntoChunks` returns the empty sequence, for every
`chunkSize` and `overlap` (also with `chunkSize ≤ overlap`) and without running the loop
body at all. -/
theorem splitTextIntoChunks_empty (fuel : Nat) (chunkSize overlap : Int) :
    splitTextIntoChunks fuel [] chunkSize overlap = some [] := by
  cases fuel <;> simp [splitTextIntoChunks, splitLoop]

/-! ## The final window of the chunker -/

/-- C11, as stated, fails: `paddedSentence` (64 code units, 61 after trimming) fits in one
window of `chunkSize = 100`, and the call returns the trimmed text `oneSentence` as its single
chunk, not the text itself. -/
theorem splitTextIntoChunks_final_window_trimmed :
    (paddedSentence.length : Int) ≤ 100 ∧ 50 < (trim paddedSentence).length ∧
    splitTextIntoChunks 1 paddedSentence 100 20 = some [oneSentence] ∧
    splitTextIntoChunks 1 paddedSentence 100 20 ≠ some [paddedSentence] := by
  decide

/-- C11, amended: the final window is taken whole and then trimmed. From every cursor inside
the text whose remaining part fits in one window (`text.length ≤ start + chunkSize`) and has
trimmed length above 50, the loop ends in one iteration and the last chunk returned is that
remaining part trimmed; in particular a text with `text.length ≤ chunkSize` and trimmed
length above 50 gives the one-element sequence `[text.trim()]`. -/
theorem splitTextIntoChunks_final_window (text : JsString) (chunkSize overlap : Int) :
    (∀ (fuel : Nat) (start : Int) (chunks : List JsString), 0 ≤ start → start < text.length →
      (text.length : Int) ≤ start + chunkSize → 50 < (trim (text.drop start.toNat)).length →
      splitLoop text chunkSize overlap (fuel + 1) start chunks
        = some (chunks ++ [trim (text.drop start.toNat)])) ∧
    ((text.length : Int) ≤ chunkSize → 50 < (trim text).length → ∀ fuel : Nat,
      splitTextIntoChunks (fuel + 1) text chunkSize overlap = some [trim text]) := by
  constructor
  · intro fuel start chunks h0 h1 h2 h3
    rw [splitLoop_final text chunkSize overlap start fuel chunks h0 h1 h2]
    simp only [pushChunk, if_pos h3]
  · intro hlen h50 fuel
    unfold splitTextIntoChunks
    rw [splitLoop_single_window text chunkSize overlap fuel hlen]
    simp only [pushChunk, if_pos h50, List.nil_append]

/-- C11, amended, at concrete inputs: the last window of `earlyPeriodText` from cursor 342
(51 code units, `chunkSize = 200`), and the whole of `paddedSentence` (`chunkSize = 100`). -/
theorem splitTextIntoChunks_final_window_witness :
    splitLoop earlyPeriodText 200 0 (0 + 1) 342 [List.replicate 200 120]
      = some ([List.replicate 200 120] ++ [trim (earlyPeriodText.drop (342 : Int).toNat)]) ∧
    (∀ fuel : Nat,
      splitTextIntoChunks (fuel + 1) paddedSentence 100 20 = some [trim paddedSentence]) :=
  ⟨(splitTextIntoChunks_final_window earlyPeriodText 200 0).1 0 342 [List.replicate 200 120]
      (by decide) (by decide) (by decide) (by decide),
    (splitTextIntoChunks_final_window paddedSentence 100 20).2 (by decide) (by decide)⟩

/-! ## The embedding batcher: `generateEmbeddings` -/

/-- C12, as stated, fails: `generateEmbeddings` calls `initialize()` first. Without
`OPENAI_API_KEY`, and also with both keys configured when `new Pinecone(...)` throws, a
provider that answers every batch with the embedding `lengthEmbedding` of each of its texts
is never called: `generateEmbeddings` throws, for the empty list as for two texts. -/
theorem generateEmbeddings_initialize_throws :
    (∀ (log : List Call) (batch : List JsString),
      noOpenaiKey.embeddingsCreate log (EmbedInput.batch batch)
        = Outcome.returned (batch.map lengthEmbedding)) ∧
    generateEmbeddings noOpenaiKey [] []
      = (Outcome.thrown (units "Failed to generate embeddings: OPENAI_API_KEY is not configured. Please update the .env file with your OpenAI API key."),
         []) ∧
    (generateEmbeddings noOpenaiKey twoQueries []).1
      ≠ Outcome.returned (twoQueries.map lengthEmbedding) ∧
    (∀ (log : List Call) (batch : List JsString),
      pineconeNotExported.embeddingsCreate log (EmbedInput.batch batch)
        = Outcome.returned (batch.map lengthEmbedding)) ∧
    unconfigured pineconeNotExported.openaiApiKey (units "your_openai_api_key_here") = false ∧
    unconfigured pineconeNotExported.pineconeApiKey (units "your_pinecone_api_key_here")
      = false ∧
    generateEmbeddings pineconeNotExported [] []
      = (Outcome.thrown (units "Failed to generate embeddings: Pinecone is not a constructor"),
         []) ∧
    generateEmbeddings pineconeNotExported twoQueries []
      = (Outcome.thrown (units "Failed to generate embeddings: Pinecone is not a constructor"),
         []) := by
  refine ⟨fun log batch => rfl, by decide, by decide, fun log batch => rfl, by decide,
    by decide, by decide, by decide⟩

/-- C12, amended: when `initialize()` returns (both keys configured, both clients and the index
handle built), and the provider answers every batch with the list of `f t` for the texts `t`
of the batch, `generateEmbeddings` returns exactly `texts.map f`: one vector per text, in
the order of the texts, and the empty list for the empty list. -/
theorem generateEmbeddings_map (env : Env) (hcfg : Configured env) (f : JsString → Embedding)
    (hstub : ∀ (log : List Call) (batch : List JsString),
      env.embeddingsCreate log (EmbedInput.batch batch) = Outcome.returned (batch.map f))
    (texts : List JsString) (log : List Call) :
    (generateEmbeddings env texts log).1 = Outcome.returned (texts.map f) ∧
    (texts.map f).length = texts.length ∧
    (generateEmbeddings env [] log).1 = Outcome.returned [] := by
  have key : ∀ ts : List JsString,
      (generateEmbeddings env ts log).1 = Outcome.returned (ts.map f) := by
    intro ts
    rw [generateEmbeddings_returned env hcfg ts log (fun j _ => ⟨_, hstub _ _⟩),
      collected_of_map env f hstub, take_batchCount]
  exact ⟨key texts, List.length_map _ _, key []⟩

/-- C12, amended, at a concrete input: the stub environment embeds each of 25 texts by its
length. -/
theorem generateEmbeddings_map_witness :
    (generateEmbeddings stubEnv twentyFiveTexts []).1
      = Outcome.returned (twentyFiveTexts.map lengthEmbedding) ∧
    (twentyFiveTexts.map lengthEmbedding).length = twentyFiveTexts.length ∧
    (generateEmbeddings stubEnv [] []).1 = Outcome.returned [] :=
  generateEmbeddings_map stubEnv (by decide) lengthEmbedding (fun _ _ => rfl) twentyFiveTexts []

/-- C13: a call of `generateEmbeddings` on `n` texts that returns has made exactly
`ceil(n / 10)` provider calls and no other call, in the order of the iterations; the call
of iteration `k` (from 0) has received `texts.slice(10 * k, 10 * k + 10)`, which holds the
texts at the positions `10 * k` up to `min(10 * k + 10, n)`, is not empty and has at most 10
texts; the batches concatenated in the order of the calls are the input; and no call is made
for the empty list. -/
theorem generateEmbeddings_batches (env : Env) (texts : List JsString) (log : List Call)
    (vectors : List Embedding)
    (h : (generateEmbeddings env texts log).1 = Outcome.returned vectors) :
    (generateEmbeddings env texts log).2
      = log ++ (List.range (batchCount texts.length)).map
          (fun k => Call.embeddingsCreate (EmbedInput.batch ((texts.drop (10 * k)).take 10))) ∧
    batchCount texts.length = ⌈(texts.length : ℚ) / 10⌉₊ ∧
    (∀ k, k < batchCount texts.length →
      (texts.drop (10 * k)).take 10 ≠ [] ∧
      ((texts.drop (10 * k)).take 10).length ≤ 10 ∧
      ((texts.drop (10 * k)).take 10).length = min (10 * k + 10) texts.length - 10 * k ∧
      ∀ i, i < 10 → ((texts.drop (10 * k)).take 10)[i]? = texts[10 * k + i]?) ∧
    ((List.range (batchCount texts.length)).map
      (fun k => (texts.drop (10 * k)).take 10)).flatten = texts ∧
    (texts = [] → (generateEmbeddings env texts log).2 = log) := by
  have hlog : (generateEmbeddings env texts log).2
      = log ++ batchCalls texts (batchCount texts.length) := by
    rcases initializeClients_cases env log with hcfg | ⟨message, hinit⟩
    · rcases all_returned_or_first_thrown (batchAnswer env texts log) (batchCount texts.length)
        with hall | ⟨j0, message, hj0, hbefore, hfail⟩
      · rw [generateEmbeddings_returned env hcfg texts log hall]
      · rw [generateEmbeddings_thrown env hcfg texts log j0 message hj0 hbefore hfail] at h
        cases h
    · have hthrown : generateEmbeddings env texts log
          = (Outcome.thrown (units "Failed to generate embeddings: " ++ message), log) := by
        unfold generateEmbeddings
        rw [tryCatch_thrown _ _ _ _ _ (bind_thrown _ _ _ _ _ hinit)]
        rfl
      rw [hthrown] at h
      cases h
  refine ⟨hlog, batchCount_eq_ceil _, ?_, ?_, ?_⟩
  · intro k hk
    have hlen := batchAt_length texts k
    have hlt := (lt_batchCount_iff texts.length k).mp hk
    unfold batchAt at hlen
    refine ⟨?_, by omega, hlen, fun i hi => batchAt_getElem texts k i hi⟩
    intro hnil
    rw [hnil] at hlen
    simp only [List.length_nil] at hlen
    omega
  · have := batches_flatten texts (batchCount texts.length)
    rw [take_batchCount] at this
    exact this
  · intro hnil
    rw [hlog, hnil]
    simp [batchCalls, batchCount]

/-- C13 at a concrete input: 25 texts go to the provider in three calls, of 10, 10 and 5
texts. -/
theorem generateEmbeddings_batches_witness :
    (generateEmbeddings stubEnv twentyFiveTexts []).2
      = [Call.embeddingsCreate (EmbedInput.batch ((List.range' 0 10).map decimal)),
         Call.embeddingsCreate (EmbedInput.batch ((List.range' 10 10).map decimal)),
         Call.embeddingsCreate (EmbedInput.batch ((List.range' 20 5).map decimal))] ∧
    batchCount twentyFiveTexts.length = 3 ∧
    (generateEmbeddings stubEnv twentyFiveTexts []).2
      = [] ++ (List.range (batchCount twentyFiveTexts.length)).map
          (fun k => Call.embeddingsCreate
            (EmbedInput.batch ((twentyFiveTexts.drop (10 * k)).take 10))) :=
  ⟨by decide, by decide,
    (generateEmbeddings_batches stubEnv twentyFiveTexts []
      (twentyFiveTexts.map lengthEmbedding) (by decide)).1⟩

/-- C14, as stated, fails: with both keys configured and a provider that answers every batch
call, `generateEmbeddings` still fails when `new Pinecone(...)` throws in `initialize()`: no
batch call fails, none is made, and the message is the constructor's. -/
theorem generateEmbeddings_fails_before_batches :
    unconfigured pineconeNotExported.openaiApiKey (units "your_openai_api_key_here") = false ∧
    unconfigured pineconeNotExported.pineconeApiKey (units "your_pinecone_api_key_here")
      = false ∧
    (∀ j : Nat, batchAnswer pineconeNotExported twentyFiveTexts [] j
      = Outcome.returned ((batchAt twentyFiveTexts j).map lengthEmbedding)) ∧
    generateEmbeddings pineconeNotExported twentyFiveTexts []
      = (Outcome.thrown (units "Failed to generate embeddings: Pinecone is not a constructor"),
         []) := by
  refine ⟨by decide, by decide, fun j => rfl, by decide⟩

/-- C14, amended: `generateEmbeddings` fails if and only if `initialize()` fails or some batch
call fails. When `initialize()` throws (a key not configured, or the construction of a
client throwing), the operation throws `"Failed to generate embeddings: "` followed by that
message, and no batch call is made (first part). When `initialize()` returns and the call of
iteration `k` is the first to fail, with message `message`, the operation throws
`"Failed to generate embeddings: " + message`, so returns no list of vectors, and the calls
it has made are those of the iterations `0` to `k`, each once: none for a later batch, no
second one for the failed batch (second part). Conversely, when `initialize()` returns, a
failure of the operation comes from such a first failing batch call (third part); and
`initialize()` either returns or throws without a call (fourth part). -/
theorem generateEmbeddings_failure (env : Env) (texts : List JsString) (log : List Call) :
    (∀ message : JsString, initializeClients env log = (Outcome.thrown message, log) →
      generateEmbeddings env texts log
        = (Outcome.thrown (units "Failed to generate embeddings: " ++ message), log)) ∧
    (Configured env →
      ∀ (k : Nat) (message : JsString), k < batchCount texts.length →
        (∀ j, j < k → ∃ v, batchAnswer env texts log j = Outcome.returned v) →
        batchAnswer env texts log k = Outcome.thrown message →
        generateEmbeddings env texts log
          = (Outcome.thrown (units "Failed to generate embeddings: " ++ message),
             log ++ (List.range (k + 1)).map (batchCall texts))) ∧
    (Configured env →
      ∀ thrownMessage : JsString,
        (generateEmbeddings env texts log).1 = Outcome.thrown thrownMessage →
        ∃ (k : Nat) (message : JsString), k < batchCount texts.length ∧
          (∀ j, j < k → ∃ v, batchAnswer env texts log j = Outcome.returned v) ∧
          batchAnswer env texts log k = Outcome.thrown message ∧
          thrownMessage = units "Failed to generate embeddings: " ++ message) ∧
    ((Configured env ∧ initializeClients env log = (Outcome.returned (), log)) ∨
      (¬ Configured env ∧
        ∃ message, initializeClients env log = (Outcome.thrown message, log))) := by
  refine ⟨?_, ?_, ?_, ?_⟩
  · intro message hinit
    unfold generateEmbeddings
    rw [tryCatch_thrown _ _ _ _ _ (bind_thrown _ _ _ _ _ hinit)]
    rfl
  · intro hcfg k message hk hbefore hfail
    exact generateEmbeddings_thrown env hcfg texts log k message hk hbefore hfail
  · intro hcfg thrownMessage hthrown
    rcases all_returned_or_first_thrown (batchAnswer env texts log) (batchCount texts.length)
      with hall | ⟨j0, message, hj0, hbefore, hfail⟩
    · rw [generateEmbeddings_returned env hcfg texts log hall] at hthrown
      cases hthrown
    · refine ⟨j0, message, hj0, hbefore, hfail, ?_⟩
      rw [generateEmbeddings_thrown env hcfg texts log j0 message hj0 hbefore hfail] at hthrown
      simp only [Outcome.thrown.injEq] at hthrown
      exact hthrown.symm
  · rcases initializeClients_cases env log with hcfg | ⟨message, hinit⟩
    · exact Or.inl ⟨hcfg, initializeClients_of_configured env hcfg log⟩
    · refine Or.inr ⟨fun hcfg => ?_, message, hinit⟩
      rw [initializeClients_of_configured env hcfg log] at hinit
      cases hinit

/-- C14, amended, at concrete inputs: 25 texts. With the provider failing on its second batch
call the operation throws after two calls and the third batch is never sent; with
`new Pinecone(...)` throwing it throws before any call. -/
theorem generateEmbeddings_failure_witness :
    generateEmbeddings secondBatchFails twentyFiveTexts []
      = (Outcome.thrown (units "Failed to generate embeddings: rate limit exceeded"),
         [] ++ (List.range (1 + 1)).map (batchCall twentyFiveTexts)) ∧
    (List.range (1 + 1)).map (batchCall twentyFiveTexts)
      = [Call.embeddingsCreate (EmbedInput.batch ((List.range' 0 10).map decimal)),
         Call.embeddingsCreate (EmbedInput.batch ((List.range' 10 10).map decimal))] ∧
    generateEmbeddings pineconeNotExported twentyFiveTexts []
      = (Outcome.thrown (units "Failed to generate embeddings: "
          ++ units "Pinecone is not a constructor"), []) :=
  ⟨(generateEmbeddings_failure secondBatchFails twentyFiveTexts []).2.1 (by decide) 1
      (units "rate limit exceeded") (by decide)
      (fun j hj => by
        have hj0 : j = 0 := by omega
        subst hj0
        exact ⟨(batchAt twentyFiveTexts 0).map lengthEmbedding, by decide⟩)
      (by decide),
    by decide,
    (generateEmbeddings_failure pineconeNotExported twentyFiveTexts []).1
      (units "Pinecone is not a constructor") (by decide)⟩

/-! ## The vector store adapter: `storeEmbeddings` and `searchChunks` -/

/-- C15, as stated, fails: for two embeddings and two text chunks, `storeEmbeddings` makes no
upsert at all and throws when `initialize()` throws, be it without `OPENAI_API_KEY` or with
both keys configured and `new Pinecone(...)` throwing; and when the store rejects the upsert
the call throws instead of returning a count. -/
theorem storeEmbeddings_not_stored :
    twoChunkMetadata.textChunks.length = twoEmbeddings.length ∧
    storeEmbeddings noOpenaiKey twoEmbeddings twoChunkMetadata (units "doc_1") []
      = (Outcome.thrown (units "Failed to store embeddings: OPENAI_API_KEY is not configured. Please update the .env file with your OpenAI API key."),
         []) ∧
    unconfigured pineconeNotExported.openaiApiKey (units "your_openai_api_key_here") = false ∧
    unconfigured pineconeNotExported.pineconeApiKey (units "your_pinecone_api_key_here")
      = false ∧
    storeEmbeddings pineconeNotExported twoEmbeddings twoChunkMetadata (units "doc_1") []
      = (Outcome.thrown (units "Failed to store embeddings: Pinecone is not a constructor"),
         []) ∧
    (storeEmbeddings upsertFails twoEmbeddings twoChunkMetadata (units "doc_1") []).1
      = Outcome.thrown (units "Failed to store embeddings: index not found") := by
  decide

/-- C15, amended: when `initialize()` returns (both keys configured, both clients and the index
handle built), for every namespace and every list of embeddings with
`metadata.textChunks` of the same length, `storeEmbeddings` reads the clock
twice per embedding and then makes exactly one upsert, in that namespace, of one record per
embedding; the record at position `i` has `values = embeddings[i]`, `chunkIndex = i` and
`text = textChunks[i]`. When the store accepts the upsert the call returns the number of
embeddings; when the store rejects it the call throws `"Failed to store embeddings: "`
followed by the store's message. -/
theorem storeEmbeddings_records (env : Env) (hcfg : Configured env)
    (embeddings : List Embedding) (metadata : Metadata) (nspace : JsString) (log : List Call)
    (hlen : metadata.textChunks.length = embeddings.length) :
    ∃ vectors : List VectorRecord,
      (storeEmbeddings env embeddings metadata nspace log).2
        = afterReadings log (2 * embeddings.length) ++ [Call.upsert vectors nspace] ∧
      vectors.length = embeddings.length ∧
      (∀ (i : Nat) (hi : i < embeddings.length),
        ∃ record : VectorRecord, vectors[i]? = some record ∧
          record.values = embeddings.get ⟨i, hi⟩ ∧ record.chunkIndex = i ∧
          record.text = some (metadata.textChunks.get ⟨i, by omega⟩)) ∧
      (env.upsert (afterReadings log (2 * embeddings.length)) vectors nspace
          = Outcome.returned () →
        (storeEmbeddings env embeddings metadata nspace log).1
          = Outcome.returned embeddings.length) ∧
      (∀ message : JsString,
        env.upsert (afterReadings log (2 * embeddings.length)) vectors nspace
          = Outcome.thrown message →
        (storeEmbeddings env embeddings metadata nspace log).1
          = Outcome.thrown (units "Failed to store embeddings: " ++ message)) := by
  obtain ⟨vectors, hvs, hvlen, hget⟩ := buildVectors_spec env metadata nspace embeddings 0 log
  obtain ⟨h1, h2, h3⟩ := storeEmbeddings_spec env hcfg embeddings metadata nspace log vectors hvs
  refine ⟨vectors, h1, hvlen, ?_, ?_, h3⟩
  · intro i hi
    refine ⟨_, hget i hi, rfl, Nat.zero_add i, ?_⟩
    simp only [Nat.zero_add]
    exact List.getElem?_eq_getElem (by omega)
  · intro hok
    rw [h2 hok, hvlen]

/-- C15, amended, at a concrete input: two embeddings stored in the stub environment. -/
theorem storeEmbeddings_records_witness :
    (∃ vectors : List VectorRecord,
      (storeEmbeddings stubEnv twoEmbeddings twoChunkMetadata (units "doc_1") []).2
        = afterReadings [] (2 * twoEmbeddings.length) ++ [Call.upsert vectors (units "doc_1")] ∧
      vectors.length = twoEmbeddings.length ∧
      (∀ (i : Nat) (hi : i < twoEmbeddings.length),
        ∃ record : VectorRecord, vectors[i]? = some record ∧
          record.values = twoEmbeddings.get ⟨i, hi⟩ ∧ record.chunkIndex = i ∧
          record.text = some (twoChunkMetadata.textChunks.get ⟨i, hi⟩)) ∧
      (stubEnv.upsert (afterReadings [] (2 * twoEmbeddings.length)) vectors (units "doc_1")
          = Outcome.returned () →
        (storeEmbeddings stubEnv twoEmbeddings twoChunkMetadata (units "doc_1") []).1
          = Outcome.returned twoEmbeddings.length) ∧
      (∀ message : JsString,
        stubEnv.upsert (afterReadings [] (2 * twoEmbeddings.length)) vectors (units "doc_1")
          = Outcome.thrown message →
        (storeEmbeddings stubEnv twoEmbeddings twoChunkMetadata (units "doc_1") []).1
          = Outcome.thrown (units "Failed to store embeddings: " ++ message))) ∧
    (storeEmbeddings stubEnv twoEmbeddings twoChunkMetadata (units "doc_1") []).1
      = Outcome.returned 2 :=
  ⟨storeEmbeddings_records stubEnv (by decide) twoEmbeddings twoChunkMetadata (units "doc_1") []
      (by decide),
    by decide⟩

/-- C16: the ids of one `storeEmbeddings` call never collide. For every namespace and all
clock readings, the ids built at two different positions are different strings; the record
at position `i` of the upsert has the id built from the namespace, the clock reading taken
for it and `i`, so any two records of the upsert at different positions have different
ids, whatever the clock reads (also when it does not advance). -/
theorem storeEmbeddings_ids_distinct (env : Env) (embeddings : List Embedding)
    (metadata : Metadata) (nspace : JsString) (log : List Call) :
    (∀ (stamp1 stamp2 i j : Nat), i ≠ j →
      recordId nspace stamp1 i ≠ recordId nspace stamp2 j) ∧
    ∃ vectors : List VectorRecord,
      (buildVectors env metadata nspace embeddings 0 log).1 = Outcome.returned vectors ∧
      vectors.length = embeddings.length ∧
      (Configured env →
        (storeEmbeddings env embeddings metadata nspace log).2
          = afterReadings log (2 * embeddings.length) ++ [Call.upsert vectors nspace]) ∧
      (∀ i, i < embeddings.length →
        ∃ record : VectorRecord, vectors[i]? = some record ∧
          record.id = nspace ++ units "_" ++ decimal (env.clock (afterReadings log (2 * i)))
            ++ units "_" ++ decimal i) ∧
      (∀ (i j : Nat) (ri rj : VectorRecord), vectors[i]? = some ri → vectors[j]? = some rj →
        i ≠ j → ri.id ≠ rj.id) := by
  refine ⟨fun stamp1 stamp2 i j hij h => hij (recordId_inj nspace stamp1 stamp2 i j h).2, ?_⟩
  obtain ⟨vectors, hvs, hvlen, hget⟩ := buildVectors_spec env metadata nspace embeddings 0 log
  refine ⟨vectors, by rw [hvs], hvlen, ?_, ?_, ?_⟩
  · intro hcfg
    exact (storeEmbeddings_spec env hcfg embeddings metadata nspace log vectors hvs).1
  · intro i hi
    refine ⟨_, hget i hi, ?_⟩
    simp only [Nat.zero_add]
    rfl
  · intro i j ri rj hi hj hij hid
    have hi' : i < embeddings.length := by
      have := (List.getElem?_eq_some.mp hi).1
      omega
    have hj' : j < embeddings.length := by
      have := (List.getElem?_eq_some.mp hj).1
      omega
    rw [hget i hi'] at hi
    rw [hget j hj'] at hj
    simp only [Option.some.injEq] at hi hj
    rw [← hi, ← hj] at hid
    have := (recordId_inj nspace _ _ _ _ hid).2
    omega

/-- C17: whenever a run of `searchChunks` has queried the store (with the embedding `vector`
of the query) and the store has responded with the matches `found`, the call returns exactly
one match per store match, in the store's order, with `score`, `text`, `chunkIndex` and
`documentUrl` copied: nothing is dropped, reordered or filtered by score. So the result is in
descending order of score when the store's response is, has at most `topK` elements when the
store's response has, and is empty, not an error, when the store's response is empty. -/
theorem searchChunks_matches (env : Env) (query nspace : JsString) (topK : Nat)
    (log : List Call) (vector : Embedding) (found : List StoreMatch)
    (hreach : (searchChunks env query nspace topK log).2
      = log ++ [Call.embeddingsCreate (EmbedInput.single query),
          Call.query vector nspace topK])
    (hstore : env.query (log ++ [Call.embeddingsCreate (EmbedInput.single query)]) vector
      nspace topK = Outcome.returned found) :
    ∃ result : List RetrievalMatch,
      (searchChunks env query nspace topK log).1 = Outcome.returned result ∧
      result.length = found.length ∧
      (∀ (i : Nat) (m : StoreMatch), found[i]? = some m →
        result[i]? = some { score := m.score, text := m.text, chunkIndex := m.chunkIndex,
                            documentUrl := m.documentUrl }) ∧
      ((found.map fun m => m.score).Sorted (fun a b => a ≥ b) →
        (result.map fun m => m.score).Sorted (fun a b => a ≥ b)) ∧
      (found.length ≤ topK → result.length ≤ topK) ∧
      (found = [] → result = []) := by
  by_cases hc : Configured env ∧ ∃ v rest,
      env.embeddingsCreate log (EmbedInput.single query) = Outcome.returned (v :: rest)
  · obtain ⟨hcfg, v, rest, hemb⟩ := hc
    have hrun := searchChunks_of_embedded env hcfg query nspace topK log v rest hemb
    rw [hrun] at hreach
    have hv : v = vector := by
      have := List.append_cancel_left hreach
      simp only [List.cons.injEq, Call.query.injEq, and_true, true_and] at this
      exact this
    subst hv
    rw [hstore] at hrun
    refine ⟨found.map toRetrievalMatch, by rw [hrun], List.length_map _ _, ?_, ?_, ?_, ?_⟩
    · intro i m hm
      rw [List.getElem?_map, hm]
      rfl
    · intro hsorted
      rw [List.map_map]
      exact hsorted
    · intro hle
      rw [List.length_map]
      exact hle
    · intro hnil
      rw [hnil]
      rfl
  · exfalso
    rcases searchChunks_not_reached env query nspace topK log hc with h | h
    · rw [h] at hreach
      exact self_ne_append log _ (by simp) hreach
    · rw [h] at hreach
      exact append_ne_self_of_length log _ _ (by simp) hreach

/-- C17 at a concrete input: the store answers with two matches in descending order of
score, and `searchChunks` returns the two of them in that order. -/
theorem searchChunks_matches_witness :
    (∃ result : List RetrievalMatch,
      (searchChunks twoMatchStore (units "first") (units "doc_1") 5 []).1
        = Outcome.returned result ∧
      result.length = twoStoreMatches.length ∧
      (∀ (i : Nat) (m : StoreMatch), twoStoreMatches[i]? = some m →
        result[i]? = some { score := m.score, text := m.text, chunkIndex := m.chunkIndex,
                            documentUrl := m.documentUrl }) ∧
      ((twoStoreMatches.map fun m => m.score).Sorted (fun a b => a ≥ b) →
        (result.map fun m => m.score).Sorted (fun a b => a ≥ b)) ∧
      (twoStoreMatches.length ≤ 5 → result.length ≤ 5) ∧
      (twoStoreMatches = [] → result = [])) ∧
    (searchChunks twoMatchStore (units "first") (units "doc_1") 5 []).1
      = Outcome.returned twoMatches :=
  ⟨searchChunks_matches twoMatchStore (units "first") (units "doc_1") 5 [] [5] twoStoreMatches
      (by decide) (by rfl),
    by decide!⟩

/-! ## The answer synthesizer: `generateAnswer` -/

/-- C18: for every non-empty list of matches, the explanation that `generateAnswer` returns
is `"Based on N relevant document sections with similarity scores ranging from m to M"`,
where `N` is the number of matches and `m` and `M` are the least and the greatest of their
scores, both attained. It depends on the matches alone: a run with another query, another
log and other answers of the collaborators returns the same explanation for the same
matches. -/
theorem generateAnswer_explanation (env : Env) (query : JsString)
    (relevantChunks : List RetrievalMatch) (log : List Call) (result : GeneratedAnswer)
    (hne : relevantChunks ≠ [])
    (h : (generateAnswer env query relevantChunks log).1 = Outcome.returned result) :
    (∃ lowest highest : ℚ,
      (∀ c ∈ relevantChunks, lowest ≤ c.score ∧ c.score ≤ highest) ∧
      (∃ c ∈ relevantChunks, c.score = lowest) ∧
      (∃ c ∈ relevantChunks, c.score = highest) ∧
      result.explanation
        = units "Based on " ++ decimal relevantChunks.length
          ++ units " relevant document sections with similarity scores ranging from "
          ++ env.formatNumber lowest ++ units " to " ++ env.formatNumber highest) ∧
    (∀ (env2 : Env) (query2 : JsString) (log2 : List Call) (result2 : GeneratedAnswer),
      env2.formatNumber = env.formatNumber →
      (generateAnswer env2 query2 relevantChunks log2).1 = Outcome.returned result2 →
      result2.explanation = result.explanation) := by
  have hexp := (generateAnswer_returned env query relevantChunks log result h).1
  constructor
  · cases hchunks : relevantChunks with
    | nil => exact absurd hchunks hne
    | cons first rest =>
      have hmin := foldl_min_spec (rest.map fun c => c.score) first.score
      have hmax := foldl_max_spec (rest.map fun c => c.score) first.score
      have hmem : ∀ q : ℚ, q ∈ first.score :: rest.map (fun c => c.score) →
          ∃ c ∈ first :: rest, c.score = q := by
        intro q hq
        rw [← List.map_cons (fun c : RetrievalMatch => c.score)] at hq
        obtain ⟨c, hc, hcq⟩ := List.mem_map.mp hq
        exact ⟨c, hc, hcq⟩
      refine ⟨(rest.map fun c => c.score).foldl min first.score,
        (rest.map fun c => c.score).foldl max first.score, ?_, hmem _ hmin.2, hmem _ hmax.2, ?_⟩
      · intro c hc
        have hcs : c.score ∈ first.score :: rest.map (fun c => c.score) := by
          rw [← List.map_cons (fun c : RetrievalMatch => c.score)]
          exact List.mem_map_of_mem _ hc
        exact ⟨hmin.1 _ hcs, hmax.1 _ hcs⟩
      · rw [hexp, hchunks]
        rfl
  · intro env2 query2 log2 result2 hfmt h2
    rw [(generateAnswer_returned env2 query2 relevantChunks log2 result2 h2).1, hexp]
    cases hchunks : relevantChunks with
    | nil => exact absurd hchunks hne
    | cons first rest =>
      simp only [explanationOf, List.map_cons, mathMin, mathMax, numberToString, hfmt]

/-- C18 at a concrete input: two matches with the scores 9/10 and 1/2 (the stub environment
prints a score as a fraction). -/
theorem generateAnswer_explanation_witness :
    (∃ lowest highest : ℚ,
      (∀ c ∈ twoMatches, lowest ≤ c.score ∧ c.score ≤ highest) ∧
      (∃ c ∈ twoMatches, c.score = lowest) ∧
      (∃ c ∈ twoMatches, c.score = highest) ∧
      units "Based on 2 relevant document sections with similarity scores ranging from 1/2 to 9/10"
        = units "Based on " ++ decimal twoMatches.length
          ++ units " relevant document sections with similarity scores ranging from "
          ++ stubEnv.formatNumber lowest ++ units " to " ++ stubEnv.formatNumber highest) ∧
    (∀ (env2 : Env) (query2 : JsString) (log2 : List Call) (result2 : GeneratedAnswer),
      env2.formatNumber = stubEnv.formatNumber →
      (generateAnswer env2 query2 twoMatches log2).1 = Outcome.returned result2 →
      result2.explanation
        = units "Based on 2 relevant document sections with similarity scores ranging from 1/2 to 9/10") :=
  generateAnswer_explanation stubEnv (units "first") twoMatches []
    { answer := units "Answer 434"
      context := twoMatches
      explanation :=
        units "Based on 2 relevant document sections with similarity scores ranging from 1/2 to 9/10" }
    (by decide) (by decide!)

/-- C19: with an empty list of matches, when the run makes its completion call and the
provider answers it with a choice of content `content`, `generateAnswer` returns: the answer
is `content`, the context is empty, and the explanation is a string, computed from
`Math.min()` and `Math.max()` of no score without any error. -/
theorem generateAnswer_empty_matches (env : Env) (query : JsString) (log : List Call)
    (content : JsString) (rest : List JsString)
    (hcall : (generateAnswer env query [] log).2
      = log ++ [Call.chatCompletion systemContent (buildPrompt [] query) 1000 (3 / 10)])
    (hanswer : env.chatCompletion log systemContent (buildPrompt [] query) 1000 (3 / 10)
      = Outcome.returned (content :: rest)) :
    ∃ result : GeneratedAnswer,
      (generateAnswer env query [] log).1 = Outcome.returned result ∧
      result.answer = content ∧ result.context = [] ∧
      result.explanation = explanationOf env [] := by
  have hcfg : Configured env := by
    by_contra hn
    rw [generateAnswer_unconfigured_log env hn query [] log] at hcall
    exact self_ne_append log _ (by simp) hcall
  have hrun := generateAnswer_of_choice env hcfg query [] log content rest hanswer
  exact ⟨_, by rw [hrun], rfl, rfl, rfl⟩

/-- C19 at a concrete input: the stub environment, no match. -/
theorem generateAnswer_empty_matches_witness :
    ∃ result : GeneratedAnswer,
      (generateAnswer stubEnv (units "first") [] []).1 = Outcome.returned result ∧
      result.answer = units "Answer 414" ∧ result.context = [] ∧
      result.explanation = explanationOf stubEnv [] :=
  generateAnswer_empty_matches stubEnv (units "first") [] (units "Answer 414") []
    (by decide!) (by decide)

/-- C20, evaluated on the code: `generateAnswer` has no case for the empty list of matches.
In every environment the explanation for no match is built from `Math.min()` and
`Math.max()` of no argument, and reads `"... ranging from Infinity to -Infinity"`: it
reports a minimum `Infinity` and a maximum `-Infinity`, where the claim has no minimum or
maximum reported. -/
theorem generateAnswer_empty_explanation :
    (∀ env : Env, explanationOf env [] = emptyExplanation) ∧
    (generateAnswer stubEnv (units "first") [] []).1
      = Outcome.returned
          { answer := units "Answer 414", context := [], explanation := emptyExplanation } ∧
    occursIn (units "from Infinity") emptyExplanation = true ∧
    occursIn (units "to -Infinity") emptyExplanation = true := by
  refine ⟨fun env => ?_, by decide, by decide, by decide⟩
  simp only [explanationOf, List.map_nil, mathMin, mathMax, numberToString, List.length_nil]
  rfl

/-! ## Namespaces of the document-processing runs -/

/-- C21, as stated, fails for `processDocument` called without a namespace argument: the
run then writes into the namespace `default` (the default value of the parameter
`namespace`), which is not derived from the clock. In the stub environment, and again with a
clock that starts later, the only upsert of the run goes into `default`. -/
theorem processDocument_default_namespace :
    ((processDocument stubEnv policyUrl (units "txt")) []).1
      = Outcome.returned { success := true, chunks := 1, embeddings := 1, stored := 1 } ∧
    upsertNamespaces ((processDocument stubEnv policyUrl (units "txt")) []).2
      = [units "default"] ∧
    upsertNamespaces ((processDocument laterClock policyUrl (units "txt")) []).2
      = [units "default"] ∧
    stubEnv.clock [] ≠ laterClock.clock [] ∧
    units "default" ≠ units "doc_" ++ decimal (stubEnv.clock []) := by
  decide

/-- C21, amended: a document-processing run writes into the namespace of its caller when one
is supplied, into `default` when `processDocument` is called without one, and into
`doc_` followed by the clock reading taken on entry when it is started by `processQuery` or
`processMultipleQueries`. For every environment and every log: (1) a returning
`processDocument` without a namespace argument makes exactly one upsert, into `default`;
(2) with a namespace argument, every upsert that the run makes, whatever its outcome, goes
into that namespace unchanged, and a returning run makes exactly one; (3) a returning
`processQuery` makes exactly one upsert, into `doc_<clock reading on entry>`; (4) the first
upsert of a returning `processMultipleQueries` goes into `doc_<clock reading on entry>`. -/
theorem processDocument_namespace (env : Env) (documentUrl documentType : JsString)
    (log : List Call) :
    (∀ r : ProcessResult,
      ((processDocument env documentUrl documentType) log).1 = Outcome.returned r →
      upsertNamespaces ((processDocument env documentUrl documentType) log).2
        = upsertNamespaces log ++ [units "default"]) ∧
    (∀ nspace : JsString,
      (∃ made : List Call,
        (processDocument env documentUrl documentType nspace log).2 = log ++ made ∧
        ∀ (vectors : List VectorRecord) (written : JsString),
          Call.upsert vectors written ∈ made → written = nspace) ∧
      ∀ r : ProcessResult,
        (processDocument env documentUrl documentType nspace log).1 = Outcome.returned r →
        upsertNamespaces (processDocument env documentUrl documentType nspace log).2
          = upsertNamespaces log ++ [nspace]) ∧
    (∀ (query : JsString) (record : AnswerRecord),
      (processQuery env query documentUrl documentType log).1 = Outcome.returned record →
      upsertNamespaces (processQuery env query documentUrl documentType log).2
        = upsertNamespaces log ++ [units "doc_" ++ decimal (env.clock log)]) ∧
    (∀ (queries : List JsString) (result : BatchResult),
      (processMultipleQueries env queries documentUrl documentType log).1
        = Outcome.returned result →
      ∃ later : List JsString,
        upsertNamespaces (processMultipleQueries env queries documentUrl documentType log).2
          = upsertNamespaces log ++ (units "doc_" ++ decimal (env.clock log)) :: later) := by
  refine ⟨fun r h => upsertNamespaces_processDocument env _ _ _ log r h, fun nspace => ⟨?_,
    fun r h => upsertNamespaces_processDocument env _ _ _ log r h⟩,
    fun query record h => upsertNamespaces_processQuery env query _ _ log record h,
    fun queries result h => ?_⟩
  · obtain ⟨made, h1, h2⟩ := emits_processDocument
      (fun c => ∀ (vectors : List VectorRecord) (written : JsString),
        c = Call.upsert vectors written → written = nspace)
      (fun c hc vectors written hcw => by
        rw [hcw] at hc
        cases hc.1)
      env documentUrl documentType nspace
      (fun vectors vs written hcw => by
        simp only [Call.upsert.injEq] at hcw
        exact hcw.2.symm)
      log
    exact ⟨made, h1, fun vectors written hmem => h2 _ hmem vectors written rfl⟩
  · rcases hdoc : processDocument env documentUrl documentType (runNamespace env log)
      (log ++ [Call.now]) with ⟨o, log1⟩
    cases o with
    | returned r =>
      have hfst : (processDocument env documentUrl documentType (runNamespace env log)
          (log ++ [Call.now])).1 = Outcome.returned r := by rw [hdoc]
      rw [upsertNamespaces_processMultipleQueries env queries documentUrl documentType log r
        hfst]
      obtain ⟨made, hmade⟩ := logAfterQueries_append env documentUrl documentType queries
        (processDocument env documentUrl documentType (runNamespace env log)
          (log ++ [Call.now])).2
      have hup := upsertNamespaces_processDocument env documentUrl documentType
        (runNamespace env log) (log ++ [Call.now]) r hfst
      refine ⟨upsertNamespaces made, ?_⟩
      rw [hmade, upsertNamespaces_append, hup, upsertNamespaces_append]
      simp [upsertNamespaces, runNamespace]
    | thrown message =>
      rw [processMultipleQueries_of_thrown env queries documentUrl documentType log log1
        message hdoc] at h
      cases h

/-- C21, amended, at concrete inputs in the stub environment, from the empty log: without a
namespace argument the upsert goes into `default`, with the argument `tenant_a` into
`tenant_a`, and the run of `processQuery` into `doc_1700000000000`, the clock reading on
entry. -/
theorem processDocument_namespace_witness :
    upsertNamespaces ((processDocument stubEnv policyUrl (units "txt")) []).2
      = upsertNamespaces [] ++ [units "default"] ∧
    upsertNamespaces (processDocument stubEnv policyUrl (units "txt") (units "tenant_a") []).2
      = upsertNamespaces [] ++ [units "tenant_a"] ∧
    upsertNamespaces (processQuery stubEnv (units "first") policyUrl (units "txt") []).2
      = upsertNamespaces [] ++ [units "doc_" ++ decimal (stubEnv.clock [])] ∧
    units "doc_" ++ decimal (stubEnv.clock []) = units "doc_1700000000000" :=
  ⟨(processDocument_namespace stubEnv policyUrl (units "txt") []).1
      { success := true, chunks := 1, embeddings := 1, stored := 1 } (by decide),
    ((processDocument_namespace stubEnv policyUrl (units "txt") []).2.1 (units "tenant_a")).2
      { success := true, chunks := 1, embeddings := 1, stored := 1 } (by decide),
    (processDocument_namespace stubEnv policyUrl (units "txt") []).2.2.1 (units "first")
      { query := units "first"
        answer := units "Answer 475"
        explanation := units "Based on 1 relevant document sections with similarity scores ranging from 9/10 to 9/10"
        relevantSections := [{ score := 9 / 10, text := oneSentence, chunkIndex := 0,
                               documentUrl := policyUrl }]
        documentUrl := policyUrl
        timestamp := units "1700000000009" }
      (by decide!),
    by decide⟩

/-- C22, as stated, fails: the namespace of a run is `doc_` followed by one reading of
`Date.now()`, and two readings can be equal. With a clock that stands still, the run started
by `processMultipleQueries` and the run started by the `processQuery` of its first query
write into the same namespace `doc_1700000000000`; the call returns normally. -/
theorem processMultipleQueries_shared_namespace :
    (processMultipleQueries frozenClock [units "first"] policyUrl (units "txt") []).1
      = Outcome.returned
          { answers := [units "Answer 475"]
            documentUrl := policyUrl
            queriesProcessed := 1
            timestamp := units "1700000000000" } ∧
    upsertNamespaces (processMultipleQueries frozenClock [units "first"] policyUrl
        (units "txt") []).2
      = [units "doc_1700000000000", units "doc_1700000000000"] := by
  decide

/-- C22, amended: two runs get distinct namespaces exactly when the clock readings taken on
their entry are distinct. For two calls of `processQuery` that return, entered with the logs
`log1` and `log2`, each makes exactly one upsert, and the two namespaces written differ if
and only if `Date.now()` differed. For a `processMultipleQueries` whose initial run and
first `processQuery` return, the first two upserts of the batch go into the namespace of the
initial run and into the namespace of the first query's run, which differ if and only if the
clock reading on entry of the batch and the one on entry of the first query differ. -/
theorem processQuery_namespaces_distinct_iff (env : Env) (documentUrl documentType : JsString) :
    (∀ (query1 query2 : JsString) (log1 log2 : List Call) (record1 record2 : AnswerRecord),
      (processQuery env query1 documentUrl documentType log1).1 = Outcome.returned record1 →
      (processQuery env query2 documentUrl documentType log2).1 = Outcome.returned record2 →
      upsertNamespaces (processQuery env query1 documentUrl documentType log1).2
        = upsertNamespaces log1 ++ [runNamespace env log1] ∧
      upsertNamespaces (processQuery env query2 documentUrl documentType log2).2
        = upsertNamespaces log2 ++ [runNamespace env log2] ∧
      (runNamespace env log1 ≠ runNamespace env log2 ↔ env.clock log1 ≠ env.clock log2)) ∧
    (∀ (query : JsString) (rest : List JsString) (log : List Call) (r : ProcessResult)
        (record : AnswerRecord),
      (processDocument env documentUrl documentType (runNamespace env log)
        (log ++ [Call.now])).1 = Outcome.returned r →
      (processQuery env query documentUrl documentType
        (processDocument env documentUrl documentType (runNamespace env log)
          (log ++ [Call.now])).2).1 = Outcome.returned record →
      (∃ later : List JsString,
        upsertNamespaces
            (processMultipleQueries env (query :: rest) documentUrl documentType log).2
          = upsertNamespaces log
            ++ runNamespace env log
              :: runNamespace env (processDocument env documentUrl documentType
                    (runNamespace env log) (log ++ [Call.now])).2
              :: later) ∧
      (runNamespace env log
          ≠ runNamespace env (processDocument env documentUrl documentType
              (runNamespace env log) (log ++ [Call.now])).2 ↔
        env.clock log
          ≠ env.clock (processDocument env documentUrl documentType
              (runNamespace env log) (log ++ [Call.now])).2)) := by
  refine ⟨fun query1 query2 log1 log2 record1 record2 h1 h2 =>
    ⟨upsertNamespaces_processQuery env query1 _ _ log1 record1 h1,
      upsertNamespaces_processQuery env query2 _ _ log2 record2 h2,
      not_congr (runNamespace_eq_iff env log1 log2)⟩,
    fun query rest log r record hdoc hq => ⟨?_, not_congr (runNamespace_eq_iff env _ _)⟩⟩
  rw [upsertNamespaces_processMultipleQueries env (query :: rest) documentUrl documentType log r
    hdoc]
  simp only [logAfterQueries]
  obtain ⟨made, hmade⟩ := logAfterQueries_append env documentUrl documentType rest
    (processQuery env query documentUrl documentType
      (processDocument env documentUrl documentType (runNamespace env log)
        (log ++ [Call.now])).2).2
  have hup := upsertNamespaces_processDocument env documentUrl documentType
    (runNamespace env log) (log ++ [Call.now]) r hdoc
  have hupq := upsertNamespaces_processQuery env query documentUrl documentType _ record hq
  refine ⟨upsertNamespaces made, ?_⟩
  rw [hmade, upsertNamespaces_append, hupq, hup, upsertNamespaces_append]
  simp [upsertNamespaces]

/-- C22, amended, at a concrete input: in the stub environment the clock advances with every
call, and the batch of one query writes into `doc_1700000000000` and then into
`doc_1700000000006`. -/
theorem processQuery_namespaces_distinct_iff_witness :
    (∃ later : List JsString,
      upsertNamespaces
          (processMultipleQueries stubEnv (units "first" :: []) policyUrl (units "txt") []).2
        = upsertNamespaces []
          ++ runNamespace stubEnv []
            :: runNamespace stubEnv (processDocument stubEnv policyUrl (units "txt")
                  (runNamespace stubEnv []) ([] ++ [Call.now])).2
            :: later) ∧
    upsertNamespaces
        (processMultipleQueries stubEnv (units "first" :: []) policyUrl (units "txt") []).2
      = [units "doc_1700000000000", units "doc_1700000000006"] :=
  ⟨((processQuery_namespaces_distinct_iff stubEnv policyUrl (units "txt")).2 (units "first") []
      [] { success := true, chunks := 1, embeddings := 1, stored := 1 }
      { query := units "first"
        answer := units "Answer 475"
        explanation := units "Based on 1 relevant document sections with similarity scores ranging from 9/10 to 9/10"
        relevantSections := [{ score := 9 / 10, text := oneSentence, chunkIndex := 0,
                               documentUrl := policyUrl }]
        documentUrl := policyUrl
        timestamp := units "1700000000015" }
      (by decide) (by decide!)).1,
    by decide⟩

/-! ## Extraction and the result of `processDocument` -/

/-- C23, as stated, fails: the dispatch is on `documentType.toLowerCase()`, so a declared type
that is not exactly `pdf`, `docx` or `txt` can be accepted. With the declared type `PDF` the
stub document is parsed as a PDF and its text returned; no unsupported-type error. -/
theorem extractTextFromDocument_upper_case_accepted :
    units "PDF" ≠ units "pdf" ∧ units "PDF" ≠ units "docx" ∧ units "PDF" ≠ units "txt" ∧
    extractTextFromDocument stubEnv policyUrl (units "PDF") []
      = (Outcome.returned oneSentence,
         [Call.httpGet policyUrl, Call.pdfParse oneSentence]) := by
  decide

/-- C23, amended: once the document is fetched, `extractTextFromDocument` dispatches on the
lower-cased declared type. If that is `pdf`, the outcome is the one of the PDF parser on
the fetched bytes; if `docx`, the one of the DOCX parser; if `txt`, the bytes decoded as
UTF-8, with no parser call (a parser's error is wrapped in
`Failed to extract text from document: `). For every other declared type the call fails,
without any parser call, with the message `Failed to extract text from document: Unsupported
document type: ` followed by the declared type as given. -/
theorem extractTextFromDocument_dispatch (env : Env) (documentUrl documentType : JsString)
    (log : List Call) (buffer : List Nat)
    (hfetch : env.httpGet log documentUrl = Outcome.returned buffer) :
    (toLowerCase documentType = units "pdf" →
      extractTextFromDocument env documentUrl documentType log
        = (match env.pdfParse (log ++ [Call.httpGet documentUrl]) buffer with
            | Outcome.returned text => Outcome.returned text
            | Outcome.thrown message =>
              Outcome.thrown (units "Failed to extract text from document: " ++ message),
           log ++ [Call.httpGet documentUrl, Call.pdfParse buffer])) ∧
    (toLowerCase documentType = units "docx" →
      extractTextFromDocument env documentUrl documentType log
        = (match env.extractRawText (log ++ [Call.httpGet documentUrl]) buffer with
            | Outcome.returned text => Outcome.returned text
            | Outcome.thrown message =>
              Outcome.thrown (units "Failed to extract text from document: " ++ message),
           log ++ [Call.httpGet documentUrl, Call.extractRawText buffer])) ∧
    (toLowerCase documentType = units "txt" →
      extractTextFromDocument env documentUrl documentType log
        = (Outcome.returned (env.utf8Decode buffer), log ++ [Call.httpGet documentUrl])) ∧
    (toLowerCase documentType ≠ units "pdf" → toLowerCase documentType ≠ units "docx" →
      toLowerCase documentType ≠ units "txt" →
      extractTextFromDocument env documentUrl documentType log
        = (Outcome.thrown (units "Failed to extract text from document: "
            ++ (units "Unsupported document type: " ++ documentType)),
           log ++ [Call.httpGet documentUrl])) := by
  have hget : call (Call.httpGet documentUrl) (fun log => env.httpGet log documentUrl) log
      = (Outcome.returned buffer, log ++ [Call.httpGet documentUrl]) := by
    rw [call_apply, hfetch]
  have hdocx : units "docx" ≠ units "pdf" := by decide
  have htxt1 : units "txt" ≠ units "pdf" := by decide
  have htxt2 : units "txt" ≠ units "docx" := by decide
  unfold extractTextFromDocument
  refine ⟨fun h => ?_, fun h => ?_, fun h => ?_, fun h1 h2 h3 => ?_⟩
  · cases hp : env.pdfParse (log ++ [Call.httpGet documentUrl]) buffer with
    | returned text =>
      rw [tryCatch_returned _ _ log (log ++ [Call.httpGet documentUrl, Call.pdfParse buffer])
        text]
      rw [bind_returned _ _ _ _ _ hget, if_pos h, call_apply, hp]
      simp
    | thrown message =>
      rw [tryCatch_thrown _ _ log (log ++ [Call.httpGet documentUrl, Call.pdfParse buffer])
        message]
      · rfl
      · rw [bind_returned _ _ _ _ _ hget, if_pos h, call_apply, hp]
        simp
  · have hn : toLowerCase documentType ≠ units "pdf" := by
      rw [h]
      exact hdocx
    cases hp : env.extractRawText (log ++ [Call.httpGet documentUrl]) buffer with
    | returned text =>
      rw [tryCatch_returned _ _ log
        (log ++ [Call.httpGet documentUrl, Call.extractRawText buffer]) text]
      rw [bind_returned _ _ _ _ _ hget, if_neg hn, if_pos h, call_apply, hp]
      simp
    | thrown message =>
      rw [tryCatch_thrown _ _ log
        (log ++ [Call.httpGet documentUrl, Call.extractRawText buffer]) message]
      · rfl
      · rw [bind_returned _ _ _ _ _ hget, if_neg hn, if_pos h, call_apply, hp]
        simp
  · have hn1 : toLowerCase documentType ≠ units "pdf" := by
      rw [h]
      exact htxt1
    have hn2 : toLowerCase documentType ≠ units "docx" := by
      rw [h]
      exact htxt2
    rw [tryCatch_returned _ _ log (log ++ [Call.httpGet documentUrl]) (env.utf8Decode buffer)]
    rw [bind_returned _ _ _ _ _ hget, if_neg hn1, if_neg hn2, if_pos h, pure_apply]
  · rw [tryCatch_thrown _ _ log (log ++ [Call.httpGet documentUrl])
      (units "Unsupported document type: " ++ documentType)]
    · rfl
    · rw [bind_returned _ _ _ _ _ hget, if_neg h1, if_neg h2, if_neg h3]
      rfl

/-- C23, amended, at concrete inputs in the stub environment: the declared type `DOCX` goes to
the DOCX parser, and the declared type `rtf` is refused with its name in the message. -/
theorem extractTextFromDocument_dispatch_witness :
    extractTextFromDocument stubEnv policyUrl (units "DOCX") []
      = (match stubEnv.extractRawText ([] ++ [Call.httpGet policyUrl]) oneSentence with
          | Outcome.returned text => Outcome.returned text
          | Outcome.thrown message =>
            Outcome.thrown (units "Failed to extract text from document: " ++ message),
         [] ++ [Call.httpGet policyUrl, Call.extractRawText oneSentence]) ∧
    extractTextFromDocument stubEnv policyUrl (units "rtf") []
      = (Outcome.thrown (units "Failed to extract text from document: "
          ++ (units "Unsupported document type: " ++ units "rtf")),
         [] ++ [Call.httpGet policyUrl]) :=
  ⟨(extractTextFromDocument_dispatch stubEnv policyUrl (units "DOCX") [] oneSentence rfl).2.1
      (by decide),
    (extractTextFromDocument_dispatch stubEnv policyUrl (units "rtf") [] oneSentence rfl).2.2.2
      (by decide) (by decide) (by decide)⟩

/-- C24: a call of `processDocument` that returns has extracted a text, chunked it with the
default parameters (1000, 200), obtained a list of embeddings for the chunks and upserted
one record per embedding; it returns `success: true`, `chunks` the number of chunks,
`embeddings` the number of embeddings obtained and `stored` equal to `embeddings`, the
number of records upserted. With a provider that answers every batch with one vector per
text, `chunks = embeddings = stored`. -/
theorem processDocument_result (env : Env) (documentUrl documentType nspace : JsString)
    (log : List Call) (r : ProcessResult)
    (h : (processDocument env documentUrl documentType nspace log).1 = Outcome.returned r) :
    ∃ (text : JsString) (chunks : List JsString) (embeddings : List Embedding)
      (vectors : List VectorRecord) (log1 log2 before : List Call),
      extractTextFromDocument env documentUrl documentType log = (Outcome.returned text, log1) ∧
      splitTextIntoChunks text.length text 1000 200 = some chunks ∧
      generateEmbeddings env chunks log1 = (Outcome.returned embeddings, log2) ∧
      (processDocument env documentUrl documentType nspace log).2
        = log ++ before ++ [Call.upsert vectors nspace] ∧
      r.success = true ∧ r.chunks = chunks.length ∧ r.embeddings = embeddings.length ∧
      r.stored = r.embeddings ∧ r.stored = vectors.length ∧
      ((∀ (log : List Call) (batch : List JsString) (answer : List Embedding),
          env.embeddingsCreate log (EmbedInput.batch batch) = Outcome.returned answer →
          answer.length = batch.length) →
        r.chunks = r.embeddings ∧ r.embeddings = r.stored) := by
  have hpair := eq_pair_of_fst _ _ _ h
  obtain ⟨text, log1, embeddings, log2, hext, hemb, _, hr⟩ :=
    processDocument_eq_returned env documentUrl documentType nspace log _ r hpair
  obtain ⟨before, vectors, hlog, _, _, hvlen⟩ :=
    processDocument_trace env documentUrl documentType nspace log _ r hpair
  obtain ⟨chunks, hchunks⟩ := splitLoop_terminates text 1000 200 (by decide) (by decide)
    text.length 0 [] (le_refl _) (by omega)
  have hsplit : splitTextIntoChunks text.length text 1000 200 = some chunks := hchunks
  have hgetD : (splitTextIntoChunks text.length text).getD [] = chunks := by
    rw [hsplit]
    rfl
  rw [hgetD] at hemb hr
  refine ⟨text, chunks, embeddings, vectors, log1, log2, before, hext, hsplit, hemb, hlog, ?_, ?_,
    ?_, ?_, ?_, ?_⟩
  · rw [hr]
  · rw [hr]
  · rw [hr]
  · rw [hr]
  · exact hvlen.symm
  · intro hone
    have := generateEmbeddings_length env chunks hone log1 log2 embeddings hemb
    rw [hr]
    exact ⟨this.symm, rfl⟩

/-- C24 at a concrete input: the stub document has one chunk, and the run returns
`{ success: true, chunks: 1, embeddings: 1, stored: 1 }`. -/
theorem processDocument_result_witness :
    (processDocument stubEnv policyUrl (units "txt") (units "doc_1") []).1
      = Outcome.returned { success := true, chunks := 1, embeddings := 1, stored := 1 } ∧
    ∃ (text : JsString) (chunks : List JsString) (embeddings : List Embedding)
      (vectors : List VectorRecord) (log1 log2 before : List Call),
      extractTextFromDocument stubEnv policyUrl (units "txt") []
        = (Outcome.returned text, log1) ∧
      splitTextIntoChunks text.length text 1000 200 = some chunks ∧
      generateEmbeddings stubEnv chunks log1 = (Outcome.returned embeddings, log2) ∧
      (processDocument stubEnv policyUrl (units "txt") (units "doc_1") []).2
        = [] ++ before ++ [Call.upsert vectors (units "doc_1")] ∧
      ({ success := true, chunks := 1, embeddings := 1, stored := 1 } : ProcessResult).success
        = true ∧
      ({ success := true, chunks := 1, embeddings := 1, stored := 1 } : ProcessResult).chunks
        = chunks.length ∧
      ({ success := true, chunks := 1, embeddings := 1, stored := 1 } : ProcessResult).embeddings
        = embeddings.length ∧
      ({ success := true, chunks := 1, embeddings := 1, stored := 1 } : ProcessResult).stored
        = ({ success := true, chunks := 1, embeddings := 1, stored := 1 }
            : ProcessResult).embeddings ∧
      ({ success := true, chunks := 1, embeddings := 1, stored := 1 } : ProcessResult).stored
        = vectors.length ∧
      ((∀ (log : List Call) (batch : List JsString) (answer : List Embedding),
          stubEnv.embeddingsCreate log (EmbedInput.batch batch) = Outcome.returned answer →
          answer.length = batch.length) →
        ({ success := true, chunks := 1, embeddings := 1, stored := 1 } : ProcessResult).chunks
          = ({ success := true, chunks := 1, embeddings := 1, stored := 1 }
              : ProcessResult).embeddings ∧
        ({ success := true, chunks := 1, embeddings := 1, stored := 1 }
            : ProcessResult).embeddings
          = ({ success := true, chunks := 1, embeddings := 1, stored := 1 }
              : ProcessResult).stored) :=
  ⟨by decide,
    processDocument_result stubEnv policyUrl (units "txt") (units "doc_1") []
      { success := true, chunks := 1, embeddings := 1, stored := 1 } (by decide)⟩

/-! ## The authentication middleware: `authenticateToken` -/

/-- C25, as stated, fails: the middleware compares the second space-separated field of the
header with the expected token and never looks at the first field. The header `Basic `
followed by the expected token is not `Bearer ` followed by it, yet the request is accepted
(`req.user` set, `next()` called); so is a header with more fields after the token. -/
theorem authenticateToken_scheme_not_checked :
    units "Basic " ++ expectedToken ≠ units "Bearer " ++ expectedToken ∧
    authenticateToken (some (units "Basic " ++ expectedToken)) = AuthResult.next participant ∧
    units "Bearer " ++ expectedToken ++ units " and more" ≠ units "Bearer " ++ expectedToken ∧
    authenticateToken (some (units "Bearer " ++ expectedToken ++ units " and more"))
      = AuthResult.next participant := by
  decide

/-- C25, amended: for every request exactly one of three outcomes occurs. The middleware
responds 401 if and only if no token is provided: the `authorization` header is absent, or
its second space-separated field is absent or empty. It sets `req.user` to the participant
user and calls `next()` if and only if the second space-separated field of the header is
the expected token, that is, the header is any first field without a space, a space, the
expected token, and then nothing or a space and anything. In every other case it responds
403 and does not call `next()`. -/
theorem authenticateToken_outcomes (authHeader : Option JsString) :
    (authenticateToken authHeader
        = AuthResult.respond 401 (units "Access denied") (units "No token provided") ↔
      authHeader = none ∨ ∃ header, authHeader = some header ∧
        ((split header 32)[1]? = none ∨ (split header 32)[1]? = some [])) ∧
    (authenticateToken authHeader = AuthResult.next participant ↔
      ∃ scheme rest, authHeader = some (scheme ++ 32 :: (expectedToken ++ rest)) ∧
        32 ∉ scheme ∧ (rest = [] ∨ ∃ r, rest = 32 :: r)) ∧
    (authenticateToken authHeader
        = AuthResult.respond 401 (units "Access denied") (units "No token provided") ∨
      authenticateToken authHeader = AuthResult.next participant ∨
      authenticateToken authHeader
        = AuthResult.respond 403 (units "Access denied") (units "Invalid token")) ∧
    AuthResult.respond 401 (units "Access denied") (units "No token provided")
      ≠ AuthResult.next participant ∧
    AuthResult.respond 403 (units "Access denied") (units "Invalid token")
      ≠ AuthResult.next participant ∧
    AuthResult.respond 401 (units "Access denied") (units "No token provided")
      ≠ AuthResult.respond 403 (units "Access denied") (units "Invalid token") := by
  obtain ⟨h401, hnext, h403⟩ := authenticateToken_cases authHeader
  refine ⟨?_, ?_, ?_, by decide, by decide, by decide⟩
  · rw [h401]
    cases authHeader with
    | none => simp [headerToken]
    | some header =>
      simp only [headerToken, reduceCtorEq, Option.some.injEq, exists_eq_left', false_or]
      split_ifs with hnil
      · subst hnil
        simp [split]
      · rfl
  · rw [hnext]
    cases authHeader with
    | none =>
      simp [headerToken]
    | some header =>
      rw [headerToken_some header expectedToken expectedToken_ne_nil, split_second]
      constructor
      · rintro ⟨a, rest, e, ha, _, hrest⟩
        exact ⟨a, rest, by rw [e], ha, hrest⟩
      · rintro ⟨a, rest, e, ha, hrest⟩
        simp only [Option.some.injEq] at e
        exact ⟨a, rest, e, ha, space_not_mem_expectedToken, hrest⟩
  · by_cases h1 : headerToken authHeader = none ∨ headerToken authHeader = some []
    · exact Or.inl (h401.mpr h1)
    · by_cases h2 : headerToken authHeader = some expectedToken
      · exact Or.inr (Or.inl (hnext.mpr h2))
      · exact Or.inr (Or.inr (h403.mpr ⟨h1, h2⟩))

/-- C25, amended, at concrete inputs: the documented header `Bearer ` followed by the expected
token is accepted, a request without the header is answered 401, and the header
`Bearer wrong-token` is answered 403. -/
theorem authenticateToken_outcomes_witness :
    authenticateToken (some (units "Bearer" ++ 32 :: (expectedToken ++ [])))
      = AuthResult.next participant ∧
    authenticateToken none
      = AuthResult.respond 401 (units "Access denied") (units "No token provided") ∧
    authenticateToken (some (units "Bearer wrong-token"))
      = AuthResult.respond 403 (units "Access denied") (units "Invalid token") :=
  ⟨(authenticateToken_outcomes (some (units "Bearer" ++ 32 :: (expectedToken ++ [])))).2.1.mpr
      ⟨units "Bearer", [], rfl, by decide, Or.inl rfl⟩,
    (authenticateToken_outcomes none).1.mpr (Or.inl rfl),
    by decide⟩

/-! ## The windows of `splitTextIntoChunks` -/

/-- C26: a window of `splitTextIntoChunks` that does not reach the end of the text and is not
cut at a break point yields the full window `text[start .. start + chunkSize)`, of
`chunkSize` code units, and moves the cursor to `start + chunkSize - overlap`. Consequently,
on a text without `'.'` and newline and for `0 ≤ overlap < chunkSize`, the `k`-th window
examined starts at `k * (chunkSize - overlap)`, and every window that is followed by another
one is full, the next one starting `overlap` code units before its end: the first `overlap`
code units of the next window are the last `overlap` code units of the full window. -/
theorem splitTextIntoChunks_hard_cut (text : JsString) (chunkSize overlap : Int)
    (ho : 0 ≤ overlap) (hc : overlap < chunkSize) :
    (∀ start : Int, 0 ≤ start → start + chunkSize < text.length →
      pastThreshold (breakPointAt text chunkSize start) start chunkSize = false →
      cutWindow text chunkSize overlap start
        = (slice text start (start + chunkSize), start + chunkSize - overlap) ∧
      ((slice text start (start + chunkSize)).length : Int) = chunkSize) ∧
    (period ∉ text → newline ∉ text →
      (∀ (k : Nat) (a : Int × JsString), (windows text chunkSize overlap)[k]? = some a →
        a.1 = (k : Int) * (chunkSize - overlap)) ∧
      (∀ (k : Nat) (a b : Int × JsString), (windows text chunkSize overlap)[k]? = some a →
        (windows text chunkSize overlap)[k + 1]? = some b →
        a.2 = slice text a.1 (a.1 + chunkSize) ∧ (a.2.length : Int) = chunkSize ∧
        b.1 + overlap = a.1 + chunkSize ∧ overlap ≤ (b.2.length : Int) ∧
        b.2.take overlap.toNat = a.2.drop (chunkSize - overlap).toNat)) := by
  refine ⟨fun start hs hend hbp => ⟨cutWindow_not_cut text chunkSize overlap start hend hbp, ?_⟩,
    fun hp hn => ⟨fun k a ha => ?_, fun k a b ha hb => ?_⟩⟩
  · have := (slice_of_bounds text start (start + chunkSize) hs (by omega) (by omega)).2
    omega
  · have := windowsFrom_hard_start text chunkSize overlap ho hc hp hn text.length 0 k a
      (le_refl _) ha
    omega
  · exact windowsFrom_hard_overlap text chunkSize overlap ho hc hp hn text.length 0 k a b
      (le_refl _) ha hb

/-- C26 at a concrete input: 250 times `x` with `chunkSize = 100`, `overlap = 20`. The windows
start at 0, 80 and 160; the first two are full, the last one has the 90 remaining code
units. -/
theorem splitTextIntoChunks_hard_cut_witness :
    (cutWindow plainText 100 20 80 = (slice plainText 80 (80 + 100), 80 + 100 - 20) ∧
      ((slice plainText 80 (80 + 100)).length : Int) = 100) ∧
    windows plainText 100 20
      = [(0, List.replicate 100 120), (80, List.replicate 100 120),
          (160, List.replicate 90 120)] ∧
    (∀ (k : Nat) (a : Int × JsString), (windows plainText 100 20)[k]? = some a →
      a.1 = (k : Int) * (100 - 20)) :=
  ⟨(splitTextIntoChunks_hard_cut plainText 100 20 (by decide) (by decide)).1 80 (by decide)
      (by decide) (by decide),
    by decide,
    ((splitTextIntoChunks_hard_cut plainText 100 20 (by decide) (by decide)).2 (by decide)
      (by decide)).1⟩

/-- C27: for `0 ≤ overlap < chunkSize`, `splitTextIntoChunks` returns, and the segments that
its loop examines traverse the text from its beginning to its end: every segment is the
slice `text[s .. e)` of the text at its own start `s` (with `e = s + segment.length`, inside
the text); the first segment of a non-empty text starts at 0; each next segment starts after
the start of the one before and not after its end, so no code unit lies between two
consecutive segments; the last segment ends at `text.length`. The chunks returned are the
trimmed segments that have more than 50 code units after trimming, in the order of the
segments, that is, in increasing order of segment start. -/
theorem splitTextIntoChunks_traversal (text : JsString) (chunkSize overlap : Int)
    (ho : 0 ≤ overlap) (hc : overlap < chunkSize) :
    ∃ chunks, splitTextIntoChunks text.length text chunkSize overlap = some chunks ∧
      (∀ w ∈ windows text chunkSize overlap,
        0 ≤ w.1 ∧ w.2 = slice text w.1 (w.1 + (w.2.length : Int)) ∧
          w.1 + (w.2.length : Int) ≤ text.length) ∧
      (text ≠ [] → (windows text chunkSize overlap).head?.map Prod.fst = some 0) ∧
      (∀ (k : Nat) (a b : Int × JsString), (windows text chunkSize overlap)[k]? = some a →
        (windows text chunkSize overlap)[k + 1]? = some b →
        a.1 < b.1 ∧ b.1 ≤ a.1 + (a.2.length : Int)) ∧
      (text ≠ [] → (windows text chunkSize overlap).getLast?.map
        (fun w => w.1 + (w.2.length : Int)) = some (text.length : Int)) ∧
      chunks = ((windows text chunkSize overlap).map fun w => trim w.2).filter
        fun c => decide (50 < c.length) := by
  obtain ⟨r, hr⟩ := splitLoop_terminates text chunkSize overlap ho hc text.length 0 []
    (le_refl _) (by omega)
  have hchunks := splitLoop_eq_windows text chunkSize overlap text.length 0 [] r hr
  rw [List.nil_append] at hchunks
  by_cases hne : text = []
  · subst hne
    refine ⟨r, hr, ?_, fun h => absurd rfl h, ?_, fun h => absurd rfl h, hchunks⟩
    · intro w hw
      simp [windows, windowsFrom] at hw
    · intro k a b ha
      simp [windows, windowsFrom] at ha
  · have hpos : (0 : Int) < text.length := by
      have := List.length_pos.mpr hne
      omega
    obtain ⟨h1, h2, h3, h4⟩ := windowsFrom_spec text chunkSize overlap ho hc text.length 0
      (le_refl _) hpos (by omega)
    exact ⟨r, hr, h1, fun _ => h2, h3, fun _ => h4, hchunks⟩

/-- C27 at a concrete input: `earlyPeriodText` (393 code units) with `chunkSize = 200`,
`overlap = 0` is traversed in three segments, `text[0 .. 142)`, `text[142 .. 342)` and
`text[342 .. 393)`. -/
theorem splitTextIntoChunks_traversal_witness :
    (∃ chunks, splitTextIntoChunks earlyPeriodText.length earlyPeriodText 200 0 = some chunks ∧
      (∀ w ∈ windows earlyPeriodText 200 0,
        0 ≤ w.1 ∧ w.2 = slice earlyPeriodText w.1 (w.1 + (w.2.length : Int)) ∧
          w.1 + (w.2.length : Int) ≤ earlyPeriodText.length) ∧
      (earlyPeriodText ≠ [] → (windows earlyPeriodText 200 0).head?.map Prod.fst = some 0) ∧
      (∀ (k : Nat) (a b : Int × JsString), (windows earlyPeriodText 200 0)[k]? = some a →
        (windows earlyPeriodText 200 0)[k + 1]? = some b →
        a.1 < b.1 ∧ b.1 ≤ a.1 + (a.2.length : Int)) ∧
      (earlyPeriodText ≠ [] → (windows earlyPeriodText 200 0).getLast?.map
        (fun w => w.1 + (w.2.length : Int)) = some (earlyPeriodText.length : Int)) ∧
      chunks = ((windows earlyPeriodText 200 0).map fun w => trim w.2).filter
        fun c => decide (50 < c.length)) ∧
    windows earlyPeriodText 200 0
      = [(0, List.replicate 141 120 ++ [period]), (142, List.replicate 200 120),
          (342, List.replicate 51 120)] :=
  ⟨splitTextIntoChunks_traversal earlyPeriodText 200 0 (by decide) (by decide), by decide⟩

/-! ## The prompt of `generateAnswer` and the read path of `processQuery` -/

/-- C28: for every query and every list of matches, `generateAnswer` makes its completion call
(the only call it makes, and it makes it whenever `initialize()` returns) with
`max_tokens` 1000, temperature 0.3 and, as the user prompt, a fixed preamble, then the texts
of all the matches in retrieval order with a blank line between every two of them, then
`User Query: ` and the query as given, then a fixed suffix of instructions. Every text is in
the prompt in full. When `initialize()` throws no call is made at all. -/
theorem generateAnswer_prompt (env : Env) (query : JsString)
    (relevantChunks : List RetrievalMatch) (log : List Call) :
    (Configured env →
      (generateAnswer env query relevantChunks log).2
        = log ++ [Call.chatCompletion
            (units "You are a professional document analysis assistant. Provide accurate, detailed answers based on the provided context. Always cite specific sections when possible.")
            (units "You are an intelligent query retrieval system specialized in insurance, legal, HR, and compliance domains.\n\nContext from relevant document sections:\n"
              ++ (units "\n\n").intercalate (relevantChunks.map fun chunk => chunk.text)
              ++ units "\n\nUser Query: " ++ query
              ++ units "\n\nPlease provide a comprehensive answer based on the context above. If the information is not available in the context, clearly state that. Be specific and include relevant details, conditions, and limitations mentioned in the documents.\n\nAnswer:")
            1000 (3 / 10)]) ∧
    (¬ Configured env → (generateAnswer env query relevantChunks log).2 = log) ∧
    (∀ chunk ∈ relevantChunks, ∃ pre post : JsString,
      (units "\n\n").intercalate (relevantChunks.map fun chunk => chunk.text)
        = pre ++ chunk.text ++ post) := by
  refine ⟨fun hcfg => ?_, fun hcfg => generateAnswer_unconfigured_log env hcfg query
    relevantChunks log, fun chunk hchunk => ?_⟩
  · rw [generateAnswer_configured_log env hcfg query relevantChunks log, join_eq_intercalate]
    rfl
  · rw [← join_eq_intercalate]
    exact join_contains (units "\n\n") _ chunk.text (List.mem_map_of_mem _ hchunk)

/-- C28 at a concrete input: two matches with the texts `chunk one` and `chunk two` and the
query `first`, in the stub environment. -/
theorem generateAnswer_prompt_witness :
    (generateAnswer stubEnv (units "first") twoMatches []).2
      = [] ++ [Call.chatCompletion
          (units "You are a professional document analysis assistant. Provide accurate, detailed answers based on the provided context. Always cite specific sections when possible.")
          (units "You are an intelligent query retrieval system specialized in insurance, legal, HR, and compliance domains.\n\nContext from relevant document sections:\n"
            ++ (units "\n\n").intercalate (twoMatches.map fun chunk => chunk.text)
            ++ units "\n\nUser Query: " ++ units "first"
            ++ units "\n\nPlease provide a comprehensive answer based on the context above. If the information is not available in the context, clearly state that. Be specific and include relevant details, conditions, and limitations mentioned in the documents.\n\nAnswer:")
          1000 (3 / 10)] ∧
    (units "\n\n").intercalate (twoMatches.map fun chunk => chunk.text)
      = units "chunk one\n\nchunk two" :=
  ⟨(generateAnswer_prompt stubEnv (units "first") twoMatches []).1 (by decide), by decide⟩

/-- C29: in every `processQuery` that returns, the only store calls of the run are one upsert
and, after it, one query; the query is issued with the namespace that the upsert of the
same run has written into (`doc_` followed by the clock reading on entry) and with
`topK = 5`; the `relevantSections` of the record returned are exactly the matches with which
the store has answered that query, in the store's order, and `query` and `documentUrl` are
the inputs. -/
theorem processQuery_reads_own_namespace (env : Env) (query documentUrl documentType : JsString)
    (log : List Call) (record : AnswerRecord)
    (h : (processQuery env query documentUrl documentType log).1 = Outcome.returned record) :
    ∃ (nspace : JsString) (before after : List Call) (vectors : List VectorRecord)
      (vector : Embedding) (found : List StoreMatch),
      nspace = units "doc_" ++ decimal (env.clock log) ∧
      (processQuery env query documentUrl documentType log).2
        = log ++ before
          ++ [Call.upsert vectors nspace, Call.embeddingsCreate (EmbedInput.single query),
              Call.query vector nspace 5]
          ++ after ∧
      (∀ c ∈ before, isUpsert c = false ∧ isQuery c = false) ∧
      (∀ c ∈ after, isUpsert c = false ∧ isQuery c = false) ∧
      env.query (log ++ before ++ [Call.upsert vectors nspace,
          Call.embeddingsCreate (EmbedInput.single query)]) vector nspace 5
        = Outcome.returned found ∧
      record.relevantSections = found.map (fun m =>
        { score := m.score, text := m.text, chunkIndex := m.chunkIndex,
          documentUrl := m.documentUrl }) ∧
      record.query = query ∧ record.documentUrl = documentUrl := by
  obtain ⟨before, after, vectors, vector, found, h1, h2, h3, h4, h5, h6, h7⟩ :=
    processQuery_trace env query documentUrl documentType log _ record (eq_pair_of_fst _ _ _ h)
  exact ⟨runNamespace env log, before, after, vectors, vector, found, rfl, h1, h2, h3, h4, h5,
    h6, h7⟩

/-- C29 at a concrete input: the query `first` in the stub environment, from the empty log.
The run upserts into `doc_1700000000000` and queries `doc_1700000000000` for 5 matches. -/
theorem processQuery_reads_own_namespace_witness :
    (∃ (nspace : JsString) (before after : List Call) (vectors : List VectorRecord)
      (vector : Embedding) (found : List StoreMatch),
      nspace = units "doc_" ++ decimal (stubEnv.clock []) ∧
      (processQuery stubEnv (units "first") policyUrl (units "txt") []).2
        = [] ++ before
          ++ [Call.upsert vectors nspace,
              Call.embeddingsCreate (EmbedInput.single (units "first")),
              Call.query vector nspace 5]
          ++ after ∧
      (∀ c ∈ before, isUpsert c = false ∧ isQuery c = false) ∧
      (∀ c ∈ after, isUpsert c = false ∧ isQuery c = false) ∧
      stubEnv.query ([] ++ before ++ [Call.upsert vectors nspace,
          Call.embeddingsCreate (EmbedInput.single (units "first"))]) vector nspace 5
        = Outcome.returned found ∧
      ({ query := units "first"
         answer := units "Answer 475"
         explanation := units "Based on 1 relevant document sections with similarity scores ranging from 9/10 to 9/10"
         relevantSections := [{ score := 9 / 10, text := oneSentence, chunkIndex := 0,
                                documentUrl := policyUrl }]
         documentUrl := policyUrl
         timestamp := units "1700000000009" } : AnswerRecord).relevantSections
        = found.map (fun m =>
          { score := m.score, text := m.text, chunkIndex := m.chunkIndex,
            documentUrl := m.documentUrl }) ∧
      ({ query := units "first"
         answer := units "Answer 475"
         explanation := units "Based on 1 relevant document sections with similarity scores ranging from 9/10 to 9/10"
         relevantSections := [{ score := 9 / 10, text := oneSentence, chunkIndex := 0,
                                documentUrl := policyUrl }]
         documentUrl := policyUrl
         timestamp := units "1700000000009" } : AnswerRecord).query = units "first" ∧
      ({ query := units "first"
         answer := units "Answer 475"
         explanation := units "Based on 1 relevant document sections with similarity scores ranging from 9/10 to 9/10"
         relevantSections := [{ score := 9 / 10, text := oneSentence, chunkIndex := 0,
                                documentUrl := policyUrl }]
         documentUrl := policyUrl
         timestamp := units "1700000000009" } : AnswerRecord).documentUrl = policyUrl) ∧
    ((processQuery stubEnv (units "first") policyUrl (units "txt") []).2.filter
        fun c => isUpsert c || isQuery c)
      = [Call.upsert
          [{ id := units "doc_1700000000000_1700000000003_0"
             values := [61]
             metadata := { documentUrl := policyUrl, documentType := units "txt",
                           totalChunks := 1, textChunks := [oneSentence] }
             chunkIndex := 0
             text := some oneSentence
             timestamp := units "1700000000004" }]
          (units "doc_1700000000000"),
         Call.query [5] (units "doc_1700000000000") 5] :=
  ⟨processQuery_reads_own_namespace stubEnv (units "first") policyUrl (units "txt") []
      { query := units "first"
        answer := units "Answer 475"
        explanation := units "Based on 1 relevant document sections with similarity scores ranging from 9/10 to 9/10"
        relevantSections := [{ score := 9 / 10, text := oneSentence, chunkIndex := 0,
                               documentUrl := policyUrl }]
        documentUrl := policyUrl
        timestamp := units "1700000000009" }
      (by decide!),
    by decide⟩

/-! ## Chunk sizes of at most 50 -/

/-- C30: for every text, every `chunkSize ≤ 50` and every `overlap` with
`0 ≤ overlap < chunkSize`, `splitTextIntoChunks` returns the empty sequence: every window
examined has at most `chunkSize` code units, so no segment passes the filter
`chunk.trim().length > 50`. -/
theorem splitTextIntoChunks_small_chunkSize (text : JsString) (chunkSize overlap : Int)
    (ho : 0 ≤ overlap) (hc : overlap < chunkSize) (h50 : chunkSize ≤ 50) :
    (∀ fuel : Nat, text.length ≤ fuel →
      splitTextIntoChunks fuel text chunkSize overlap = some []) ∧
    (∀ w ∈ windows text chunkSize overlap,
      (w.2.length : Int) ≤ chunkSize ∧ ¬ 50 < (trim w.2).length) := by
  constructor
  · intro fuel hf
    obtain ⟨r, hr⟩ := splitLoop_terminates text chunkSize overlap ho hc fuel 0 []
      (le_refl _) (by omega)
    have hok := splitLoop_chunks_ok text chunkSize overlap ho hc fuel 0 [] r (le_refl _) hr
      (fun _ hmem => absurd hmem (List.not_mem_nil _))
    have hnil : r = [] := by
      apply List.eq_nil_iff_forall_not_mem.mpr
      intro ch hch
      obtain ⟨h1, h2⟩ := hok ch hch
      have h3 := trim_length_le ch
      omega
    unfold splitTextIntoChunks
    rw [hr, hnil]
  · intro w hw
    have h1 := windowsFrom_length_le text chunkSize overlap ho hc text.length 0 (le_refl _) w hw
    have h2 := trim_length_le w.2
    exact ⟨h1, by omega⟩

/-- C30 at the input of the specification: `"Sentence one. Sentence two. Sentence three."`
with `chunkSize = 20`, `overlap = 5` yields no chunk at all, although three windows are
examined. -/
theorem splitTextIntoChunks_small_chunkSize_witness :
    (∀ fuel : Nat, threeSentences.length ≤ fuel →
      splitTextIntoChunks fuel threeSentences 20 5 = some []) ∧
    splitTextIntoChunks 43 threeSentences 20 5 = some [] ∧
    (windows threeSentences 20 5).map Prod.fst = [0, 15, 30] :=
  ⟨(splitTextIntoChunks_small_chunkSize threeSentences 20 5 (by decide) (by decide)
      (by decide)).1,
    by decide, by decide⟩

end LLMService
